import Mathlib

/-! # UObject timeline: runtime model

A shallow embedding of the runtime module of the UObject timeline plugin
(`TimelineObject.cpp`, `TimelineObjectBinding.cpp`).

* Cursor positions and key times are `float` in the source; they are modelled
  as rationals, i.e. as floats that are not NaN, compared with the usual order.
* Object pointers are `Option UObject` (`none` is `nullptr`).
* Delegate broadcasts are recorded as a trace of `Notification`s; what the
  listeners themselves do is outside the model.
-/

namespace ObjectTimeline

/-! ## Engine types used by the source -/

/-- Engine name type `FName`, modelled by its string. -/
abbrev FName := String

/-- The engine constant `NAME_None`. -/
def NAME_None : FName := "None"

/-- Identity of a live engine object (a non-null `UObject*`). -/
abbrev UObject := Nat

/-- Engine vector value. -/
structure FVector where
  X : ℚ
  Y : ℚ
  Z : ℚ
deriving DecidableEq, Repr

/-- Engine colour value. -/
structure FLinearColor where
  R : ℚ
  G : ℚ
  B : ℚ
  A : ℚ
deriving DecidableEq, Repr

/-- Engine constant `FVector::ZeroVector`. -/
def FVector.ZeroVector : FVector := ⟨0, 0, 0⟩

/-- Engine constant `FLinearColor::Black` (opaque black). -/
def FLinearColor.Black : FLinearColor := ⟨0, 0, 0, 1⟩

/-- Engine map `TMap`, as an association list in insertion order. -/
abbrev TMap (K V : Type) := List (K × V)

namespace TMap

variable {K V : Type} [DecidableEq K]

/-- Lookup `TMap::Find`: the value stored under the key, if any. -/
def Find : TMap K V → K → Option V
  | [], _ => none
  | (k1, v) :: rest, k => if k1 = k then some v else Find rest k

/-- Insertion `TMap::Add`: replaces the value of an existing key, otherwise appends. -/
def Add : TMap K V → K → V → TMap K V
  | [], k, v => [(k, v)]
  | (k1, v1) :: rest, k, v => if k1 = k then (k, v) :: rest else (k1, v1) :: Add rest k v

/-- Lookup-or-insert `TMap::FindOrAdd` with the default value `d`: the map afterwards. -/
def FindOrAdd (m : TMap K V) (k : K) (d : V) : TMap K V :=
  match Find m k with
  | some _ => m
  | none => Add m k d

/-- Key membership `TMap::Contains`. -/
def Contains (m : TMap K V) (k : K) : Bool := (Find m k).isSome

end TMap

/-- Engine set `TSet`, as a duplicate-free list in insertion order. -/
abbrev TSet (α : Type) := List α

namespace TSet

variable {α : Type} [DecidableEq α]

/-- Membership test `TSet::Contains`. -/
def Contains (s : TSet α) (a : α) : Bool := decide (a ∈ s)

/-- Insertion `TSet::Add`: an element already present is not added again. -/
def Add (s : TSet α) (a : α) : TSet α := if a ∈ s then s else s ++ [a]

end TSet

/-- Engine `FScriptDelegate` after `BindUFunction(Object, FunctionName)`. -/
structure FScriptDelegate where
  Object : UObject
  FunctionName : FName
deriving DecidableEq, Repr

/-- Modelled from the spec: a notification channel (engine dynamic multicast delegate,
whose code is not part of the sources) is the list of its bound listeners in binding
order. -/
abbrev FMulticastScriptDelegate := List FScriptDelegate

namespace FMulticastScriptDelegate

/-- Modelled from the spec: `AddUnique` binds a listener unless the same
(target, function) pair is already bound in the channel. -/
def AddUnique (d : FMulticastScriptDelegate) (x : FScriptDelegate) : FMulticastScriptDelegate :=
  if x ∈ d then d else d ++ [x]

/-- Modelled from the spec: `RemoveAll(Object)` removes every listener of the channel
whose target is `Object`. -/
def RemoveAll (d : FMulticastScriptDelegate) (BoundObject : UObject) : FMulticastScriptDelegate :=
  d.filter (fun x => decide (x.Object ≠ BoundObject))

/-- Modelled from the spec: `Broadcast` invokes every currently bound listener of the
channel, in binding order; the result is the list of listeners invoked. -/
def Broadcast (d : FMulticastScriptDelegate) : List FScriptDelegate := d

end FMulticastScriptDelegate

/-- One key of an engine `FRichCurve`. -/
structure FRichCurveKey where
  Time : ℚ
  Value : ℚ
deriving DecidableEq, Repr

/-- Modelled from the spec: a curve is a sampling function together with its finite,
ordered sequence of keys (the engine's `FRichCurve`). -/
structure FRichCurve where
  Keys : List FRichCurveKey
  Eval : ℚ → ℚ

/-- Engine asset `UCurveFloat`. -/
structure UCurveFloat where
  FloatCurve : FRichCurve

/-- Sampling `UCurveFloat::GetFloatValue`. -/
def UCurveFloat.GetFloatValue (c : UCurveFloat) (InTime : ℚ) : ℚ := c.FloatCurve.Eval InTime

/-- The time of the last key of a float curve (0 when it has no key). -/
def UCurveFloat.LastKeyTime (c : UCurveFloat) : ℚ :=
  c.FloatCurve.Keys.foldl (fun m k => max m k.Time) 0

/-- Modelled from the spec: a vector curve is a sampling function, with the time of its
last key (engine `UCurveVector`). -/
structure UCurveVector where
  GetVectorValue : ℚ → FVector
  LastKeyTime : ℚ := 0

/-- Modelled from the spec: a colour curve is a sampling function, with the time of its
last key (engine `UCurveLinearColor`). -/
structure UCurveLinearColor where
  GetLinearColorValue : ℚ → FLinearColor
  LastKeyTime : ℚ := 0

/-- The callbacks an engine single-cast `FOnTimelineEvent` of the timeline can hold. -/
inductive FOnTimelineEvent where
  | Unbound
  | Internal_OnTimelineUpdate
  | Internal_OnTimelineFinished
  | External (d : FScriptDelegate)
deriving DecidableEq, Repr

/-- Engine enum `ETimelineLengthMode`: explicit length, or length derived from the last
key. -/
inductive ETimelineLengthMode where
  | TL_TimelineLength
  | TL_LastKeyFrame
deriving DecidableEq, Repr

/-- Modelled from the spec: the playback state of the engine `FTimeline` (cursor,
direction, length and length mode, loop flag, play rate, playing flag), the value tracks
added to it, and the two callbacks the constructor of `UTimelineObject` installs. -/
structure FTimeline where
  Position : ℚ := 0
  Length : ℚ := 5
  LengthMode : ETimelineLengthMode := ETimelineLengthMode.TL_LastKeyFrame
  bLooping : Bool := false
  bReversePlayback : Bool := false
  bPlaying : Bool := false
  PlayRate : ℚ := 1
  InterpVectors : List (FName × Option UCurveVector) := []
  InterpFloats : List (FName × Option UCurveFloat) := []
  InterpLinearColors : List (FName × Option UCurveLinearColor) := []
  TimelinePostUpdateFunc : FOnTimelineEvent := FOnTimelineEvent.Unbound
  TimelineFinishedFunc : FOnTimelineEvent := FOnTimelineEvent.Unbound

namespace FTimeline

/-- Engine `FTimeline::GetPlaybackPosition`. -/
def GetPlaybackPosition (t : FTimeline) : ℚ := t.Position

/-- Engine `FTimeline::IsPlaying`. -/
def IsPlaying (t : FTimeline) : Bool := t.bPlaying

/-- Modelled from the spec: the timeline is reversing in the state `PlayingBackward`,
that is when it is playing and its direction is backward. -/
def IsReversing (t : FTimeline) : Bool := t.bPlaying && t.bReversePlayback

/-- Modelled from the spec: the last key time over the tracks the timeline holds (engine
`FTimeline::GetLastKeyframeTime`). -/
def GetLastKeyframeTime (t : FTimeline) : ℚ :=
  let m1 := t.InterpVectors.foldl (fun m p =>
    match p.2 with
    | some c => max c.LastKeyTime m
    | none => m) 0
  let m2 := t.InterpFloats.foldl (fun m p =>
    match p.2 with
    | some c => max c.LastKeyTime m
    | none => m) m1
  t.InterpLinearColors.foldl (fun m p =>
    match p.2 with
    | some c => max c.LastKeyTime m
    | none => m) m2

/-- Modelled from the spec: length resolution (engine `FTimeline::GetTimelineLength`): the
stored length in the explicit mode, the last key time in the derived mode. -/
def GetTimelineLength (t : FTimeline) : ℚ :=
  match t.LengthMode with
  | ETimelineLengthMode.TL_TimelineLength => t.Length
  | ETimelineLengthMode.TL_LastKeyFrame => t.GetLastKeyframeTime

/-- Modelled from the spec: `setPosition` moves the cursor to the value clamped into
`[0, length]`; the notifications it triggers are dispatched by the caller. -/
def SetPosition (t : FTimeline) (NewPosition : ℚ) : FTimeline :=
  { t with Position := max 0 (min NewPosition t.GetTimelineLength) }

/-- Modelled from the spec: `play()` enters `PlayingForward` from the current cursor. -/
def Play (t : FTimeline) : FTimeline := { t with bReversePlayback := false, bPlaying := true }

/-- Modelled from the spec: `stop()` enters `Stopped`, the cursor unchanged. -/
def Stop (t : FTimeline) : FTimeline := { t with bPlaying := false }

/-- Engine `FTimeline::SetTimelineLength`. -/
def SetTimelineLength (t : FTimeline) (NewLength : ℚ) : FTimeline := { t with Length := NewLength }

/-- Engine `FTimeline::SetTimelineLengthMode`. -/
def SetTimelineLengthMode (t : FTimeline) (NewMode : ETimelineLengthMode) : FTimeline :=
  { t with LengthMode := NewMode }

/-- Engine `FTimeline::SetLooping`. -/
def SetLooping (t : FTimeline) (bNewLooping : Bool) : FTimeline := { t with bLooping := bNewLooping }

/-- Engine `FTimeline::SetPlayRate`. -/
def SetPlayRate (t : FTimeline) (NewRate : ℚ) : FTimeline := { t with PlayRate := NewRate }

/-- Engine `FTimeline::AddInterpFloat` with an unbound delegate and no property name. -/
def AddInterpFloat (t : FTimeline) (FloatCurve : Option UCurveFloat) (TrackName : FName) :
    FTimeline :=
  { t with InterpFloats := t.InterpFloats ++ [(TrackName, FloatCurve)] }

/-- Engine `FTimeline::AddInterpVector` with an unbound delegate and no property name. -/
def AddInterpVector (t : FTimeline) (VectorCurve : Option UCurveVector) (TrackName : FName) :
    FTimeline :=
  { t with InterpVectors := t.InterpVectors ++ [(TrackName, VectorCurve)] }

/-- Engine `FTimeline::AddInterpLinearColor` with an unbound delegate and no property name. -/
def AddInterpLinearColor (t : FTimeline) (LinearColorCurve : Option UCurveLinearColor)
    (TrackName : FName) : FTimeline :=
  { t with InterpLinearColors := t.InterpLinearColors ++ [(TrackName, LinearColorCurve)] }

/-- The track loop of the set-curve operations of the timeline: the curve of the first track
with the given name is replaced. -/
def SetTrackCurve {C : Type} (NewCurve : Option C) (TrackName : FName) :
    List (FName × Option C) → List (FName × Option C)
  | [] => []
  | (n, c) :: rest =>
    if n = TrackName then (n, NewCurve) :: rest
    else (n, c) :: SetTrackCurve NewCurve TrackName rest

/-- Modelled from the spec: the explicit set-curve operation of the timeline for a float
track (engine `FTimeline::SetFloatCurve`): it replaces the curve of the timeline's own track
of that name. -/
def SetFloatCurve (t : FTimeline) (NewFloatCurve : Option UCurveFloat) (FloatTrackName : FName) :
    FTimeline :=
  if FloatTrackName ≠ NAME_None then
    { t with InterpFloats := SetTrackCurve NewFloatCurve FloatTrackName t.InterpFloats }
  else t

/-- Modelled from the spec: the set-curve operation for a vector track (engine
`FTimeline::SetVectorCurve`). -/
def SetVectorCurve (t : FTimeline) (NewVectorCurve : Option UCurveVector)
    (VectorTrackName : FName) : FTimeline :=
  if VectorTrackName ≠ NAME_None then
    { t with InterpVectors := SetTrackCurve NewVectorCurve VectorTrackName t.InterpVectors }
  else t

/-- Modelled from the spec: the set-curve operation for a colour track (engine
`FTimeline::SetLinearColorCurve`). -/
def SetLinearColorCurve (t : FTimeline) (NewLinearColorCurve : Option UCurveLinearColor)
    (LinearColorTrackName : FName) : FTimeline :=
  if LinearColorTrackName ≠ NAME_None then
    { t with InterpLinearColors :=
        SetTrackCurve NewLinearColorCurve LinearColorTrackName t.InterpLinearColors }
  else t

/-- Modelled from the spec: the cursor a looping timeline wraps to when a forward step
carries it to `p` past the length `L` (the length is subtracted until the cursor is no
longer past the end). -/
def WrapForward (p L : ℚ) : ℚ := if 0 < L then p - L * (⌈p / L⌉ - 1) else 0

/-- Modelled from the spec: the cursor a looping timeline wraps to when a backward step
carries it to `p` below 0 (the length is added until the cursor is no longer negative). -/
def WrapBackward (p L : ℚ) : ℚ := if 0 < L then p + L * ⌈-p / L⌉ else 0

end FTimeline

/-- Engine `AWorldSettings`: the bounds of the undilated frame time. -/
structure AWorldSettings where
  MinUndilatedFrameTime : ℚ
  MaxUndilatedFrameTime : ℚ
deriving DecidableEq, Repr

/-- The engine context of a tick: the undilated application delta `FApp::GetDeltaTime()` and,
for an outer object, the world settings of its world when it has a world with settings. -/
structure FTickContext where
  AppDeltaTime : ℚ
  GetWorldSettings : UObject → Option AWorldSettings

/-- Engine `FMath::Clamp`. -/
def FMath.Clamp (X Min Max : ℚ) : ℚ := max (min X Max) Min

/-! ## The timeline object -/

/-- A binding key `TPair<TWeakObjectPtr<UObject>, FName>`. -/
abbrev FBindingKey := UObject × FName

/-- One delegate broadcast performed by the timeline object. -/
inductive Notification where
  | FloatTrack (TrackName : FName) (Value : ℚ)
  | VectorTrack (TrackName : FName) (Value : FVector)
  | LinearColorTrack (TrackName : FName) (Value : FLinearColor)
  | EventTrack (TrackName : FName)
  | TimelineUpdate
  | TimelineFinished
deriving DecidableEq, Repr

/-- State of a `UTimelineObject` (members of `TimelineObject.h`), with its outer object
and object name. -/
structure UTimelineObject where
  Outer : UObject
  ObjectFName : FName
  TheTimeline : FTimeline
  bIgnoreTimeDilation : Bool
  FloatTrackCurves : TMap FName (Option UCurveFloat)
  VectorTrackCurves : TMap FName (Option UCurveVector)
  LinearColorTrackCurves : TMap FName (Option UCurveLinearColor)
  EventTrackCurves : TMap FName (Option UCurveFloat)
  EventTrackDelegates : TMap FName FMulticastScriptDelegate
  LastEventTrackPositions : TMap FName ℚ
  BoundUpdateFunctions : TSet FBindingKey
  BoundFinishedFunctions : TSet FBindingKey
  BoundEventTrackFunctions : TMap FName (TSet FBindingKey)
  OnTimelineUpdate : FMulticastScriptDelegate
  OnTimelineFinished : FMulticastScriptDelegate
  OnFloatTrack : FMulticastScriptDelegate
  OnVectorTrack : FMulticastScriptDelegate
  OnLinearColorTrack : FMulticastScriptDelegate
  bPendingAutoPlay : Bool

namespace UTimelineObject

/-- The constructor `UTimelineObject::UTimelineObject`, for an object created under
`Outer` with name `ObjectFName`. -/
def new (Outer : UObject) (ObjectFName : FName) : UTimelineObject :=
  { Outer := Outer
    ObjectFName := ObjectFName
    TheTimeline :=
      { TimelinePostUpdateFunc := FOnTimelineEvent.Internal_OnTimelineUpdate
        TimelineFinishedFunc := FOnTimelineEvent.Internal_OnTimelineFinished }
    bIgnoreTimeDilation := false
    FloatTrackCurves := []
    VectorTrackCurves := []
    LinearColorTrackCurves := []
    EventTrackCurves := []
    EventTrackDelegates := []
    LastEventTrackPositions := []
    BoundUpdateFunctions := []
    BoundFinishedFunctions := []
    BoundEventTrackFunctions := []
    OnTimelineUpdate := []
    OnTimelineFinished := []
    OnFloatTrack := []
    OnVectorTrack := []
    OnLinearColorTrack := []
    bPendingAutoPlay := false }

/-- `UTimelineObject::GetPlaybackPosition`. -/
def GetPlaybackPosition (s : UTimelineObject) : ℚ := s.TheTimeline.GetPlaybackPosition

/-- `UTimelineObject::IsReversing`. -/
def IsReversing (s : UTimelineObject) : Bool := s.TheTimeline.IsReversing

/-- `UTimelineObject::IsPlaying`. -/
def IsPlaying (s : UTimelineObject) : Bool := s.TheTimeline.IsPlaying

/-- `UTimelineObject::RegisterEventTrack`. -/
def RegisterEventTrack (s : UTimelineObject) (TrackName : FName)
    (EventCurve : Option UCurveFloat) : UTimelineObject :=
  match EventCurve with
  | none => s
  | some c =>
    if TrackName ≠ NAME_None then
      { s with
        EventTrackCurves := s.EventTrackCurves.Add TrackName (some c)
        EventTrackDelegates := s.EventTrackDelegates.FindOrAdd TrackName []
        LastEventTrackPositions := s.LastEventTrackPositions.Add TrackName (-1) }
    else s

/-- The crossing test of `CheckEventTracks` for one key (`bShouldFire`). -/
def ShouldFire (bIsReversing : Bool) (LastPosition CurrentPosition KeyTime : ℚ) : Bool :=
  if bIsReversing then
    decide (KeyTime < LastPosition) && decide (KeyTime ≥ CurrentPosition)
  else
    decide (KeyTime > LastPosition) && decide (KeyTime ≤ CurrentPosition)

/-- The key loop of `CheckEventTracks` for one track: at the first key that should fire,
the track's delegate is broadcast if it is found, and the loop stops. -/
def CheckKeys (bIsReversing : Bool) (LastPosition CurrentPosition : ℚ)
    (Delegates : TMap FName FMulticastScriptDelegate) (TrackName : FName) :
    List FRichCurveKey → List Notification
  | [] => []
  | k :: rest =>
    if ShouldFire bIsReversing LastPosition CurrentPosition k.Time then
      match Delegates.Find TrackName with
      | some _ => [Notification.EventTrack TrackName]
      | none => []
    else CheckKeys bIsReversing LastPosition CurrentPosition Delegates TrackName rest

/-- The body of the track loop of `CheckEventTracks`, on the detector positions and the
broadcasts made so far. -/
def CheckEventTrack (CurrentPosition : ℚ) (bIsReversing : Bool)
    (Delegates : TMap FName FMulticastScriptDelegate)
    (acc : TMap FName ℚ × List Notification) (Pair : FName × Option UCurveFloat) :
    TMap FName ℚ × List Notification :=
  match Pair.2 with
  | none => acc
  | some EventCurve =>
    let TrackName := Pair.1
    let Positions :=
      match acc.1.Find TrackName with
      | some _ => acc.1
      | none => acc.1.Add TrackName (-1)
    let LastPosition := (Positions.Find TrackName).getD (-1)
    let Positions1 := Positions.Add TrackName CurrentPosition
    if LastPosition < 0 then (Positions1, acc.2)
    else
      (Positions1, acc.2 ++ CheckKeys bIsReversing LastPosition CurrentPosition Delegates
        TrackName EventCurve.FloatCurve.Keys)

/-- `UTimelineObject::CheckEventTracks`: the state afterwards and the broadcasts made. -/
def CheckEventTracks (s : UTimelineObject) : UTimelineObject × List Notification :=
  let CurrentPosition := s.GetPlaybackPosition
  let bIsReversing := s.IsReversing
  let r := s.EventTrackCurves.foldl
    (CheckEventTrack CurrentPosition bIsReversing s.EventTrackDelegates)
    (s.LastEventTrackPositions, [])
  ({ s with LastEventTrackPositions := r.1 }, r.2)

/-- `UTimelineObject::Internal_OnTimelineUpdate`. -/
def Internal_OnTimelineUpdate (s : UTimelineObject) : UTimelineObject × List Notification :=
  let floats := s.FloatTrackCurves.filterMap (fun Pair =>
    Pair.2.map (fun c => Notification.FloatTrack Pair.1 (c.GetFloatValue s.GetPlaybackPosition)))
  let vectors := s.VectorTrackCurves.filterMap (fun Pair =>
    Pair.2.map (fun c => Notification.VectorTrack Pair.1 (c.GetVectorValue s.GetPlaybackPosition)))
  let colors := s.LinearColorTrackCurves.filterMap (fun Pair =>
    Pair.2.map (fun c =>
      Notification.LinearColorTrack Pair.1 (c.GetLinearColorValue s.GetPlaybackPosition)))
  let r := CheckEventTracks s
  (r.1, floats ++ vectors ++ colors ++ r.2 ++ [Notification.TimelineUpdate])

/-- `UTimelineObject::Internal_OnTimelineFinished`. -/
def Internal_OnTimelineFinished (s : UTimelineObject) : UTimelineObject × List Notification :=
  (s, [Notification.TimelineFinished])

/-- Dispatch of `ExecuteIfBound` on one of the timeline's callbacks: the two internal
callbacks run on the object; an external delegate is outside the model. -/
def ExecuteIfBound (s : UTimelineObject) : FOnTimelineEvent → UTimelineObject × List Notification
  | FOnTimelineEvent.Internal_OnTimelineUpdate => Internal_OnTimelineUpdate s
  | FOnTimelineEvent.Internal_OnTimelineFinished => Internal_OnTimelineFinished s
  | _ => (s, [])

/-- `UTimelineObject::SetPlaybackPosition`, forwarding to the timeline's `setPosition`:
the cursor moves, and the post-update callback runs when `bFireUpdate` is set. The
timeline's own events (`AddEvent`), which `bFireEvents` gates, are not event tracks and
broadcast no channel of the object. -/
def SetPlaybackPosition (s : UTimelineObject) (NewPosition : ℚ) (_bFireEvents : Bool)
    (bFireUpdate : Bool) : UTimelineObject × List Notification :=
  let s1 := { s with TheTimeline := s.TheTimeline.SetPosition NewPosition }
  if bFireUpdate then ExecuteIfBound s1 s1.TheTimeline.TimelinePostUpdateFunc else (s1, [])

/-- `UTimelineObject::Play`. -/
def Play (s : UTimelineObject) : UTimelineObject := { s with TheTimeline := s.TheTimeline.Play }

/-- `UTimelineObject::Stop`. -/
def Stop (s : UTimelineObject) : UTimelineObject := { s with TheTimeline := s.TheTimeline.Stop }

/-- `UTimelineObject::SetTimelineLength`. -/
def SetTimelineLength (s : UTimelineObject) (NewLength : ℚ) : UTimelineObject :=
  { s with TheTimeline := s.TheTimeline.SetTimelineLength NewLength }

/-- `UTimelineObject::SetTimelineLengthMode`. -/
def SetTimelineLengthMode (s : UTimelineObject) (NewLengthMode : ETimelineLengthMode) :
    UTimelineObject :=
  { s with TheTimeline := s.TheTimeline.SetTimelineLengthMode NewLengthMode }

/-- `UTimelineObject::SetLooping`. -/
def SetLooping (s : UTimelineObject) (bNewLooping : Bool) : UTimelineObject :=
  { s with TheTimeline := s.TheTimeline.SetLooping bNewLooping }

/-- `UTimelineObject::SetPlayRate`. -/
def SetPlayRate (s : UTimelineObject) (NewRate : ℚ) : UTimelineObject :=
  { s with TheTimeline := s.TheTimeline.SetPlayRate NewRate }

/-- `UTimelineObject::SetIgnoreTimeDilation`. -/
def SetIgnoreTimeDilation (s : UTimelineObject) (bNewIgnoreTimeDilation : Bool) :
    UTimelineObject :=
  { s with bIgnoreTimeDilation := bNewIgnoreTimeDilation }

/-- Modelled from the spec: the terminal step of a non-looping timeline, already stopped:
the cursor is put on the endpoint, the update callback runs for that position, then the
finished callback runs. -/
def FinishAt (s : UTimelineObject) (Endpoint : ℚ) : UTimelineObject × List Notification :=
  let r := s.SetPlaybackPosition Endpoint true true
  let f := ExecuteIfBound r.1 r.1.TheTimeline.TimelineFinishedFunc
  (f.1, r.2 ++ f.2)

/-- Modelled from the spec: the per-step advance of the timeline (engine
`FTimeline::TickTimeline`), only while playing: the cursor moves by the delta times the
rate in the direction of play; on overshoot past an endpoint a looping timeline wraps, a
non-looping one stops on the endpoint and finishes; the update callback runs for the new
cursor. -/
def TickTimeline (s : UTimelineObject) (DeltaTime : ℚ) : UTimelineObject × List Notification :=
  if s.TheTimeline.bPlaying then
    let TimelineLength := s.TheTimeline.GetTimelineLength
    let EffectiveDeltaTime := DeltaTime *
      (if s.TheTimeline.bReversePlayback then -s.TheTimeline.PlayRate else s.TheTimeline.PlayRate)
    let NewPosition := s.TheTimeline.Position + EffectiveDeltaTime
    if 0 < EffectiveDeltaTime then
      if TimelineLength < NewPosition then
        if s.TheTimeline.bLooping then
          s.SetPlaybackPosition (FTimeline.WrapForward NewPosition TimelineLength) true true
        else s.Stop.FinishAt TimelineLength
      else s.SetPlaybackPosition NewPosition true true
    else
      if NewPosition < 0 then
        if s.TheTimeline.bLooping then
          s.SetPlaybackPosition (FTimeline.WrapBackward NewPosition TimelineLength) true true
        else s.Stop.FinishAt 0
      else s.SetPlaybackPosition NewPosition true true
  else (s, [])

/-- The delta time `UTimelineObject::Tick` hands to the timeline. -/
def TickDeltaTime (ctx : FTickContext) (s : UTimelineObject) (DeltaTime : ℚ) : ℚ :=
  if s.bIgnoreTimeDilation then
    match ctx.GetWorldSettings s.Outer with
    | some WorldSettings =>
      FMath.Clamp ctx.AppDeltaTime WorldSettings.MinUndilatedFrameTime
        WorldSettings.MaxUndilatedFrameTime
    | none => ctx.AppDeltaTime
  else DeltaTime

/-- `UTimelineObject::Tick`. -/
def Tick (ctx : FTickContext) (s : UTimelineObject) (DeltaTime : ℚ) :
    UTimelineObject × List Notification :=
  s.TickTimeline (TickDeltaTime ctx s DeltaTime)

/-- `UTimelineObject::IsTickable`, for an object that is not being destroyed. -/
def IsTickable (s : UTimelineObject) : Bool := s.TheTimeline.IsPlaying

/-- `UTimelineObject::OnRep_Timeline`: the object already holds the replicated timeline,
`OldTimeline` is the timeline it held before. -/
def OnRep_Timeline (s : UTimelineObject) (OldTimeline : FTimeline) :
    UTimelineObject × List Notification :=
  if !s.TheTimeline.IsPlaying ∧
      OldTimeline.GetPlaybackPosition ≠ s.TheTimeline.GetPlaybackPosition then
    s.SetPlaybackPosition s.TheTimeline.GetPlaybackPosition false true
  else (s, [])

/-- `UTimelineObject::SetFloatCurve`. -/
def SetFloatCurve (s : UTimelineObject) (NewFloatCurve : Option UCurveFloat)
    (FloatTrackName : FName) : UTimelineObject :=
  { s with TheTimeline := s.TheTimeline.SetFloatCurve NewFloatCurve FloatTrackName }

/-- `UTimelineObject::SetVectorCurve`. -/
def SetVectorCurve (s : UTimelineObject) (NewVectorCurve : Option UCurveVector)
    (VectorTrackName : FName) : UTimelineObject :=
  { s with TheTimeline := s.TheTimeline.SetVectorCurve NewVectorCurve VectorTrackName }

/-- `UTimelineObject::SetLinearColorCurve`. -/
def SetLinearColorCurve (s : UTimelineObject) (NewLinearColorCurve : Option UCurveLinearColor)
    (LinearColorTrackName : FName) : UTimelineObject :=
  { s with
    TheTimeline := s.TheTimeline.SetLinearColorCurve NewLinearColorCurve LinearColorTrackName }

/-- `UTimelineObject::GetFloatValue`. -/
def GetFloatValue (s : UTimelineObject) (FloatCurve : Option UCurveFloat) : ℚ :=
  match FloatCurve with
  | some c => c.GetFloatValue s.GetPlaybackPosition
  | none => 0

/-- `UTimelineObject::GetVectorValue`. -/
def GetVectorValue (s : UTimelineObject) (VectorCurve : Option UCurveVector) : FVector :=
  match VectorCurve with
  | some c => c.GetVectorValue s.GetPlaybackPosition
  | none => FVector.ZeroVector

/-- `UTimelineObject::GetLinearColorValue`. -/
def GetLinearColorValue (s : UTimelineObject) (ColorCurve : Option UCurveLinearColor) :
    FLinearColor :=
  match ColorCurve with
  | some c => c.GetLinearColorValue s.GetPlaybackPosition
  | none => FLinearColor.Black

/-- `UTimelineObject::GetFloatTrackCurve`. -/
def GetFloatTrackCurve (s : UTimelineObject) (TrackName : FName) : Option UCurveFloat :=
  match s.FloatTrackCurves.Find TrackName with
  | some Found => Found
  | none => none

/-- `UTimelineObject::GetVectorTrackCurve`. -/
def GetVectorTrackCurve (s : UTimelineObject) (TrackName : FName) : Option UCurveVector :=
  match s.VectorTrackCurves.Find TrackName with
  | some Found => Found
  | none => none

/-- `UTimelineObject::GetLinearColorTrackCurve`. -/
def GetLinearColorTrackCurve (s : UTimelineObject) (TrackName : FName) :
    Option UCurveLinearColor :=
  match s.LinearColorTrackCurves.Find TrackName with
  | some Found => Found
  | none => none

/-- `UTimelineObject::GetEventTrackDelegate`: `FindOrAdd` on the delegate map; the map
afterwards. -/
def GetEventTrackDelegate (s : UTimelineObject) (TrackName : FName) : UTimelineObject :=
  { s with EventTrackDelegates := s.EventTrackDelegates.FindOrAdd TrackName [] }

/-- The listener list of an event track's channel (empty when the track has no delegate). -/
def EventTrackListeners (s : UTimelineObject) (TrackName : FName) : FMulticastScriptDelegate :=
  (s.EventTrackDelegates.Find TrackName).getD []

/-- The tracking set of an event track (empty when the track has none). -/
def EventTrackBound (s : UTimelineObject) (TrackName : FName) : TSet FBindingKey :=
  (s.BoundEventTrackFunctions.Find TrackName).getD []

/-- `UTimelineObject::RemoveAllDelegatesForObject`. -/
def RemoveAllDelegatesForObject (s : UTimelineObject) (BoundObject : Option UObject) :
    UTimelineObject :=
  match BoundObject with
  | none => s
  | some T =>
    { s with
      OnTimelineUpdate := s.OnTimelineUpdate.RemoveAll T
      OnTimelineFinished := s.OnTimelineFinished.RemoveAll T
      OnFloatTrack := s.OnFloatTrack.RemoveAll T
      OnVectorTrack := s.OnVectorTrack.RemoveAll T
      OnLinearColorTrack := s.OnLinearColorTrack.RemoveAll T
      EventTrackDelegates := s.EventTrackDelegates.map (fun Pair => (Pair.1, Pair.2.RemoveAll T))
      BoundUpdateFunctions := s.BoundUpdateFunctions.filter (fun It => decide (It.1 ≠ T))
      BoundFinishedFunctions := s.BoundFinishedFunctions.filter (fun It => decide (It.1 ≠ T))
      BoundEventTrackFunctions := s.BoundEventTrackFunctions.map (fun TrackPair =>
        (TrackPair.1, TrackPair.2.filter (fun It => decide (It.1 ≠ T)))) }

/-- `UTimelineObject::BindUpdateFunction`; `FindFunctionByName` resolves a function name
on the class of a target. -/
def BindUpdateFunction (FindFunctionByName : UObject → FName → Bool) (s : UTimelineObject)
    (Target : Option UObject) (FunctionName : FName) : UTimelineObject :=
  match Target with
  | none => s
  | some T =>
    if FunctionName = NAME_None then s
    else if s.BoundUpdateFunctions.Contains (T, FunctionName) then s
    else if FindFunctionByName T FunctionName then
      { s with
        OnTimelineUpdate := s.OnTimelineUpdate.AddUnique ⟨T, FunctionName⟩
        BoundUpdateFunctions := s.BoundUpdateFunctions.Add (T, FunctionName) }
    else s

/-- `UTimelineObject::BindFinishedFunction`. -/
def BindFinishedFunction (FindFunctionByName : UObject → FName → Bool) (s : UTimelineObject)
    (Target : Option UObject) (FunctionName : FName) : UTimelineObject :=
  match Target with
  | none => s
  | some T =>
    if FunctionName = NAME_None then s
    else if s.BoundFinishedFunctions.Contains (T, FunctionName) then s
    else if FindFunctionByName T FunctionName then
      { s with
        OnTimelineFinished := s.OnTimelineFinished.AddUnique ⟨T, FunctionName⟩
        BoundFinishedFunctions := s.BoundFinishedFunctions.Add (T, FunctionName) }
    else s

/-- `UTimelineObject::BindEventTrackFunction`. The tracking set of the track is created
by `FindOrAdd` before the duplicate test and is written back after the binding. -/
def BindEventTrackFunction (FindFunctionByName : UObject → FName → Bool) (s : UTimelineObject)
    (TrackName : FName) (Target : Option UObject) (FunctionName : FName) : UTimelineObject :=
  match Target with
  | none => s
  | some T =>
    if FunctionName = NAME_None ∨ TrackName = NAME_None then s
    else
      let s1 := { s with
        BoundEventTrackFunctions := s.BoundEventTrackFunctions.FindOrAdd TrackName [] }
      let BoundFunctions := s1.EventTrackBound TrackName
      if BoundFunctions.Contains (T, FunctionName) then s1
      else if FindFunctionByName T FunctionName then
        let s2 := s1.GetEventTrackDelegate TrackName
        { s2 with
          EventTrackDelegates := s2.EventTrackDelegates.Add TrackName
            ((s2.EventTrackListeners TrackName).AddUnique ⟨T, FunctionName⟩)
          BoundEventTrackFunctions := s2.BoundEventTrackFunctions.Add TrackName
            (BoundFunctions.Add (T, FunctionName)) }
      else s1

end UTimelineObject

/-! ## Dynamic blueprint binding -/

/-- The struct `FTimelineObjectBindingEntry`. -/
structure FTimelineObjectBindingEntry where
  TimelineName : FName
  UpdateFunctionName : FName
  FinishedFunctionName : FName
  EventTrackFunctionNames : TMap FName FName
deriving DecidableEq, Repr

/-- The class `UTimelineObjectBinding`. -/
structure UTimelineObjectBinding where
  TimelineBindings : List FTimelineObjectBindingEntry
deriving DecidableEq, Repr

/-- The timeline objects that exist, in the order `GetObjectsWithOuter` lists them. -/
abbrev World := List UTimelineObject

/-- Applies `f` to the object at index `i` of the world. -/
def World.modifyAt (W : World) (i : Nat) (f : UTimelineObject → UTimelineObject) : World :=
  match W, i with
  | [], _ => []
  | x :: rest, 0 => f x :: rest
  | x :: rest, i + 1 => x :: World.modifyAt rest i f

/-- The object name `GetOrCreateTimelineObject` derives from a timeline name:
`TimelineObj_<TimelineName>`. -/
def UniqueObjectName (TimelineName : FName) : FName := "TimelineObj_" ++ TimelineName

/-- `TimelineObjectBindingHelpers::FindTimelineObject`: the index of the first timeline
object whose outer is `Owner` and whose name is the object name the helper derives from the
timeline name. -/
def FindTimelineObject (W : World) (Owner : Option UObject) (TimelineName : FName) : Option Nat :=
  match Owner with
  | none => none
  | some o =>
    let UniqueObjectName : FName := "TimelineObj_" ++ TimelineName
    W.findIdx? (fun Timeline =>
      decide (Timeline.Outer = o) && decide (Timeline.ObjectFName = UniqueObjectName))

namespace UTimelineObjectBinding

/-- The event-track loop of `BindDynamicDelegates` for one binding entry. -/
def BindEventTracks (FindFunctionByName : UObject → FName → Bool) (InInstance : UObject)
    (tl : UTimelineObject) : List (FName × FName) → UTimelineObject
  | [] => tl
  | TrackPair :: rest =>
    if TrackPair.2 ≠ NAME_None ∧ FindFunctionByName InInstance TrackPair.2 = true then
      let tl1 := tl.GetEventTrackDelegate TrackPair.1
      BindEventTracks FindFunctionByName InInstance
        { tl1 with
          EventTrackDelegates := tl1.EventTrackDelegates.Add TrackPair.1
            ((tl1.EventTrackListeners TrackPair.1).AddUnique ⟨InInstance, TrackPair.2⟩) }
        rest
    else BindEventTracks FindFunctionByName InInstance tl rest

/-- The body of the entry loop of `BindDynamicDelegates` on the timeline object found. -/
def BindEntry (FindFunctionByName : UObject → FName → Bool) (InInstance : UObject)
    (Entry : FTimelineObjectBindingEntry) (tl : UTimelineObject) : UTimelineObject :=
  let tl1 :=
    if Entry.UpdateFunctionName ≠ NAME_None ∧
        FindFunctionByName InInstance Entry.UpdateFunctionName = true then
      { tl with OnTimelineUpdate := tl.OnTimelineUpdate.AddUnique ⟨InInstance, Entry.UpdateFunctionName⟩ }
    else tl
  let tl2 :=
    if Entry.FinishedFunctionName ≠ NAME_None ∧
        FindFunctionByName InInstance Entry.FinishedFunctionName = true then
      { tl1 with
        OnTimelineFinished := tl1.OnTimelineFinished.AddUnique ⟨InInstance, Entry.FinishedFunctionName⟩ }
    else tl1
  BindEventTracks FindFunctionByName InInstance tl2 Entry.EventTrackFunctionNames

/-- The entry loop of `BindDynamicDelegates` for a non-null instance. -/
def BindEntries (FindFunctionByName : UObject → FName → Bool) (InInstance : UObject) :
    World → List FTimelineObjectBindingEntry → World
  | W, [] => W
  | W, Entry :: rest =>
    match FindTimelineObject W (some InInstance) Entry.TimelineName with
    | none => BindEntries FindFunctionByName InInstance W rest
    | some i =>
      BindEntries FindFunctionByName InInstance
        (W.modifyAt i (BindEntry FindFunctionByName InInstance Entry)) rest

/-- `UTimelineObjectBinding::BindDynamicDelegates`. -/
def BindDynamicDelegates (FindFunctionByName : UObject → FName → Bool)
    (b : UTimelineObjectBinding) (W : World) (InInstance : Option UObject) : World :=
  match InInstance with
  | none => W
  | some o => BindEntries FindFunctionByName o W b.TimelineBindings

end UTimelineObjectBinding

/-- `UTimelineObjectBinding::UnbindDynamicDelegates`, the entry loop for a non-null
instance. -/
def UTimelineObjectBinding.UnbindEntries (InInstance : UObject) :
    World → List FTimelineObjectBindingEntry → World
  | W, [] => W
  | W, Entry :: rest =>
    match FindTimelineObject W (some InInstance) Entry.TimelineName with
    | some i =>
      UnbindEntries InInstance
        (W.modifyAt i (fun tl => tl.RemoveAllDelegatesForObject (some InInstance))) rest
    | none => UnbindEntries InInstance W rest

/-- `UTimelineObjectBinding::UnbindDynamicDelegates`. -/
def UTimelineObjectBinding.UnbindDynamicDelegates (b : UTimelineObjectBinding) (W : World)
    (InInstance : Option UObject) : World :=
  match InInstance with
  | none => W
  | some o => UTimelineObjectBinding.UnbindEntries o W b.TimelineBindings

/-! ## Authored definitions and creation -/

/-- Engine `FTTFloatTrack` of a timeline template. -/
structure FTTFloatTrack where
  TrackName : FName
  CurveFloat : Option UCurveFloat

/-- Engine `FTTVectorTrack` of a timeline template. -/
structure FTTVectorTrack where
  TrackName : FName
  CurveVector : Option UCurveVector

/-- Engine `FTTLinearColorTrack` of a timeline template. -/
structure FTTLinearColorTrack where
  TrackName : FName
  CurveLinearColor : Option UCurveLinearColor

/-- Engine `FTTEventTrack` of a timeline template. -/
structure FTTEventTrack where
  TrackName : FName
  CurveKeys : Option UCurveFloat

/-- Engine `UTimelineTemplate`: the authored definition of a timeline. -/
structure UTimelineTemplate where
  VariableName : FName
  TimelineLength : ℚ
  LengthMode : ETimelineLengthMode
  bLoop : Bool
  bAutoPlay : Bool
  bIgnoreTimeDilation : Bool
  FloatTracks : List FTTFloatTrack
  VectorTracks : List FTTVectorTrack
  LinearColorTracks : List FTTLinearColorTrack
  EventTracks : List FTTEventTrack

/-- An entry of `DynamicBindingObjects`: a timeline object binding, or a binding object of
another class (or null). -/
inductive UDynamicBlueprintBinding where
  | TimelineObjectBinding (b : UTimelineObjectBinding)
  | Other

/-- Engine `UBlueprintGeneratedClass`: the authored timelines and the dynamic binding
objects of a blueprint class. -/
structure UBlueprintGeneratedClass where
  Timelines : List (Option UTimelineTemplate)
  DynamicBindingObjects : List UDynamicBlueprintBinding

namespace UTimelineObject

/-- The float-track loop body of `InitializeFromTemplate`. -/
def InitFloatTrack (s : UTimelineObject) (Track : FTTFloatTrack) : UTimelineObject :=
  match Track.CurveFloat with
  | some c =>
    { s with
      FloatTrackCurves := s.FloatTrackCurves.Add Track.TrackName (some c)
      TheTimeline := s.TheTimeline.AddInterpFloat (some c) Track.TrackName }
  | none => s

/-- The vector-track loop body of `InitializeFromTemplate`. -/
def InitVectorTrack (s : UTimelineObject) (Track : FTTVectorTrack) : UTimelineObject :=
  match Track.CurveVector with
  | some c =>
    { s with
      VectorTrackCurves := s.VectorTrackCurves.Add Track.TrackName (some c)
      TheTimeline := s.TheTimeline.AddInterpVector (some c) Track.TrackName }
  | none => s

/-- The colour-track loop body of `InitializeFromTemplate`. -/
def InitLinearColorTrack (s : UTimelineObject) (Track : FTTLinearColorTrack) : UTimelineObject :=
  match Track.CurveLinearColor with
  | some c =>
    { s with
      LinearColorTrackCurves := s.LinearColorTrackCurves.Add Track.TrackName (some c)
      TheTimeline := s.TheTimeline.AddInterpLinearColor (some c) Track.TrackName }
  | none => s

/-- The event-track loop body of `InitializeFromTemplate`. -/
def InitEventTrack (s : UTimelineObject) (Track : FTTEventTrack) : UTimelineObject :=
  match Track.CurveKeys with
  | some c => s.RegisterEventTrack Track.TrackName (some c)
  | none => s

/-- `UTimelineObject::InitializeFromTemplate`. -/
def InitializeFromTemplate (s : UTimelineObject) (Template : Option UTimelineTemplate) :
    UTimelineObject :=
  match Template with
  | none => s
  | some T =>
    let s1 := ((((s.SetTimelineLength T.TimelineLength).SetTimelineLengthMode
      T.LengthMode).SetLooping T.bLoop).SetPlayRate 1).SetIgnoreTimeDilation T.bIgnoreTimeDilation
    let s2 := T.FloatTracks.foldl InitFloatTrack s1
    let s3 := T.VectorTracks.foldl InitVectorTrack s2
    let s4 := T.LinearColorTracks.foldl InitLinearColorTrack s3
    let s5 := T.EventTracks.foldl InitEventTrack s4
    if T.bAutoPlay then { s5 with bPendingAutoPlay := true } else s5

/-- The template loop of `GetOrCreateTimelineObject`: the first non-null template whose
variable name is the timeline name. -/
def FindTemplate : List (Option UTimelineTemplate) → FName → Option UTimelineTemplate
  | [], _ => none
  | none :: rest, TimelineName => FindTemplate rest TimelineName
  | some T :: rest, TimelineName =>
    if T.VariableName = TimelineName then some T else FindTemplate rest TimelineName

/-- The binding-object loop of `GetOrCreateTimelineObject`: the first binding object that
is a timeline object binding. -/
def FirstTimelineObjectBinding : List UDynamicBlueprintBinding → Option UTimelineObjectBinding
  | [] => none
  | UDynamicBlueprintBinding.TimelineObjectBinding b :: _ => some b
  | UDynamicBlueprintBinding.Other :: rest => FirstTimelineObjectBinding rest

/-- The entry loop of `GetOrCreateTimelineObject`: the first entry for the timeline name. -/
def FindBindingEntry : List FTimelineObjectBindingEntry → FName →
    Option FTimelineObjectBindingEntry
  | [], _ => none
  | Entry :: rest, TimelineName =>
    if Entry.TimelineName = TimelineName then some Entry else FindBindingEntry rest TimelineName

/-- The track loop of `GetOrCreateTimelineObject`: binds the declared function of every
event track whose function name is not `NAME_None`. -/
def BindDeclaredEventTracks (FindFunctionByName : UObject → FName → Bool) (Owner : UObject)
    (tl : UTimelineObject) : List (FName × FName) → UTimelineObject
  | [] => tl
  | TrackPair :: rest =>
    if TrackPair.2 ≠ NAME_None then
      BindDeclaredEventTracks FindFunctionByName Owner
        (tl.BindEventTrackFunction FindFunctionByName TrackPair.1 (some Owner) TrackPair.2) rest
    else BindDeclaredEventTracks FindFunctionByName Owner tl rest

/-- The binding of the update and finished functions in `GetOrCreateTimelineObject`, on
both of its paths. -/
def BindUpdateAndFinished (FindFunctionByName : UObject → FName → Bool) (Owner : UObject)
    (tl : UTimelineObject) (UpdateFuncName FinishedFuncName : FName) : UTimelineObject :=
  let tl1 :=
    if UpdateFuncName ≠ NAME_None then tl.BindUpdateFunction FindFunctionByName (some Owner)
      UpdateFuncName
    else tl
  if FinishedFuncName ≠ NAME_None then
    tl1.BindFinishedFunction FindFunctionByName (some Owner) FinishedFuncName
  else tl1

/-- The creation step of `GetOrCreateTimelineObject`: the new object, initialised from the
first matching template when the class of the owner is blueprint-generated (`GetBPGC`) and
has one. -/
def CreateInitialized (GetBPGC : UObject → Option UBlueprintGeneratedClass) (Owner : UObject)
    (TimelineName : FName) : UTimelineObject :=
  let NewTimeline := new Owner (UniqueObjectName TimelineName)
  match GetBPGC Owner with
  | some BPGC =>
    match FindTemplate BPGC.Timelines TimelineName with
    | some Template => NewTimeline.InitializeFromTemplate (some Template)
    | none => NewTimeline
  | none => NewTimeline

/-- The binding steps of `GetOrCreateTimelineObject` on the new object: the update and
finished functions, then the declared event-track functions. -/
def BindCreated (FindFunctionByName : UObject → FName → Bool)
    (GetBPGC : UObject → Option UBlueprintGeneratedClass) (Owner : UObject)
    (NewTimeline : UTimelineObject) (TimelineName UpdateFuncName FinishedFuncName : FName) :
    UTimelineObject :=
  let tl1 := BindUpdateAndFinished FindFunctionByName Owner NewTimeline UpdateFuncName
    FinishedFuncName
  match GetBPGC Owner with
  | some BPGC =>
    match FirstTimelineObjectBinding BPGC.DynamicBindingObjects with
    | some TimelineBinding =>
      match FindBindingEntry TimelineBinding.TimelineBindings TimelineName with
      | some Entry =>
        BindDeclaredEventTracks FindFunctionByName Owner tl1 Entry.EventTrackFunctionNames
      | none => tl1
    | none => tl1
  | none => tl1

/-- The last step of `GetOrCreateTimelineObject`: the deferred autoplay. -/
def TriggerAutoPlay (NewTimeline : UTimelineObject) : UTimelineObject :=
  if NewTimeline.bPendingAutoPlay then ({ NewTimeline with bPendingAutoPlay := false }).Play
  else NewTimeline

/-- `UTimelineObject::GetOrCreateTimelineObject`: the world afterwards and the object
returned, as its index in the world (`none` is `nullptr`). -/
def GetOrCreateTimelineObject (FindFunctionByName : UObject → FName → Bool)
    (GetBPGC : UObject → Option UBlueprintGeneratedClass) (W : World) (Owner : Option UObject)
    (TimelineName UpdateFuncName FinishedFuncName : FName) : World × Option Nat :=
  match Owner with
  | none => (W, none)
  | some o =>
    match W.findIdx? (fun ExistingTimeline =>
        decide (ExistingTimeline.Outer = o) &&
          decide (ExistingTimeline.ObjectFName = UniqueObjectName TimelineName)) with
    | some i =>
      (W.modifyAt i (fun ExistingTimeline =>
        BindUpdateAndFinished FindFunctionByName o ExistingTimeline UpdateFuncName
          FinishedFuncName), some i)
    | none =>
      (W ++ [TriggerAutoPlay (BindCreated FindFunctionByName GetBPGC o
        (CreateInitialized GetBPGC o TimelineName) TimelineName UpdateFuncName
        FinishedFuncName)], some W.length)

end UTimelineObject

/-! ## Auxiliary definitions of the proofs -/

namespace UTimelineObject

/-- What one visit of the track loop broadcasts for a track with curve `c` whose stored
last position is `last` (absent: the sentinel is stored first). -/
def TrackBroadcasts (bIsReversing : Bool) (CurrentPosition : ℚ)
    (Delegates : TMap FName FMulticastScriptDelegate) (TrackName : FName) (last : Option ℚ)
    (c : UCurveFloat) : List Notification :=
  if last.getD (-1) < 0 then []
  else CheckKeys bIsReversing (last.getD (-1)) CurrentPosition Delegates TrackName c.FloatCurve.Keys

/-- Well-formedness of the event-track maps, which every state built by the constructor
and `RegisterEventTrack` has: the curve map has one entry per track name, and every track
with a curve entry has a delegate entry. -/
structure TracksWF (s : UTimelineObject) : Prop where
  curveKeys : (s.EventTrackCurves.map Prod.fst).Nodup
  hasDelegate : ∀ p ∈ s.EventTrackCurves, (s.EventTrackDelegates.Find p.1).isSome = true

/-- The object with its cursor at `q`, as the timeline leaves it before it runs the
update callback. -/
def WithCursor (s : UTimelineObject) (q : ℚ) : UTimelineObject :=
  { s with TheTimeline := { s.TheTimeline with Position := q } }

/-- The object with `p` as the stored last position of the event track `n`. -/
def WithLastPosition (s : UTimelineObject) (n : FName) (p : ℚ) : UTimelineObject :=
  { s with LastEventTrackPositions := s.LastEventTrackPositions.Add n p }

/-- The object with its timeline in the state `T` (any cursor position and direction). -/
def WithTimeline (s : UTimelineObject) (T : FTimeline) : UTimelineObject :=
  { s with TheTimeline := T }

/-- The object with its timeline playing, forward or backward. -/
def WithDirection (s : UTimelineObject) (bReverse : Bool) : UTimelineObject :=
  { s with TheTimeline := { s.TheTimeline with bPlaying := true, bReversePlayback := bReverse } }

/-- Successive `CheckEventTracks` evaluations with the cursor at each position of `qs` in
turn: the broadcasts of each evaluation. -/
def CheckEventTracksSeq : UTimelineObject → List ℚ → List (List Notification)
  | _, [] => []
  | s, q :: rest =>
    (CheckEventTracks (s.WithCursor q)).2 ::
      CheckEventTracksSeq (CheckEventTracks (s.WithCursor q)).1 rest

/-- An event curve with a single key at time `t`. -/
def singleKeyCurve (t : ℚ) : UCurveFloat := ⟨⟨[⟨t, 0⟩], fun _ => 0⟩⟩

/-- An event curve with keys at times 1, 2 and 3. -/
def threeKeyCurve : UCurveFloat := ⟨⟨[⟨1, 0⟩, ⟨2, 0⟩, ⟨3, 0⟩], fun _ => 0⟩⟩

/-- A new timeline object with one event track `Opened` with curve `c`, just registered. -/
def doorRegistered (c : UCurveFloat) : UTimelineObject :=
  (new 7 "TimelineObj_Door").RegisterEventTrack "Opened" (some c)

/-- The object `doorRegistered c` after one evaluation with the cursor at `p0` (the detector
of `Opened` is then baselined at `p0`), playing in the given direction. -/
def doorBaselined (c : UCurveFloat) (p0 : ℚ) (bReverse : Bool) : UTimelineObject :=
  (CheckEventTracks ((doorRegistered c).WithCursor p0)).1.WithDirection bReverse

/-- The object `doorRegistered` with a key at time 1, in the explicit length mode (length
5), after a first silent snap to position 0, which baselines the detector of `Opened` at 0;
the timeline is not playing. -/
def doorSnapped : UTimelineObject :=
  (((doorRegistered (singleKeyCurve 1)).SetTimelineLengthMode
    ETimelineLengthMode.TL_TimelineLength).SetPlaybackPosition 0 false true).1

/-- No (target, function) pair occurs twice in the listener list of the Update channel,
of the Finished channel or of an event track's channel. -/
structure UniqueBindings (s : UTimelineObject) : Prop where
  update : s.OnTimelineUpdate.Nodup
  finished : s.OnTimelineFinished.Nodup
  eventTrack : ∀ p ∈ s.EventTrackDelegates, p.2.Nodup

/-- Every key recorded in a tracking set has its listener in the listener list of the same
channel. -/
structure TrackingSound (s : UTimelineObject) : Prop where
  update : ∀ k ∈ s.BoundUpdateFunctions, (⟨k.1, k.2⟩ : FScriptDelegate) ∈ s.OnTimelineUpdate
  finished : ∀ k ∈ s.BoundFinishedFunctions,
    (⟨k.1, k.2⟩ : FScriptDelegate) ∈ s.OnTimelineFinished
  eventTrack : ∀ p ∈ s.BoundEventTrackFunctions, ∀ k ∈ p.2,
    (⟨k.1, k.2⟩ : FScriptDelegate) ∈ s.EventTrackListeners p.1

/-- Everything of the object other than its listener lists and tracking sets is the same in
`a` and `b`: identity, timeline state, flags, track maps and detector positions. -/
structure SameCore (a b : UTimelineObject) : Prop where
  outer : b.Outer = a.Outer
  objectName : b.ObjectFName = a.ObjectFName
  timeline : b.TheTimeline = a.TheTimeline
  ignoreTimeDilation : b.bIgnoreTimeDilation = a.bIgnoreTimeDilation
  floatTracks : b.FloatTrackCurves = a.FloatTrackCurves
  vectorTracks : b.VectorTrackCurves = a.VectorTrackCurves
  linearColorTracks : b.LinearColorTrackCurves = a.LinearColorTrackCurves
  eventTracks : b.EventTrackCurves = a.EventTrackCurves
  lastPositions : b.LastEventTrackPositions = a.LastEventTrackPositions
  pendingAutoPlay : b.bPendingAutoPlay = a.bPendingAutoPlay

/-- The listener lists of all channels and all tracking sets are the same in `a` and `b`. -/
structure SameBindings (a b : UTimelineObject) : Prop where
  update : b.OnTimelineUpdate = a.OnTimelineUpdate
  finished : b.OnTimelineFinished = a.OnTimelineFinished
  floatTrack : b.OnFloatTrack = a.OnFloatTrack
  vectorTrack : b.OnVectorTrack = a.OnVectorTrack
  linearColorTrack : b.OnLinearColorTrack = a.OnLinearColorTrack
  eventTrack : b.EventTrackDelegates = a.EventTrackDelegates
  boundUpdate : b.BoundUpdateFunctions = a.BoundUpdateFunctions
  boundFinished : b.BoundFinishedFunctions = a.BoundFinishedFunctions
  boundEventTrack : b.BoundEventTrackFunctions = a.BoundEventTrackFunctions

/-- What initialisation from a template leaves as it is, from `a` to `b`: the identity of the
object, the playing flag, direction and cursor of the timeline, its two callbacks, the
listener lists of the Update, Finished and value-track channels, the listeners of every
event track, and the tracking sets. -/
structure InitFrame (a b : UTimelineObject) : Prop where
  outer : b.Outer = a.Outer
  objectName : b.ObjectFName = a.ObjectFName
  playing : b.TheTimeline.bPlaying = a.TheTimeline.bPlaying
  reverse : b.TheTimeline.bReversePlayback = a.TheTimeline.bReversePlayback
  position : b.TheTimeline.Position = a.TheTimeline.Position
  postUpdateFunc : b.TheTimeline.TimelinePostUpdateFunc = a.TheTimeline.TimelinePostUpdateFunc
  finishedFunc : b.TheTimeline.TimelineFinishedFunc = a.TheTimeline.TimelineFinishedFunc
  update : b.OnTimelineUpdate = a.OnTimelineUpdate
  finished : b.OnTimelineFinished = a.OnTimelineFinished
  floatTrack : b.OnFloatTrack = a.OnFloatTrack
  vectorTrack : b.OnVectorTrack = a.OnVectorTrack
  linearColorTrack : b.OnLinearColorTrack = a.OnLinearColorTrack
  eventTrack : ∀ n, b.EventTrackListeners n = a.EventTrackListeners n
  boundUpdate : b.BoundUpdateFunctions = a.BoundUpdateFunctions
  boundFinished : b.BoundFinishedFunctions = a.BoundFinishedFunctions
  boundEventTrack : b.BoundEventTrackFunctions = a.BoundEventTrackFunctions

/-- Every event track that has a delegate in `a` has one in `b`. -/
def DelegatesGrow (a b : UTimelineObject) : Prop :=
  ∀ n, (a.EventTrackDelegates.Find n).isSome = true →
    (b.EventTrackDelegates.Find n).isSome = true

/-- The listener list `b` is the list `a`, or `a` with the listener `x` appended. -/
def SameOrAppended (a b : FMulticastScriptDelegate) (x : FScriptDelegate) : Prop :=
  b = a ∨ b = a ++ [x]

/-- The object `b` notifies as the object `a` does: the four name-to-curve maps and the
detector positions are the same, the track getters return the same curve for every name,
and the update callback broadcasts the same notifications and leaves the same detector
positions. -/
structure KeepsNotifications (b a : UTimelineObject) : Prop where
  floatTracks : b.FloatTrackCurves = a.FloatTrackCurves
  vectorTracks : b.VectorTrackCurves = a.VectorTrackCurves
  linearColorTracks : b.LinearColorTrackCurves = a.LinearColorTrackCurves
  eventTracks : b.EventTrackCurves = a.EventTrackCurves
  lastPositions : b.LastEventTrackPositions = a.LastEventTrackPositions
  getFloat : ∀ n, b.GetFloatTrackCurve n = a.GetFloatTrackCurve n
  getVector : ∀ n, b.GetVectorTrackCurve n = a.GetVectorTrackCurve n
  getLinearColor : ∀ n, b.GetLinearColorTrackCurve n = a.GetLinearColorTrackCurve n
  broadcasts : (Internal_OnTimelineUpdate b).2 = (Internal_OnTimelineUpdate a).2
  positionsAfter : (Internal_OnTimelineUpdate b).1.LastEventTrackPositions =
    (Internal_OnTimelineUpdate a).1.LastEventTrackPositions

/-- The two callbacks of the timeline are the ones the constructor installs. -/
def ConstructorCallbacks (s : UTimelineObject) : Prop :=
  s.TheTimeline.TimelinePostUpdateFunc = FOnTimelineEvent.Internal_OnTimelineUpdate ∧
  s.TheTimeline.TimelineFinishedFunc = FOnTimelineEvent.Internal_OnTimelineFinished

/-- The event track `n` has a curve and its detector holds the unset sentinel. -/
def Unbaselined (s : UTimelineObject) (n : FName) : Prop :=
  (∃ c, s.EventTrackCurves.Find n = some (some c)) ∧
  s.LastEventTrackPositions.Find n = some (-1)

/-- The list `after` is the list `before` without the elements that `P` selects: the
elements that `P` does not select are all kept, as often and in the same relative order. -/
def KeepsOthers {α : Type} [DecidableEq α] (P : α → Prop) (before after : List α) : Prop :=
  after.Sublist before ∧ (∀ x ∈ after, ¬ P x) ∧ ∀ x, ¬ P x → after.count x = before.count x

/-- A binding miss: the target is null, or the function name is `NAME_None`, or the function
name does not resolve on the class of the target. -/
def BindingMiss (FindFunctionByName : UObject → FName → Bool) (Target : Option UObject)
    (FunctionName : FName) : Prop :=
  Target = none ∨ FunctionName = NAME_None ∨
    ∃ T, Target = some T ∧ FindFunctionByName T FunctionName = false

/-- The object `T` is the target of no listener of any channel and of no tracking entry. -/
structure HasNoBindings (s : UTimelineObject) (T : UObject) : Prop where
  update : ∀ x ∈ s.OnTimelineUpdate, x.Object ≠ T
  finished : ∀ x ∈ s.OnTimelineFinished, x.Object ≠ T
  floatTrack : ∀ x ∈ s.OnFloatTrack, x.Object ≠ T
  vectorTrack : ∀ x ∈ s.OnVectorTrack, x.Object ≠ T
  linearColorTrack : ∀ x ∈ s.OnLinearColorTrack, x.Object ≠ T
  eventTrack : ∀ p ∈ s.EventTrackDelegates, ∀ x ∈ p.2, x.Object ≠ T
  boundUpdate : ∀ k ∈ s.BoundUpdateFunctions, k.1 ≠ T
  boundFinished : ∀ k ∈ s.BoundFinishedFunctions, k.1 ≠ T
  boundEventTrack : ∀ p ∈ s.BoundEventTrackFunctions, ∀ k ∈ p.2, k.1 ≠ T

end UTimelineObject

/-- A call that changes the bindings of the timeline objects of a world; `i` is the index of
the timeline object the call is made on. -/
inductive BindingOp where
  | BindUpdateFunction (i : Nat) (Target : Option UObject) (FunctionName : FName)
  | BindFinishedFunction (i : Nat) (Target : Option UObject) (FunctionName : FName)
  | BindEventTrackFunction (i : Nat) (TrackName : FName) (Target : Option UObject)
      (FunctionName : FName)
  | BindDynamicDelegates (b : UTimelineObjectBinding) (InInstance : Option UObject)
  | RemoveAllDelegatesForObject (i : Nat) (BoundObject : Option UObject)

/-- The world after one binding call. -/
def World.applyOp (FindFunctionByName : UObject → FName → Bool) (W : World) : BindingOp → World
  | BindingOp.BindUpdateFunction i T F =>
    W.modifyAt i (fun tl => tl.BindUpdateFunction FindFunctionByName T F)
  | BindingOp.BindFinishedFunction i T F =>
    W.modifyAt i (fun tl => tl.BindFinishedFunction FindFunctionByName T F)
  | BindingOp.BindEventTrackFunction i n T F =>
    W.modifyAt i (fun tl => tl.BindEventTrackFunction FindFunctionByName n T F)
  | BindingOp.BindDynamicDelegates b o => b.BindDynamicDelegates FindFunctionByName W o
  | BindingOp.RemoveAllDelegatesForObject i T =>
    W.modifyAt i (fun tl => tl.RemoveAllDelegatesForObject T)

/-- The world after a sequence of binding calls. -/
def World.runOps (FindFunctionByName : UObject → FName → Bool) (W : World)
    (ops : List BindingOp) : World :=
  ops.foldl (World.applyOp FindFunctionByName) W

/-- A sequence of binding calls on the first timeline object of a world: the owner 7 binds
`OnTick` to Update twice, the blueprint binding of timeline `Door` binds it again, and the
bindings of another object are removed. -/
def doorOps : List BindingOp :=
  [ BindingOp.BindUpdateFunction 0 (some 7) "OnTick",
    BindingOp.BindUpdateFunction 0 (some 7) "OnTick",
    BindingOp.BindDynamicDelegates ⟨[⟨"Door", "OnTick", "None", [("Opened", "OnOpened")]⟩]⟩ (some 7),
    BindingOp.RemoveAllDelegatesForObject 0 (some 8) ]

/-- The timeline object that the calls `doorOps` leave. -/
def doorBound : UTimelineObject :=
  { UTimelineObject.new 7 "TimelineObj_Door" with
    OnTimelineUpdate := [⟨7, "OnTick"⟩]
    BoundUpdateFunctions := [(7, "OnTick")]
    EventTrackDelegates := [("Opened", [⟨7, "OnOpened"⟩])] }

/-- An authored timeline `Door`: explicit length 5, autoplay, one event track `Opened` whose
only key is at time 0. -/
def doorTemplate : UTimelineTemplate :=
  { VariableName := "Door"
    TimelineLength := 5
    LengthMode := ETimelineLengthMode.TL_TimelineLength
    bLoop := false
    bAutoPlay := true
    bIgnoreTimeDilation := false
    FloatTracks := []
    VectorTracks := []
    LinearColorTracks := []
    EventTracks := [⟨"Opened", some (UTimelineObject.singleKeyCurve 0)⟩] }

/-- A blueprint class with the timeline `Door` and a binding entry that declares the
listener `OnOpened` for its event track `Opened`. -/
def doorClass : UBlueprintGeneratedClass :=
  { Timelines := [some doorTemplate]
    DynamicBindingObjects :=
      [UDynamicBlueprintBinding.TimelineObjectBinding
        ⟨[⟨"Door", "None", "None", [("Opened", "OnOpened")]⟩]⟩] }

/-- The classes of the sample objects: object 7 is an instance of `doorClass`, every other
object is of a class that is not blueprint-generated. -/
def doorGetBPGC (o : UObject) : Option UBlueprintGeneratedClass :=
  if o = 7 then some doorClass else none

/-- The timeline object that `GetOrCreateTimelineObject` creates for object 7 and timeline
`Door` in an empty world, with update function `OnTick`. -/
def doorCreated : UTimelineObject :=
  UTimelineObject.TriggerAutoPlay
    (UTimelineObject.BindCreated (fun _ _ => true) doorGetBPGC 7
      (UTimelineObject.CreateInitialized doorGetBPGC 7 "Door") "Door" "OnTick" "None")

/-- An authored timeline `Sprint`: explicit length 1, not looping, no autoplay, one float
track `Speed` whose curve is the identity with a key at time 1. -/
def sprintTemplate : UTimelineTemplate :=
  { VariableName := "Sprint"
    TimelineLength := 1
    LengthMode := ETimelineLengthMode.TL_TimelineLength
    bLoop := false
    bAutoPlay := false
    bIgnoreTimeDilation := false
    FloatTracks := [⟨"Speed", some ⟨⟨[⟨1, 1⟩], fun t => t⟩⟩⟩]
    VectorTracks := []
    LinearColorTracks := []
    EventTracks := [] }

/-- A timeline object initialised from `sprintTemplate`, playing forward at rate 1 with the
cursor at 0.9. -/
def sprintNearEnd : UTimelineObject :=
  (((UTimelineObject.new 7 "TimelineObj_Sprint").InitializeFromTemplate
    (some sprintTemplate)).Play).WithCursor (9 / 10)

/-- A blueprint class with the timeline `Door` whose binding entry declares the listener
`OnOpened` under the track name `NAME_None`. -/
def unnamedTrackClass : UBlueprintGeneratedClass :=
  { Timelines := [some doorTemplate]
    DynamicBindingObjects :=
      [UDynamicBlueprintBinding.TimelineObjectBinding
        ⟨[⟨"Door", "None", "None", [(NAME_None, "OnOpened")]⟩]⟩] }

/-- A sequence of binding calls on the first timeline object of a world: the owner 7 binds
`OnTick` to Update and `OnOpened` to the event track `Opened`, the object 8 binds `OnTick`
to Finished, and the bindings of the object 8 are removed. -/
def doorTrackedOps : List BindingOp :=
  [ BindingOp.BindUpdateFunction 0 (some 7) "OnTick",
    BindingOp.BindEventTrackFunction 0 "Opened" (some 7) "OnOpened",
    BindingOp.BindFinishedFunction 0 (some 8) "OnTick",
    BindingOp.RemoveAllDelegatesForObject 0 (some 8) ]

/-- The timeline object that the calls `doorTrackedOps` leave. -/
def doorTracked : UTimelineObject :=
  { UTimelineObject.new 7 "TimelineObj_Door" with
    OnTimelineUpdate := [⟨7, "OnTick"⟩]
    BoundUpdateFunctions := [(7, "OnTick")]
    EventTrackDelegates := [("Opened", [⟨7, "OnOpened"⟩])]
    BoundEventTrackFunctions := [("Opened", [(7, "OnOpened")])] }

/-! ## Container lemmas -/

namespace TMap

variable {K V : Type} [DecidableEq K]

theorem Find_Add_self (m : TMap K V) (k : K) (v : V) : Find (Add m k v) k = some v := by
  induction m with
  | nil => simp [Add, Find]
  | cons p rest ih =>
    obtain ⟨k1, v1⟩ := p
    by_cases h : k1 = k
    · simp [Add, Find, h]
    · simp [Add, Find, h, ih]

theorem Find_Add_ne (m : TMap K V) (k k2 : K) (v : V) (h : k ≠ k2) :
    Find (Add m k v) k2 = Find m k2 := by
  induction m with
  | nil => simp [Add, Find, h]
  | cons p rest ih =>
    obtain ⟨k1, v1⟩ := p
    by_cases h1 : k1 = k
    · subst h1
      simp [Add, Find, h]
    · by_cases h2 : k1 = k2
      · subst h2
        simp [Add, Find, h1]
      · simp [Add, Find, h1, h2, ih]

theorem mem_Add (m : TMap K V) (k : K) (v : V) (p : K × V) (hp : p ∈ Add m k v) :
    p = (k, v) ∨ p ∈ m := by
  induction m with
  | nil =>
    simp [Add] at hp
    exact Or.inl hp
  | cons q rest ih =>
    obtain ⟨k1, v1⟩ := q
    by_cases h : k1 = k
    · simp [Add, h] at hp
      rcases hp with hp | hp
      · exact Or.inl hp
      · exact Or.inr (List.mem_cons_of_mem _ hp)
    · simp only [Add, h, if_false, List.mem_cons] at hp
      rcases hp with hp | hp
      · exact Or.inr (by simp [hp])
      · rcases ih hp with h1 | h1
        · exact Or.inl h1
        · exact Or.inr (List.mem_cons_of_mem _ h1)

theorem keys_Add (m : TMap K V) (k : K) (v : V) (k2 : K)
    (h : k2 ∈ (Add m k v).map Prod.fst) : k2 = k ∨ k2 ∈ m.map Prod.fst := by
  obtain ⟨p, hp, rfl⟩ := List.mem_map.1 h
  rcases mem_Add m k v p hp with h1 | h1
  · exact Or.inl (by rw [h1])
  · exact Or.inr (List.mem_map.2 ⟨p, h1, rfl⟩)

theorem nodup_keys_Add (m : TMap K V) (k : K) (v : V) (h : (m.map Prod.fst).Nodup) :
    ((Add m k v).map Prod.fst).Nodup := by
  induction m with
  | nil => simp [Add]
  | cons q rest ih =>
    obtain ⟨k1, v1⟩ := q
    simp only [List.map_cons, List.nodup_cons] at h
    by_cases h1 : k1 = k
    · subst h1
      simp only [Add, if_true, List.map_cons, List.nodup_cons]
      exact h
    · simp only [Add, h1, if_false, List.map_cons, List.nodup_cons]
      refine ⟨fun hmem => ?_, ih h.2⟩
      rcases keys_Add rest k v k1 hmem with h2 | h2
      · exact h1 h2
      · exact h.1 h2

theorem Find_of_mem (m : TMap K V) (k : K) (v : V) (h : (m.map Prod.fst).Nodup)
    (hm : (k, v) ∈ m) : Find m k = some v := by
  induction m with
  | nil => simp at hm
  | cons q rest ih =>
    obtain ⟨k1, v1⟩ := q
    simp only [List.map_cons, List.nodup_cons] at h
    rcases List.mem_cons.1 hm with h1 | h1
    · cases h1
      simp [Find]
    · have hne : k1 ≠ k := by
        intro hk
        subst hk
        exact h.1 (List.mem_map.2 ⟨(k1, v), h1, rfl⟩)
      simp [Find, hne, ih h.2 h1]

theorem mem_of_Find (m : TMap K V) (k : K) (v : V) (h : Find m k = some v) : (k, v) ∈ m := by
  induction m with
  | nil => simp [Find] at h
  | cons q rest ih =>
    obtain ⟨k1, v1⟩ := q
    by_cases h1 : k1 = k
    · simp [Find, h1] at h
      simp [h1, h]
    · simp [Find, h1] at h
      exact List.mem_cons_of_mem _ (ih h)

theorem Find_FindOrAdd (m : TMap K V) (k k2 : K) (d : V) :
    (Find (FindOrAdd m k d) k2).getD d = (Find m k2).getD d := by
  unfold FindOrAdd
  cases h : Find m k with
  | some v => rfl
  | none =>
    by_cases hk : k = k2
    · subst hk
      simp [Find_Add_self, h]
    · simp [Find_Add_ne m k k2 d hk]

theorem Find_FindOrAdd_isSome (m : TMap K V) (k : K) (d : V) :
    (Find (FindOrAdd m k d) k).isSome = true := by
  unfold FindOrAdd
  cases h : Find m k with
  | some v => simp [h]
  | none => simp [Find_Add_self]

theorem Find_FindOrAdd_mono (m : TMap K V) (k k2 : K) (d : V)
    (h : (Find m k2).isSome = true) : (Find (FindOrAdd m k d) k2).isSome = true := by
  unfold FindOrAdd
  cases hk : Find m k with
  | some v => exact h
  | none =>
    by_cases hkk : k = k2
    · subst hkk
      simp [Find_Add_self]
    · simpa [Find_Add_ne m k k2 d hkk] using h

end TMap

/-! ## The trigger crossing detector -/

namespace UTimelineObject

theorem CheckKeys_eq (rev : Bool) (last cur : ℚ) (D : TMap FName FMulticastScriptDelegate)
    (n : FName) (keys : List FRichCurveKey) :
    CheckKeys rev last cur D n keys =
      if keys.any (fun k => ShouldFire rev last cur k.Time) = true then
        (match D.Find n with
          | some _ => [Notification.EventTrack n]
          | none => [])
      else [] := by
  induction keys with
  | nil => simp [CheckKeys]
  | cons k rest ih =>
    by_cases h : ShouldFire rev last cur k.Time = true
    · simp [CheckKeys, h]
    · simp [CheckKeys, h, ih]

theorem CheckKeys_count_other (rev : Bool) (last cur : ℚ)
    (D : TMap FName FMulticastScriptDelegate) (m n : FName) (keys : List FRichCurveKey)
    (h : m ≠ n) :
    (CheckKeys rev last cur D m keys).count (Notification.EventTrack n) = 0 := by
  rw [CheckKeys_eq]
  split
  · cases D.Find m with
    | none => simp
    | some d =>
      have hne : ¬ Notification.EventTrack m = Notification.EventTrack n := by
        intro hh
        cases hh
        exact h rfl
      rw [List.count_cons]
      simp [hne]
  · simp

theorem CheckKeys_count_le (rev : Bool) (last cur : ℚ)
    (D : TMap FName FMulticastScriptDelegate) (m : FName) (keys : List FRichCurveKey)
    (x : Notification) : (CheckKeys rev last cur D m keys).count x ≤ 1 := by
  rw [CheckKeys_eq]
  split
  · cases D.Find m with
    | none => simp
    | some d =>
      simp only [List.count_cons, List.count_nil]
      split <;> simp
  · simp

theorem CheckKeys_count_self (rev : Bool) (last cur : ℚ)
    (D : TMap FName FMulticastScriptDelegate) (n : FName) (keys : List FRichCurveKey)
    (hD : (D.Find n).isSome = true) :
    (CheckKeys rev last cur D n keys).count (Notification.EventTrack n) =
      if ∃ k ∈ keys, ShouldFire rev last cur k.Time = true then 1 else 0 := by
  rw [CheckKeys_eq]
  obtain ⟨d, hd⟩ := Option.isSome_iff_exists.1 hD
  by_cases h : ∃ k ∈ keys, ShouldFire rev last cur k.Time = true
  · have h1 : keys.any (fun k => ShouldFire rev last cur k.Time) = true := List.any_eq_true.2 h
    simp [h1, hd, h]
  · have h1 : ¬ keys.any (fun k => ShouldFire rev last cur k.Time) = true :=
      fun hh => h (List.any_eq_true.1 hh)
    simp only [h1, if_false, h]
    simp

theorem CheckEventTrack_other (cur : ℚ) (rev : Bool) (D : TMap FName FMulticastScriptDelegate)
    (acc : TMap FName ℚ × List Notification) (Pair : FName × Option UCurveFloat) (n : FName)
    (h : Pair.1 ≠ n) :
    (CheckEventTrack cur rev D acc Pair).1.Find n = acc.1.Find n ∧
    (CheckEventTrack cur rev D acc Pair).2.count (Notification.EventTrack n) =
      acc.2.count (Notification.EventTrack n) := by
  obtain ⟨m, oc⟩ := Pair
  cases oc with
  | none => simp [CheckEventTrack]
  | some c =>
    simp only [CheckEventTrack]
    have hpos : ∀ P : TMap FName ℚ, P.Find n = acc.1.Find n →
        (P.Add m cur).Find n = acc.1.Find n := by
      intro P hP
      rw [TMap.Find_Add_ne P m n cur h, hP]
    have hP : (match acc.1.Find m with
        | some _ => acc.1
        | none => acc.1.Add m (-1)).Find n = acc.1.Find n := by
      cases acc.1.Find m with
      | some v => rfl
      | none => exact TMap.Find_Add_ne acc.1 m n (-1) h
    split
    · exact ⟨hpos _ hP, rfl⟩
    · refine ⟨hpos _ hP, ?_⟩
      simp only [List.count_append]
      rw [CheckKeys_count_other rev _ cur D m n _ h]
      rfl

theorem foldl_CheckEventTrack_other (cur : ℚ) (rev : Bool)
    (D : TMap FName FMulticastScriptDelegate) (l : List (FName × Option UCurveFloat))
    (acc : TMap FName ℚ × List Notification) (n : FName) (h : n ∉ l.map Prod.fst) :
    (l.foldl (CheckEventTrack cur rev D) acc).1.Find n = acc.1.Find n ∧
    (l.foldl (CheckEventTrack cur rev D) acc).2.count (Notification.EventTrack n) =
      acc.2.count (Notification.EventTrack n) := by
  induction l generalizing acc with
  | nil => exact ⟨rfl, rfl⟩
  | cons p rest ih =>
    simp only [List.map_cons, List.mem_cons, not_or] at h
    have h1 := CheckEventTrack_other cur rev D acc p n (fun hh => h.1 hh.symm)
    have h2 := ih (CheckEventTrack cur rev D acc p) h.2
    simp only [List.foldl_cons]
    exact ⟨h2.1.trans h1.1, h2.2.trans h1.2⟩

theorem CheckEventTrack_self (cur : ℚ) (rev : Bool) (D : TMap FName FMulticastScriptDelegate)
    (acc : TMap FName ℚ × List Notification) (n : FName) (c : UCurveFloat) :
    (CheckEventTrack cur rev D acc (n, some c)).1.Find n = some cur ∧
    (CheckEventTrack cur rev D acc (n, some c)).2 =
      acc.2 ++ TrackBroadcasts rev cur D n (acc.1.Find n) c := by
  have hlast : ((match acc.1.Find n with
        | some _ => acc.1
        | none => acc.1.Add n (-1)).Find n).getD (-1) = (acc.1.Find n).getD (-1) := by
    cases h : acc.1.Find n with
    | some v => simp [h]
    | none => simp [TMap.Find_Add_self]
  simp only [CheckEventTrack, TrackBroadcasts, hlast]
  split
  · exact ⟨TMap.Find_Add_self _ _ _, by simp⟩
  · exact ⟨TMap.Find_Add_self _ _ _, rfl⟩

theorem foldl_CheckEventTrack_self (cur : ℚ) (rev : Bool)
    (D : TMap FName FMulticastScriptDelegate) (l : List (FName × Option UCurveFloat))
    (acc : TMap FName ℚ × List Notification) (n : FName) (c : UCurveFloat)
    (hnd : (l.map Prod.fst).Nodup) (hmem : (n, some c) ∈ l) :
    (l.foldl (CheckEventTrack cur rev D) acc).1.Find n = some cur ∧
    (l.foldl (CheckEventTrack cur rev D) acc).2.count (Notification.EventTrack n) =
      acc.2.count (Notification.EventTrack n) +
        (TrackBroadcasts rev cur D n (acc.1.Find n) c).count (Notification.EventTrack n) := by
  induction l generalizing acc with
  | nil => simp at hmem
  | cons p rest ih =>
    simp only [List.map_cons, List.nodup_cons] at hnd
    simp only [List.foldl_cons]
    rcases List.mem_cons.1 hmem with h | h
    · subst h
      have h1 := CheckEventTrack_self cur rev D acc n c
      have h2 := foldl_CheckEventTrack_other cur rev D rest
        (CheckEventTrack cur rev D acc (n, some c)) n hnd.1
      refine ⟨h2.1.trans h1.1, ?_⟩
      rw [h2.2, h1.2, List.count_append]
    · have hne : p.1 ≠ n := by
        intro hk
        exact hnd.1 (List.mem_map.2 ⟨(n, some c), h, hk.symm⟩)
      have h1 := CheckEventTrack_other cur rev D acc p n hne
      have h2 := ih (CheckEventTrack cur rev D acc p) hnd.2 h
      refine ⟨h2.1, ?_⟩
      rw [h2.2, h1.2, h1.1]

/-- The effect of one `CheckEventTracks` evaluation on a track that has a curve: the
stored position becomes the cursor, and the track's broadcasts are those of one visit. -/
theorem CheckEventTracks_track (s : UTimelineObject) (n : FName) (c : UCurveFloat)
    (hnd : (s.EventTrackCurves.map Prod.fst).Nodup)
    (hc : s.EventTrackCurves.Find n = some (some c)) :
    (CheckEventTracks s).1.LastEventTrackPositions.Find n = some s.GetPlaybackPosition ∧
    (CheckEventTracks s).2.count (Notification.EventTrack n) =
      (TrackBroadcasts s.IsReversing s.GetPlaybackPosition s.EventTrackDelegates n
        (s.LastEventTrackPositions.Find n) c).count (Notification.EventTrack n) := by
  have h := foldl_CheckEventTrack_self s.GetPlaybackPosition s.IsReversing
    s.EventTrackDelegates s.EventTrackCurves (s.LastEventTrackPositions, []) n c hnd
    (TMap.mem_of_Find _ _ _ hc)
  simp only [CheckEventTracks]
  refine ⟨h.1, ?_⟩
  rw [h.2]
  simp

end UTimelineObject

/-! ## Claims on the trigger crossing detector -/

namespace UTimelineObject

theorem TracksWF_new (o : UObject) (n : FName) : (new o n).TracksWF :=
  ⟨by simp [new], by simp [new]⟩

theorem TracksWF_RegisterEventTrack (s : UTimelineObject) (n : FName) (c : Option UCurveFloat)
    (h : s.TracksWF) : (s.RegisterEventTrack n c).TracksWF := by
  cases c with
  | none => exact h
  | some c =>
    simp only [RegisterEventTrack]
    by_cases hn : n ≠ NAME_None
    · rw [if_pos hn]
      refine ⟨TMap.nodup_keys_Add _ _ _ h.curveKeys, ?_⟩
      intro p hp
      rcases TMap.mem_Add _ _ _ _ hp with h1 | h1
      · rw [h1]
        exact TMap.Find_FindOrAdd_isSome _ _ _
      · exact TMap.Find_FindOrAdd_mono _ _ _ _ (h.hasDelegate p h1)
    · rw [if_neg hn]
      exact h

theorem TracksWF_congr (s s1 : UTimelineObject) (h : s.TracksWF)
    (hc : s1.EventTrackCurves = s.EventTrackCurves)
    (hd : s1.EventTrackDelegates = s.EventTrackDelegates) : s1.TracksWF :=
  ⟨by rw [hc]; exact h.curveKeys, by rw [hc, hd]; exact h.hasDelegate⟩

theorem TracksWF_CheckEventTracks (s : UTimelineObject) (h : s.TracksWF) :
    (CheckEventTracks s).1.TracksWF :=
  TracksWF_congr s _ h rfl rfl

theorem TracksWF_WithCursor (s : UTimelineObject) (q : ℚ) (h : s.TracksWF) :
    (s.WithCursor q).TracksWF :=
  TracksWF_congr s _ h rfl rfl

theorem TracksWF_WithDirection (s : UTimelineObject) (b : Bool) (h : s.TracksWF) :
    (s.WithDirection b).TracksWF :=
  TracksWF_congr s _ h rfl rfl

theorem TracksWF_doorBaselined (c : UCurveFloat) (p0 : ℚ) (b : Bool) :
    (doorBaselined c p0 b).TracksWF :=
  TracksWF_WithDirection _ _ (TracksWF_CheckEventTracks _ (TracksWF_WithCursor _ _
    (TracksWF_RegisterEventTrack _ _ _ (TracksWF_new _ _))))

/-- The broadcasts of a baselined track in one evaluation: one if some key is crossed,
none otherwise. -/
theorem CheckEventTracks_baselined (s : UTimelineObject) (n : FName) (c : UCurveFloat) (p0 : ℚ)
    (hwf : s.TracksWF) (hc : s.EventTrackCurves.Find n = some (some c))
    (hlast : s.LastEventTrackPositions.Find n = some p0) (hp0 : 0 ≤ p0) :
    (CheckEventTracks s).1.LastEventTrackPositions.Find n = some s.GetPlaybackPosition ∧
    (CheckEventTracks s).2.count (Notification.EventTrack n) =
      if ∃ k ∈ c.FloatCurve.Keys,
          ShouldFire s.IsReversing p0 s.GetPlaybackPosition k.Time = true then 1 else 0 := by
  have h := CheckEventTracks_track s n c hwf.curveKeys hc
  refine ⟨h.1, ?_⟩
  rw [h.2, hlast]
  have hd := hwf.hasDelegate (n, some c) (TMap.mem_of_Find _ _ _ hc)
  simp only [TrackBroadcasts, Option.getD_some, not_lt.2 hp0, if_false]
  exact CheckKeys_count_self _ _ _ _ _ _ hd

/-- C1 (forward crossing rule): for a baselined event track (stored last position
`p0 ≥ 0`) and any cursor position `p1`, when the timeline is not reversing
`CheckEventTracks` broadcasts the track's channel iff some key time `t` of its curve
satisfies `p0 < t ≤ p1`. -/
theorem forward_crossing_rule (s : UTimelineObject) (n : FName) (c : UCurveFloat) (p0 p1 : ℚ)
    (hwf : s.TracksWF) (hc : s.EventTrackCurves.Find n = some (some c))
    (hlast : s.LastEventTrackPositions.Find n = some p0) (hp0 : 0 ≤ p0)
    (hp1 : s.GetPlaybackPosition = p1) (hdir : s.IsReversing = false) :
    Notification.EventTrack n ∈ (CheckEventTracks s).2 ↔
      ∃ k ∈ c.FloatCurve.Keys, p0 < k.Time ∧ k.Time ≤ p1 := by
  have h := (CheckEventTracks_baselined s n c p0 hwf hc hlast hp0).2
  rw [hp1, hdir] at h
  rw [← List.count_pos_iff, h]
  constructor
  · intro hpos
    by_cases hex : ∃ k ∈ c.FloatCurve.Keys, ShouldFire false p0 p1 k.Time = true
    · obtain ⟨k, hk, hf⟩ := hex
      refine ⟨k, hk, ?_⟩
      simpa [ShouldFire] using hf
    · simp [hex] at hpos
  · rintro ⟨k, hk, h1, h2⟩
    have hex : ∃ k ∈ c.FloatCurve.Keys, ShouldFire false p0 p1 k.Time = true :=
      ⟨k, hk, by simp [ShouldFire, h1, h2]⟩
    simp [hex]

end UTimelineObject

namespace UTimelineObject

theorem forward_crossing_rule_witness :
    Notification.EventTrack "Opened" ∈ (CheckEventTracks ((doorBaselined (singleKeyCurve 1) 0 false).WithCursor 2)).2 ↔
      ∃ k ∈ (singleKeyCurve 1).FloatCurve.Keys, (0 : ℚ) < k.Time ∧ k.Time ≤ 2 :=
  forward_crossing_rule ((doorBaselined (singleKeyCurve 1) 0 false).WithCursor 2) "Opened" (singleKeyCurve 1) 0 2
    (TracksWF_WithCursor _ _ (TracksWF_doorBaselined _ 0 false)) rfl rfl (le_refl 0) rfl rfl

/-- C2 (backward crossing rule): for a baselined event track (stored last position
`p0 ≥ 0`) and any cursor position `p1`, when the timeline is reversing
`CheckEventTracks` broadcasts the track's channel iff some key time `t` of its curve
satisfies `p1 ≤ t < p0`. -/
theorem backward_crossing_rule (s : UTimelineObject) (n : FName) (c : UCurveFloat) (p0 p1 : ℚ)
    (hwf : s.TracksWF) (hc : s.EventTrackCurves.Find n = some (some c))
    (hlast : s.LastEventTrackPositions.Find n = some p0) (hp0 : 0 ≤ p0)
    (hp1 : s.GetPlaybackPosition = p1) (hdir : s.IsReversing = true) :
    Notification.EventTrack n ∈ (CheckEventTracks s).2 ↔
      ∃ k ∈ c.FloatCurve.Keys, p1 ≤ k.Time ∧ k.Time < p0 := by
  have h := (CheckEventTracks_baselined s n c p0 hwf hc hlast hp0).2
  rw [hp1, hdir] at h
  rw [← List.count_pos_iff, h]
  constructor
  · intro hpos
    by_cases hex : ∃ k ∈ c.FloatCurve.Keys, ShouldFire true p0 p1 k.Time = true
    · obtain ⟨k, hk, hf⟩ := hex
      refine ⟨k, hk, ?_⟩
      have hf2 : k.Time < p0 ∧ p1 ≤ k.Time := by simpa [ShouldFire] using hf
      exact ⟨hf2.2, hf2.1⟩
    · simp [hex] at hpos
  · rintro ⟨k, hk, h1, h2⟩
    have hex : ∃ k ∈ c.FloatCurve.Keys, ShouldFire true p0 p1 k.Time = true :=
      ⟨k, hk, by simp [ShouldFire, h1, h2]⟩
    simp [hex]

theorem backward_crossing_rule_witness :
    Notification.EventTrack "Opened" ∈ (CheckEventTracks ((doorBaselined (singleKeyCurve 1) 2 true).WithCursor 1)).2 ↔
      ∃ k ∈ (singleKeyCurve 1).FloatCurve.Keys, (1 : ℚ) ≤ k.Time ∧ k.Time < 2 :=
  backward_crossing_rule ((doorBaselined (singleKeyCurve 1) 2 true).WithCursor 1) "Opened" (singleKeyCurve 1) 2 1
    (TracksWF_WithCursor _ _ (TracksWF_doorBaselined _ 2 true)) rfl rfl (by norm_num) rfl rfl

end UTimelineObject

namespace UTimelineObject

/-- C3 (first-step baseline): for an event track just registered with
`RegisterEventTrack` the detector holds the unset sentinel, and the first
`CheckEventTracks` evaluation, whatever the timeline's cursor position and direction and
whatever the keys of the curve, broadcasts nothing on the track and leaves the cursor
position of that evaluation as the track's stored last position. -/
theorem first_step_baseline (s : UTimelineObject) (n : FName) (c : UCurveFloat) (T : FTimeline)
    (hwf : s.TracksWF) (hn : n ≠ NAME_None) :
    (s.RegisterEventTrack n (some c)).LastEventTrackPositions.Find n = some (-1) ∧
    Notification.EventTrack n ∉
      (CheckEventTracks ((s.RegisterEventTrack n (some c)).WithTimeline T)).2 ∧
    (CheckEventTracks ((s.RegisterEventTrack n (some c)).WithTimeline T)).1.LastEventTrackPositions.Find
      n = some T.GetPlaybackPosition := by
  have hwf1 := TracksWF_RegisterEventTrack s n (some c) hwf
  have hreg : s.RegisterEventTrack n (some c) =
      { s with
        EventTrackCurves := s.EventTrackCurves.Add n (some c)
        EventTrackDelegates := s.EventTrackDelegates.FindOrAdd n []
        LastEventTrackPositions := s.LastEventTrackPositions.Add n (-1) } := by
    simp only [RegisterEventTrack]
    rw [if_pos hn]
  have hlast : (s.RegisterEventTrack n (some c)).LastEventTrackPositions.Find n = some (-1) := by
    rw [hreg]
    exact TMap.Find_Add_self _ _ _
  have hc : (s.RegisterEventTrack n (some c)).EventTrackCurves.Find n = some (some c) := by
    rw [hreg]
    exact TMap.Find_Add_self _ _ _
  have h := CheckEventTracks_track
    ((s.RegisterEventTrack n (some c)).WithTimeline T) n c hwf1.curveKeys hc
  refine ⟨hlast, ?_, h.1⟩
  rw [← List.count_pos_iff, h.2]
  have hl : ((s.RegisterEventTrack n (some c)).WithTimeline T).LastEventTrackPositions.Find n =
      some (-1) := hlast
  rw [hl]
  simp [TrackBroadcasts]

theorem first_step_baseline_witness :
    ((new 7 "TimelineObj_Door").RegisterEventTrack "Opened"
      (some (singleKeyCurve 1))).LastEventTrackPositions.Find "Opened" = some (-1) ∧
    Notification.EventTrack "Opened" ∉
      (CheckEventTracks (((new 7 "TimelineObj_Door").RegisterEventTrack "Opened"
        (some (singleKeyCurve 1))).WithTimeline { Position := 3 })).2 ∧
    (CheckEventTracks (((new 7 "TimelineObj_Door").RegisterEventTrack "Opened"
        (some (singleKeyCurve 1))).WithTimeline
          { Position := 3 })).1.LastEventTrackPositions.Find "Opened" =
        some (FTimeline.GetPlaybackPosition { Position := 3 }) :=
  first_step_baseline (new 7 "TimelineObj_Door") "Opened" (singleKeyCurve 1) { Position := 3 }
    (TracksWF_new _ _) (by decide)

theorem foldl_CheckEventTrack_le (cur : ℚ) (rev : Bool)
    (D : TMap FName FMulticastScriptDelegate) (l : List (FName × Option UCurveFloat))
    (acc : TMap FName ℚ × List Notification) (n : FName) (hnd : (l.map Prod.fst).Nodup) :
    (l.foldl (CheckEventTrack cur rev D) acc).2.count (Notification.EventTrack n) ≤
      acc.2.count (Notification.EventTrack n) + 1 := by
  induction l generalizing acc with
  | nil => simp
  | cons p rest ih =>
    simp only [List.map_cons, List.nodup_cons] at hnd
    simp only [List.foldl_cons]
    by_cases hk : p.1 = n
    · have h2 := foldl_CheckEventTrack_other cur rev D rest (CheckEventTrack cur rev D acc p) n
        (by rw [← hk]; exact hnd.1)
      rw [h2.2]
      obtain ⟨m, oc⟩ := p
      cases oc with
      | none => simp [CheckEventTrack]
      | some c =>
        simp only at hk
        subst hk
        rw [(CheckEventTrack_self cur rev D acc m c).2, List.count_append]
        have : (TrackBroadcasts rev cur D m (acc.1.Find m) c).count (Notification.EventTrack m)
            ≤ 1 := by
          unfold TrackBroadcasts
          split
          · simp
          · exact CheckKeys_count_le _ _ _ _ _ _ _
        omega
    · have h1 := CheckEventTrack_other cur rev D acc p n hk
      have h2 := ih (CheckEventTrack cur rev D acc p) hnd.2
      rw [h1.2] at h2
      exact h2

/-- C4 (at most one firing per step): in a single `CheckEventTracks` evaluation the channel
of any event track is broadcast at most once, however many key times lie inside the crossed
interval. -/
theorem at_most_one_firing_per_step (s : UTimelineObject) (n : FName) (hwf : s.TracksWF) :
    (CheckEventTracks s).2.count (Notification.EventTrack n) ≤ 1 := by
  have h := foldl_CheckEventTrack_le s.GetPlaybackPosition s.IsReversing s.EventTrackDelegates
    s.EventTrackCurves (s.LastEventTrackPositions, []) n hwf.curveKeys
  simpa [CheckEventTracks] using h

theorem at_most_one_firing_per_step_witness :
    (CheckEventTracks ((doorBaselined threeKeyCurve 0 false).WithCursor 4)).2.count
      (Notification.EventTrack "Opened") ≤ 1 :=
  at_most_one_firing_per_step ((doorBaselined threeKeyCurve 0 false).WithCursor 4) "Opened"
    (TracksWF_WithCursor _ _ (TracksWF_doorBaselined _ 0 false))

end UTimelineObject

namespace UTimelineObject

theorem exists_key_single (keys : List FRichCurveKey) (t : ℚ) (P : ℚ → Prop)
    (h : keys.map FRichCurveKey.Time = [t]) : (∃ k ∈ keys, P k.Time) ↔ P t := by
  match keys, h with
  | [k], h =>
    simp only [List.map_cons, List.map_nil, List.cons.injEq, and_true] at h
    simp [h]

/-- The broadcasts in one evaluation of a baselined track whose only key is at `t`. -/
theorem CheckEventTracks_single_key (s : UTimelineObject) (n : FName) (c : UCurveFloat)
    (t p0 : ℚ) (hwf : s.TracksWF) (hc : s.EventTrackCurves.Find n = some (some c))
    (hkeys : c.FloatCurve.Keys.map FRichCurveKey.Time = [t])
    (hlast : s.LastEventTrackPositions.Find n = some p0) (hp0 : 0 ≤ p0) :
    (CheckEventTracks s).2.count (Notification.EventTrack n) =
      if ShouldFire s.IsReversing p0 s.GetPlaybackPosition t = true then 1 else 0 := by
  rw [(CheckEventTracks_baselined s n c p0 hwf hc hlast hp0).2]
  have h := exists_key_single c.FloatCurve.Keys t
    (fun x => ShouldFire s.IsReversing p0 s.GetPlaybackPosition x = true) hkeys
  by_cases hf : ShouldFire s.IsReversing p0 s.GetPlaybackPosition t = true
  · rw [if_pos (h.2 hf), if_pos hf]
  · rw [if_neg (fun hh => hf (h.1 hh)), if_neg hf]

/-- The terminal step of backward playback on the model of the tick: a timeline playing
backward, not looping, with the only key of `Opened` at 1/5 and the detector baselined at
1/2, takes a `Tick` that overshoots the start. The timeline is stopped before the update
callback runs, the evaluation is therefore not reversing, and the channel of `Opened` is
not broadcast although the cursor moved from 1/2 over the key to 0. -/
theorem backward_terminal_step_drops_trigger :
    (doorBaselined (singleKeyCurve (1 / 5)) (1 / 2) true).IsReversing = true ∧
    (doorBaselined (singleKeyCurve (1 / 5)) (1 / 2) true).GetPlaybackPosition = 1 / 2 ∧
    ((doorBaselined (singleKeyCurve (1 / 5)) (1 / 2) true).Tick ⟨1, fun _ => none⟩
      1).1.GetPlaybackPosition = 0 ∧
    ((doorBaselined (singleKeyCurve (1 / 5)) (1 / 2) true).Tick ⟨1, fun _ => none⟩ 1).2 =
      [Notification.TimelineUpdate, Notification.TimelineFinished] := by
  refine ⟨rfl, rfl, by decide!, by decide!⟩

end UTimelineObject

namespace UTimelineObject

/-- Once the stored position of a forward-playing single-key track has reached the key,
further evaluations at non-decreasing positions broadcast nothing on the track. -/
theorem CheckEventTracksSeq_past_key (n : FName) (c : UCurveFloat) (t : ℚ)
    (hkeys : c.FloatCurve.Keys.map FRichCurveKey.Time = [t]) (qs : List ℚ) :
    ∀ (s : UTimelineObject) (p : ℚ), s.TracksWF → s.EventTrackCurves.Find n = some (some c) →
      s.LastEventTrackPositions.Find n = some p → 0 ≤ p → t ≤ p → s.IsReversing = false →
      List.Chain (fun a b => a ≤ b) p qs →
      ∀ k, ((CheckEventTracksSeq s qs).getD k []).count (Notification.EventTrack n) = 0 := by
  induction qs with
  | nil =>
    intro s p _ _ _ _ _ _ _ k
    simp [CheckEventTracksSeq]
  | cons q rest ih =>
    intro s p hwf hc hlast hp0 htp hdir hchain k
    rw [List.chain_cons] at hchain
    have hwf1 := TracksWF_WithCursor s q hwf
    have hstep := CheckEventTracks_baselined (s.WithCursor q) n c p hwf1 hc hlast hp0
    have hcount := CheckEventTracks_single_key (s.WithCursor q) n c t p hwf1 hc hkeys hlast hp0
    have hdir1 : (s.WithCursor q).IsReversing = false := hdir
    rw [hdir1] at hcount
    have hnofire : ShouldFire false p (s.WithCursor q).GetPlaybackPosition t = false := by
      simp [ShouldFire, not_lt.2 htp]
    cases k with
    | zero =>
      simp only [CheckEventTracksSeq, List.getD_cons_zero]
      rw [hcount, hnofire]
      simp
    | succ k =>
      simp only [CheckEventTracksSeq, List.getD_cons_succ]
      exact ih (CheckEventTracks (s.WithCursor q)).1 q (TracksWF_CheckEventTracks _ hwf1) hc
        hstep.1 (le_trans hp0 hchain.1) (le_trans htp hchain.1) hdir hchain.2 k

/-- C6 (forward exactly-once over many steps): for a baselined event track whose only key
is at time `t`, with stored last position `p0`, `0 ≤ p0 < t`, and a sequence of
forward-direction evaluations at non-decreasing cursor positions starting from `p0` and
ending at a position `≥ t`, the track's channel is broadcast in exactly one evaluation of
the sequence, the first one whose position is `≥ t`, and once in it. -/
theorem forward_exactly_once_over_steps (n : FName) (c : UCurveFloat) (t : ℚ)
    (hkeys : c.FloatCurve.Keys.map FRichCurveKey.Time = [t]) (qs : List ℚ) :
    ∀ (s : UTimelineObject) (p0 : ℚ), s.TracksWF → s.EventTrackCurves.Find n = some (some c) →
      s.LastEventTrackPositions.Find n = some p0 → 0 ≤ p0 → p0 < t → s.IsReversing = false →
      List.Chain (fun a b => a ≤ b) p0 qs → (∃ qn, qs.getLast? = some qn ∧ t ≤ qn) →
      ∃ i, i < qs.length ∧ t ≤ qs.getD i 0 ∧ (∀ j, j < i → qs.getD j 0 < t) ∧
        ∀ k, ((CheckEventTracksSeq s qs).getD k []).count (Notification.EventTrack n) =
          if k = i then 1 else 0 := by
  induction qs with
  | nil =>
    intro s p0 _ _ _ _ _ _ _ hend
    obtain ⟨qn, h, _⟩ := hend
    simp at h
  | cons q rest ih =>
    intro s p0 hwf hc hlast hp0 hlt hdir hchain hend
    rw [List.chain_cons] at hchain
    have hwf1 := TracksWF_WithCursor s q hwf
    have hstep := CheckEventTracks_baselined (s.WithCursor q) n c p0 hwf1 hc hlast hp0
    have hcount := CheckEventTracks_single_key (s.WithCursor q) n c t p0 hwf1 hc hkeys hlast hp0
    have hdir1 : (s.WithCursor q).IsReversing = false := hdir
    have hcur : (s.WithCursor q).GetPlaybackPosition = q := rfl
    rw [hdir1, hcur] at hcount
    by_cases htq : t ≤ q
    · refine ⟨0, by simp, by simpa using htq, fun j hj => absurd hj (Nat.not_lt_zero j), ?_⟩
      intro k
      cases k with
      | zero =>
        simp only [CheckEventTracksSeq, List.getD_cons_zero]
        rw [hcount]
        simp [ShouldFire, hlt, htq]
      | succ k =>
        simp only [CheckEventTracksSeq, List.getD_cons_succ]
        rw [CheckEventTracksSeq_past_key n c t hkeys rest (CheckEventTracks (s.WithCursor q)).1 q
          (TracksWF_CheckEventTracks _ hwf1) hc hstep.1 (le_trans hp0 hchain.1) htq hdir
          hchain.2 k]
        simp
    · have hqt : q < t := not_le.1 htq
      have hend1 : ∃ qn, rest.getLast? = some qn ∧ t ≤ qn := by
        obtain ⟨qn, h, hle⟩ := hend
        cases rest with
        | nil =>
          simp at h
          rw [h] at htq
          exact absurd hle htq
        | cons r rs =>
          rw [List.getLast?_cons_cons] at h
          exact ⟨qn, h, hle⟩
      obtain ⟨i, hi, hti, hbefore, hall⟩ := ih (CheckEventTracks (s.WithCursor q)).1 q
        (TracksWF_CheckEventTracks _ hwf1) hc hstep.1 (le_trans hp0 hchain.1) hqt hdir
        hchain.2 hend1
      refine ⟨i + 1, by simpa using hi, by simpa using hti, ?_, ?_⟩
      · intro j hj
        cases j with
        | zero => simpa using hqt
        | succ j =>
          simp only [List.getD_cons_succ]
          exact hbefore j (by omega)
      · intro k
        cases k with
        | zero =>
          simp only [CheckEventTracksSeq, List.getD_cons_zero]
          rw [hcount]
          simp [ShouldFire, htq]
        | succ k =>
          simp only [CheckEventTracksSeq, List.getD_cons_succ]
          rw [hall k]
          simp

theorem forward_exactly_once_over_steps_witness :
    ∃ i, i < [(1 / 2 : ℚ), 1 / 2, 3 / 2, 2].length ∧ (1 : ℚ) ≤ [(1 / 2 : ℚ), 1 / 2, 3 / 2, 2].getD i 0 ∧
      (∀ j, j < i → [(1 / 2 : ℚ), 1 / 2, 3 / 2, 2].getD j 0 < 1) ∧
      ∀ k, ((CheckEventTracksSeq (doorBaselined (singleKeyCurve 1) 0 false)
          [(1 / 2 : ℚ), 1 / 2, 3 / 2, 2]).getD k []).count (Notification.EventTrack "Opened") =
        if k = i then 1 else 0 :=
  forward_exactly_once_over_steps "Opened" (singleKeyCurve 1) 1 rfl [(1 / 2 : ℚ), 1 / 2, 3 / 2, 2]
    (doorBaselined (singleKeyCurve 1) 0 false) 0 (TracksWF_doorBaselined _ 0 false) rfl rfl
    (le_refl _) (by norm_num) rfl (by norm_num) ⟨2, by simp, by norm_num⟩

end UTimelineObject

/-! ## Position snaps -/

namespace UTimelineObject

/-- C7, the code at the failing input: on a stopped timeline whose event track `Opened`
(key at time 1) is baselined at 0, `SetPlaybackPosition(2, bFireEvents = false,
bFireUpdate = true)` runs the update callback, which moves the stored detector position of
the track from 0 to 2 and broadcasts the track's channel. -/
theorem silent_snap_runs_detector :
    doorSnapped.IsPlaying = false ∧
    doorSnapped.LastEventTrackPositions.Find "Opened" = some 0 ∧
    (doorSnapped.SetPlaybackPosition 2 false true).1.LastEventTrackPositions.Find "Opened" =
      some 2 ∧
    (doorSnapped.SetPlaybackPosition 2 false true).2 =
      [Notification.EventTrack "Opened", Notification.TimelineUpdate] := by
  refine ⟨rfl, by decide, by decide, by decide⟩

end UTimelineObject

/-! ## The listener binding registry -/

namespace TMap

variable {K V : Type} [DecidableEq K]

theorem FindOrAdd_of_isSome (m : TMap K V) (k : K) (d : V) (h : (Find m k).isSome = true) :
    FindOrAdd m k d = m := by
  unfold FindOrAdd
  cases hk : Find m k with
  | some v => rfl
  | none => simp [hk] at h

theorem mem_FindOrAdd (m : TMap K V) (k : K) (d : V) (p : K × V) (hp : p ∈ FindOrAdd m k d) :
    p = (k, d) ∨ p ∈ m := by
  unfold FindOrAdd at hp
  cases hk : Find m k with
  | some v =>
    rw [hk] at hp
    exact Or.inr hp
  | none =>
    rw [hk] at hp
    exact mem_Add m k d p hp

end TMap

namespace FMulticastScriptDelegate

theorem nodup_AddUnique (d : FMulticastScriptDelegate) (x : FScriptDelegate) (h : d.Nodup) :
    (d.AddUnique x).Nodup := by
  unfold AddUnique
  split
  · exact h
  · rename_i hx
    exact List.nodup_append.2 ⟨h, List.nodup_singleton x, by
      intro a ha hb
      simp only [List.mem_singleton] at hb
      subst hb
      exact hx ha⟩

theorem mem_AddUnique_self (d : FMulticastScriptDelegate) (x : FScriptDelegate) :
    x ∈ d.AddUnique x := by
  unfold AddUnique
  split
  · assumption
  · simp

theorem mem_AddUnique_of_mem (d : FMulticastScriptDelegate) (x y : FScriptDelegate)
    (h : y ∈ d) : y ∈ d.AddUnique x := by
  unfold AddUnique
  split
  · exact h
  · exact List.mem_append_left _ h

theorem nodup_RemoveAll (d : FMulticastScriptDelegate) (T : UObject) (h : d.Nodup) :
    (d.RemoveAll T).Nodup :=
  List.Nodup.filter _ h

theorem count_Broadcast_AddUnique (d : FMulticastScriptDelegate) (x : FScriptDelegate)
    (h : d.Nodup) : (d.AddUnique x).Broadcast.count x = 1 :=
  List.count_eq_one_of_mem (nodup_AddUnique d x h) (mem_AddUnique_self d x)

end FMulticastScriptDelegate

namespace TSet

variable {α : Type} [DecidableEq α]

theorem mem_TSet_Add_self (s : TSet α) (a : α) : a ∈ s.Add a := by
  unfold Add
  split
  · assumption
  · simp

theorem mem_TSet_Add (s : TSet α) (a b : α) (h : b ∈ s.Add a) : b = a ∨ b ∈ s := by
  unfold Add at h
  split at h
  · exact Or.inr h
  · rcases List.mem_append.1 h with h1 | h1
    · exact Or.inr h1
    · exact Or.inl (List.mem_singleton.1 h1)

end TSet

namespace UTimelineObject

theorem nodup_listeners (D : TMap FName FMulticastScriptDelegate) (n : FName)
    (h : ∀ p ∈ D, p.2.Nodup) : ((D.Find n).getD []).Nodup := by
  cases hf : D.Find n with
  | none => simp
  | some d => exact h (n, d) (TMap.mem_of_Find _ _ _ hf)

theorem BindUpdateFunction_bound (Fn : UObject → FName → Bool) (s : UTimelineObject)
    (T : UObject) (F : FName) (h : (T, F) ∈ s.BoundUpdateFunctions) :
    s.BindUpdateFunction Fn (some T) F = s := by
  simp only [BindUpdateFunction, TSet.Contains]
  split
  · rfl
  · simp [h]

theorem BindUpdateFunction_fresh (Fn : UObject → FName → Bool) (s : UTimelineObject)
    (T : UObject) (F : FName) (hF : F ≠ NAME_None) (hfn : Fn T F = true)
    (h : (T, F) ∉ s.BoundUpdateFunctions) :
    s.BindUpdateFunction Fn (some T) F =
      { s with
        OnTimelineUpdate := s.OnTimelineUpdate.AddUnique ⟨T, F⟩
        BoundUpdateFunctions := s.BoundUpdateFunctions.Add (T, F) } := by
  simp only [BindUpdateFunction, TSet.Contains]
  rw [if_neg hF]
  simp [h, hfn]

theorem BindFinishedFunction_bound (Fn : UObject → FName → Bool) (s : UTimelineObject)
    (T : UObject) (F : FName) (h : (T, F) ∈ s.BoundFinishedFunctions) :
    s.BindFinishedFunction Fn (some T) F = s := by
  simp only [BindFinishedFunction, TSet.Contains]
  split
  · rfl
  · simp [h]

theorem BindFinishedFunction_fresh (Fn : UObject → FName → Bool) (s : UTimelineObject)
    (T : UObject) (F : FName) (hF : F ≠ NAME_None) (hfn : Fn T F = true)
    (h : (T, F) ∉ s.BoundFinishedFunctions) :
    s.BindFinishedFunction Fn (some T) F =
      { s with
        OnTimelineFinished := s.OnTimelineFinished.AddUnique ⟨T, F⟩
        BoundFinishedFunctions := s.BoundFinishedFunctions.Add (T, F) } := by
  simp only [BindFinishedFunction, TSet.Contains]
  rw [if_neg hF]
  simp [h, hfn]

theorem EventTrackBound_FindOrAdd (s : UTimelineObject) (n : FName) :
    EventTrackBound
      { s with BoundEventTrackFunctions := s.BoundEventTrackFunctions.FindOrAdd n [] } n =
      s.EventTrackBound n :=
  TMap.Find_FindOrAdd _ _ _ _

theorem BindEventTrackFunction_bound (Fn : UObject → FName → Bool) (s : UTimelineObject)
    (n : FName) (T : UObject) (F : FName) (hF : F ≠ NAME_None) (hn : n ≠ NAME_None)
    (h : (T, F) ∈ s.EventTrackBound n) :
    s.BindEventTrackFunction Fn n (some T) F = s := by
  have hsome : (s.BoundEventTrackFunctions.Find n).isSome = true := by
    unfold EventTrackBound at h
    cases hf : s.BoundEventTrackFunctions.Find n with
    | none => simp [hf] at h
    | some v => rfl
  simp only [BindEventTrackFunction, TSet.Contains]
  rw [if_neg (by simp [hF, hn]), EventTrackBound_FindOrAdd]
  simp [h, TMap.FindOrAdd_of_isSome _ _ _ hsome]

theorem BindEventTrackFunction_fresh (Fn : UObject → FName → Bool) (s : UTimelineObject)
    (n : FName) (T : UObject) (F : FName) (hF : F ≠ NAME_None) (hn : n ≠ NAME_None)
    (hfn : Fn T F = true) (h : (T, F) ∉ s.EventTrackBound n) :
    s.BindEventTrackFunction Fn n (some T) F =
      { s with
        EventTrackDelegates := (s.EventTrackDelegates.FindOrAdd n []).Add n
          ((s.EventTrackListeners n).AddUnique ⟨T, F⟩)
        BoundEventTrackFunctions := (s.BoundEventTrackFunctions.FindOrAdd n []).Add n
          ((s.EventTrackBound n).Add (T, F)) } := by
  have hl : EventTrackListeners
      (GetEventTrackDelegate
        { s with BoundEventTrackFunctions := s.BoundEventTrackFunctions.FindOrAdd n [] } n) n =
      s.EventTrackListeners n := TMap.Find_FindOrAdd _ _ _ _
  simp only [BindEventTrackFunction, TSet.Contains]
  rw [if_neg (by simp [hF, hn]), EventTrackBound_FindOrAdd, hl]
  simp [h, hfn, GetEventTrackDelegate]

end UTimelineObject

namespace UTimelineObject

theorem BindUpdateFunction_twice (Fn : UObject → FName → Bool) (s : UTimelineObject)
    (T : UObject) (F : FName) (hu : s.UniqueBindings) (ht : s.TrackingSound)
    (hF : F ≠ NAME_None) (hfn : Fn T F = true) :
    (s.BindUpdateFunction Fn (some T) F).BindUpdateFunction Fn (some T) F =
      s.BindUpdateFunction Fn (some T) F ∧
    (s.BindUpdateFunction Fn (some T) F).OnTimelineUpdate.Broadcast.count ⟨T, F⟩ = 1 := by
  by_cases h : (T, F) ∈ s.BoundUpdateFunctions
  · rw [BindUpdateFunction_bound Fn s T F h]
    exact ⟨BindUpdateFunction_bound Fn s T F h,
      List.count_eq_one_of_mem hu.update (ht.update (T, F) h)⟩
  · rw [BindUpdateFunction_fresh Fn s T F hF hfn h]
    exact ⟨BindUpdateFunction_bound Fn _ T F (TSet.mem_TSet_Add_self _ _),
      FMulticastScriptDelegate.count_Broadcast_AddUnique _ _ hu.update⟩

theorem BindFinishedFunction_twice (Fn : UObject → FName → Bool) (s : UTimelineObject)
    (T : UObject) (F : FName) (hu : s.UniqueBindings) (ht : s.TrackingSound)
    (hF : F ≠ NAME_None) (hfn : Fn T F = true) :
    (s.BindFinishedFunction Fn (some T) F).BindFinishedFunction Fn (some T) F =
      s.BindFinishedFunction Fn (some T) F ∧
    (s.BindFinishedFunction Fn (some T) F).OnTimelineFinished.Broadcast.count ⟨T, F⟩ = 1 := by
  by_cases h : (T, F) ∈ s.BoundFinishedFunctions
  · rw [BindFinishedFunction_bound Fn s T F h]
    exact ⟨BindFinishedFunction_bound Fn s T F h,
      List.count_eq_one_of_mem hu.finished (ht.finished (T, F) h)⟩
  · rw [BindFinishedFunction_fresh Fn s T F hF hfn h]
    exact ⟨BindFinishedFunction_bound Fn _ T F (TSet.mem_TSet_Add_self _ _),
      FMulticastScriptDelegate.count_Broadcast_AddUnique _ _ hu.finished⟩

theorem BindEventTrackFunction_twice (Fn : UObject → FName → Bool) (s : UTimelineObject)
    (n : FName) (T : UObject) (F : FName) (hu : s.UniqueBindings) (ht : s.TrackingSound)
    (hF : F ≠ NAME_None) (hn : n ≠ NAME_None) (hfn : Fn T F = true) :
    (s.BindEventTrackFunction Fn n (some T) F).BindEventTrackFunction Fn n (some T) F =
      s.BindEventTrackFunction Fn n (some T) F ∧
    ((s.BindEventTrackFunction Fn n (some T) F).EventTrackListeners n).Broadcast.count ⟨T, F⟩ =
      1 := by
  by_cases h : (T, F) ∈ s.EventTrackBound n
  · rw [BindEventTrackFunction_bound Fn s n T F hF hn h]
    refine ⟨BindEventTrackFunction_bound Fn s n T F hF hn h, ?_⟩
    have hmem : (⟨T, F⟩ : FScriptDelegate) ∈ s.EventTrackListeners n := by
      unfold EventTrackBound at h
      cases hf : s.BoundEventTrackFunctions.Find n with
      | none => simp [hf] at h
      | some v =>
        rw [hf] at h
        exact ht.eventTrack (n, v) (TMap.mem_of_Find _ _ _ hf) (T, F) h
    exact List.count_eq_one_of_mem (nodup_listeners _ n hu.eventTrack) hmem
  · rw [BindEventTrackFunction_fresh Fn s n T F hF hn hfn h]
    constructor
    · apply BindEventTrackFunction_bound Fn _ n T F hF hn
      simp only [EventTrackBound, TMap.Find_Add_self, Option.getD_some]
      exact TSet.mem_TSet_Add_self _ _
    · simp only [EventTrackListeners, TMap.Find_Add_self, Option.getD_some]
      exact FMulticastScriptDelegate.count_Broadcast_AddUnique _ _
        (nodup_listeners _ n hu.eventTrack)

theorem UniqueBindings_new (o : UObject) (n : FName) : (new o n).UniqueBindings :=
  ⟨by simp [new], by simp [new], by simp [new]⟩

theorem TrackingSound_new (o : UObject) (n : FName) : (new o n).TrackingSound :=
  ⟨by simp [new], by simp [new], by simp [new]⟩

/-- C8 (bind idempotence): on each channel (Update, Finished, an event track), for a target
`T` and a function name `F` that exists on `T`, binding `(T, F)` a second time leaves the
object, hence the channel's listener list and tracking set, exactly as after the first
binding, and a broadcast on the channel then invokes `F` on `T` exactly once. -/
theorem bind_idempotent (Fn : UObject → FName → Bool) (s : UTimelineObject) (n : FName)
    (T : UObject) (F : FName) (hu : s.UniqueBindings) (ht : s.TrackingSound)
    (hF : F ≠ NAME_None) (hn : n ≠ NAME_None) (hfn : Fn T F = true) :
    ((s.BindUpdateFunction Fn (some T) F).BindUpdateFunction Fn (some T) F =
        s.BindUpdateFunction Fn (some T) F ∧
      (s.BindUpdateFunction Fn (some T) F).OnTimelineUpdate.Broadcast.count ⟨T, F⟩ = 1) ∧
    ((s.BindFinishedFunction Fn (some T) F).BindFinishedFunction Fn (some T) F =
        s.BindFinishedFunction Fn (some T) F ∧
      (s.BindFinishedFunction Fn (some T) F).OnTimelineFinished.Broadcast.count ⟨T, F⟩ = 1) ∧
    ((s.BindEventTrackFunction Fn n (some T) F).BindEventTrackFunction Fn n (some T) F =
        s.BindEventTrackFunction Fn n (some T) F ∧
      ((s.BindEventTrackFunction Fn n (some T) F).EventTrackListeners n).Broadcast.count
        ⟨T, F⟩ = 1) :=
  ⟨BindUpdateFunction_twice Fn s T F hu ht hF hfn,
    BindFinishedFunction_twice Fn s T F hu ht hF hfn,
    BindEventTrackFunction_twice Fn s n T F hu ht hF hn hfn⟩

theorem bind_idempotent_witness :
    (((new 7 "TimelineObj_Door").BindUpdateFunction (fun _ _ => true) (some 7)
          "OnTick").BindUpdateFunction (fun _ _ => true) (some 7) "OnTick" =
        (new 7 "TimelineObj_Door").BindUpdateFunction (fun _ _ => true) (some 7) "OnTick" ∧
      ((new 7 "TimelineObj_Door").BindUpdateFunction (fun _ _ => true) (some 7)
          "OnTick").OnTimelineUpdate.Broadcast.count ⟨7, "OnTick"⟩ = 1) ∧
    (((new 7 "TimelineObj_Door").BindFinishedFunction (fun _ _ => true) (some 7)
          "OnTick").BindFinishedFunction (fun _ _ => true) (some 7) "OnTick" =
        (new 7 "TimelineObj_Door").BindFinishedFunction (fun _ _ => true) (some 7) "OnTick" ∧
      ((new 7 "TimelineObj_Door").BindFinishedFunction (fun _ _ => true) (some 7)
          "OnTick").OnTimelineFinished.Broadcast.count ⟨7, "OnTick"⟩ = 1) ∧
    (((new 7 "TimelineObj_Door").BindEventTrackFunction (fun _ _ => true) "Opened" (some 7)
          "OnTick").BindEventTrackFunction (fun _ _ => true) "Opened" (some 7) "OnTick" =
        (new 7 "TimelineObj_Door").BindEventTrackFunction (fun _ _ => true) "Opened" (some 7)
          "OnTick" ∧
      (((new 7 "TimelineObj_Door").BindEventTrackFunction (fun _ _ => true) "Opened" (some 7)
          "OnTick").EventTrackListeners "Opened").Broadcast.count ⟨7, "OnTick"⟩ = 1) :=
  bind_idempotent (fun _ _ => true) (new 7 "TimelineObj_Door") "Opened" 7 "OnTick"
    (UniqueBindings_new _ _) (TrackingSound_new _ _) (by decide) (by decide) rfl

end UTimelineObject

namespace UTimelineObject

theorem UniqueBindings_congr (s s1 : UTimelineObject) (h : s.UniqueBindings)
    (h1 : s1.OnTimelineUpdate = s.OnTimelineUpdate)
    (h2 : s1.OnTimelineFinished = s.OnTimelineFinished)
    (h3 : s1.EventTrackDelegates = s.EventTrackDelegates) : s1.UniqueBindings :=
  ⟨by rw [h1]; exact h.update, by rw [h2]; exact h.finished, by rw [h3]; exact h.eventTrack⟩

theorem UniqueBindings_BindUpdateFunction (Fn : UObject → FName → Bool) (s : UTimelineObject)
    (Target : Option UObject) (F : FName) (h : s.UniqueBindings) :
    (s.BindUpdateFunction Fn Target F).UniqueBindings := by
  cases Target with
  | none => exact h
  | some T =>
    simp only [BindUpdateFunction]
    split
    · exact h
    · split
      · exact h
      · split
        · exact ⟨FMulticastScriptDelegate.nodup_AddUnique _ _ h.update, h.finished,
            h.eventTrack⟩
        · exact h

theorem UniqueBindings_BindFinishedFunction (Fn : UObject → FName → Bool)
    (s : UTimelineObject) (Target : Option UObject) (F : FName) (h : s.UniqueBindings) :
    (s.BindFinishedFunction Fn Target F).UniqueBindings := by
  cases Target with
  | none => exact h
  | some T =>
    simp only [BindFinishedFunction]
    split
    · exact h
    · split
      · exact h
      · split
        · exact ⟨h.update, FMulticastScriptDelegate.nodup_AddUnique _ _ h.finished,
            h.eventTrack⟩
        · exact h

/-- Adding a listener with `AddUnique` to the delegate of a track keeps the listener lists
of all event tracks free of duplicates. -/
theorem nodup_bind_track (D : TMap FName FMulticastScriptDelegate) (n : FName)
    (x : FScriptDelegate) (h : ∀ p ∈ D, p.2.Nodup) :
    ∀ p ∈ (D.FindOrAdd n []).Add n ((((D.FindOrAdd n []).Find n).getD []).AddUnique x),
      p.2.Nodup := by
  have h1 : ∀ p ∈ D.FindOrAdd n [], p.2.Nodup := by
    intro p hp
    rcases TMap.mem_FindOrAdd D n [] p hp with h2 | h2
    · rw [h2]
      exact List.nodup_nil
    · exact h p h2
  intro p hp
  rcases TMap.mem_Add _ _ _ _ hp with h2 | h2
  · rw [h2]
    exact FMulticastScriptDelegate.nodup_AddUnique _ _ (nodup_listeners _ n h1)
  · exact h1 p h2

theorem UniqueBindings_BindEventTrackFunction (Fn : UObject → FName → Bool)
    (s : UTimelineObject) (n : FName) (Target : Option UObject) (F : FName)
    (h : s.UniqueBindings) : (s.BindEventTrackFunction Fn n Target F).UniqueBindings := by
  cases Target with
  | none => exact h
  | some T =>
    simp only [BindEventTrackFunction]
    split
    · exact h
    · split
      · exact UniqueBindings_congr s _ h rfl rfl rfl
      · split
        · exact ⟨h.update, h.finished, nodup_bind_track s.EventTrackDelegates n ⟨T, F⟩
            h.eventTrack⟩
        · exact UniqueBindings_congr s _ h rfl rfl rfl

theorem UniqueBindings_RemoveAllDelegatesForObject (s : UTimelineObject)
    (BoundObject : Option UObject) (h : s.UniqueBindings) :
    (s.RemoveAllDelegatesForObject BoundObject).UniqueBindings := by
  cases BoundObject with
  | none => exact h
  | some T =>
    refine ⟨FMulticastScriptDelegate.nodup_RemoveAll _ _ h.update,
      FMulticastScriptDelegate.nodup_RemoveAll _ _ h.finished, ?_⟩
    intro p hp
    simp only [RemoveAllDelegatesForObject] at hp
    obtain ⟨q, hq, rfl⟩ := List.mem_map.1 hp
    exact FMulticastScriptDelegate.nodup_RemoveAll _ _ (h.eventTrack q hq)

end UTimelineObject

namespace UTimelineObjectBinding

open UTimelineObject

theorem UniqueBindings_BindEventTracks (Fn : UObject → FName → Bool) (o : UObject)
    (l : List (FName × FName)) :
    ∀ tl : UTimelineObject, tl.UniqueBindings →
      (BindEventTracks Fn o tl l).UniqueBindings := by
  induction l with
  | nil =>
    intro tl h
    exact h
  | cons p rest ih =>
    intro tl h
    simp only [BindEventTracks]
    split
    · exact ih _ ⟨h.update, h.finished, nodup_bind_track tl.EventTrackDelegates p.1 ⟨o, p.2⟩
        h.eventTrack⟩
    · exact ih tl h

theorem UniqueBindings_BindEntry (Fn : UObject → FName → Bool) (o : UObject)
    (Entry : FTimelineObjectBindingEntry) (tl : UTimelineObject) (h : tl.UniqueBindings) :
    (BindEntry Fn o Entry tl).UniqueBindings := by
  simp only [BindEntry]
  apply UniqueBindings_BindEventTracks
  have h1 : (if Entry.UpdateFunctionName ≠ NAME_None ∧
        Fn o Entry.UpdateFunctionName = true then
      { tl with OnTimelineUpdate := tl.OnTimelineUpdate.AddUnique ⟨o, Entry.UpdateFunctionName⟩ }
    else tl).UniqueBindings := by
    split
    · exact ⟨FMulticastScriptDelegate.nodup_AddUnique _ _ h.update, h.finished, h.eventTrack⟩
    · exact h
  split
  · exact ⟨h1.update, FMulticastScriptDelegate.nodup_AddUnique _ _ h1.finished, h1.eventTrack⟩
  · exact h1

end UTimelineObjectBinding

namespace World

open UTimelineObject

theorem forall_modifyAt (P : UTimelineObject → Prop) (f : UTimelineObject → UTimelineObject)
    (hf : ∀ tl, P tl → P (f tl)) (W : World) :
    ∀ i, (∀ tl ∈ W, P tl) → ∀ tl ∈ W.modifyAt i f, P tl := by
  induction W with
  | nil =>
    intro i _ tl htl
    simp [modifyAt] at htl
  | cons x rest ih =>
    intro i h tl htl
    cases i with
    | zero =>
      simp only [modifyAt, List.mem_cons] at htl
      rcases htl with h1 | h1
      · rw [h1]
        exact hf x (h x (List.mem_cons_self _ _))
      · exact h tl (List.mem_cons_of_mem _ h1)
    | succ i =>
      simp only [modifyAt, List.mem_cons] at htl
      rcases htl with h1 | h1
      · rw [h1]
        exact h x (List.mem_cons_self _ _)
      · exact ih i (fun y hy => h y (List.mem_cons_of_mem _ hy)) tl h1

theorem UniqueBindings_BindEntries (Fn : UObject → FName → Bool) (o : UObject)
    (entries : List FTimelineObjectBindingEntry) :
    ∀ W : World, (∀ tl ∈ W, tl.UniqueBindings) →
      ∀ tl ∈ UTimelineObjectBinding.BindEntries Fn o W entries, tl.UniqueBindings := by
  induction entries with
  | nil =>
    intro W h
    exact h
  | cons Entry rest ih =>
    intro W h
    simp only [UTimelineObjectBinding.BindEntries]
    split
    · exact ih W h
    · exact ih _ (forall_modifyAt _ _
        (UTimelineObjectBinding.UniqueBindings_BindEntry Fn o Entry) W _ h)

theorem UniqueBindings_applyOp (Fn : UObject → FName → Bool) (W : World) (op : BindingOp)
    (h : ∀ tl ∈ W, tl.UniqueBindings) : ∀ tl ∈ W.applyOp Fn op, tl.UniqueBindings := by
  cases op with
  | BindUpdateFunction i T F =>
    exact forall_modifyAt _ _ (fun tl => UniqueBindings_BindUpdateFunction Fn tl T F) W i h
  | BindFinishedFunction i T F =>
    exact forall_modifyAt _ _ (fun tl => UniqueBindings_BindFinishedFunction Fn tl T F) W i h
  | BindEventTrackFunction i n T F =>
    exact forall_modifyAt _ _ (fun tl => UniqueBindings_BindEventTrackFunction Fn tl n T F) W i h
  | BindDynamicDelegates b o =>
    cases o with
    | none => exact h
    | some o => exact UniqueBindings_BindEntries Fn o b.TimelineBindings W h
  | RemoveAllDelegatesForObject i T =>
    exact forall_modifyAt _ _ (fun tl => UniqueBindings_RemoveAllDelegatesForObject tl T) W i h

theorem UniqueBindings_runOps (Fn : UObject → FName → Bool) (ops : List BindingOp) :
    ∀ W : World, (∀ tl ∈ W, tl.UniqueBindings) → ∀ tl ∈ W.runOps Fn ops, tl.UniqueBindings := by
  induction ops with
  | nil =>
    intro W h
    exact h
  | cons op rest ih =>
    intro W h
    exact ih _ (UniqueBindings_applyOp Fn W op h)

/-- C9 (binding key uniqueness): starting from new timeline objects, after every sequence
of `BindUpdateFunction`, `BindFinishedFunction`, `BindEventTrackFunction`,
`BindDynamicDelegates` and `RemoveAllDelegatesForObject` calls, no (target, function) pair
occurs more than once in the listener list of the Update channel, of the Finished channel
or of any event track of any of the objects. -/
theorem binding_keys_unique (Fn : UObject → FName → Bool) (ids : List (UObject × FName))
    (ops : List BindingOp) (tl : UTimelineObject)
    (htl : tl ∈ World.runOps Fn (ids.map (fun p => UTimelineObject.new p.1 p.2)) ops)
    (x : FScriptDelegate) :
    tl.OnTimelineUpdate.count x ≤ 1 ∧ tl.OnTimelineFinished.count x ≤ 1 ∧
    ∀ n, (tl.EventTrackListeners n).count x ≤ 1 := by
  have h : tl.UniqueBindings := by
    refine UniqueBindings_runOps Fn ops _ ?_ tl htl
    intro y hy
    obtain ⟨p, _, rfl⟩ := List.mem_map.1 hy
    exact UniqueBindings_new _ _
  exact ⟨List.nodup_iff_count_le_one.1 h.update x, List.nodup_iff_count_le_one.1 h.finished x,
    fun n => List.nodup_iff_count_le_one.1 (nodup_listeners _ n h.eventTrack) x⟩

end World

namespace World

theorem binding_keys_unique_witness :
    doorBound.OnTimelineUpdate.count ⟨7, "OnTick"⟩ ≤ 1 ∧
    doorBound.OnTimelineFinished.count ⟨7, "OnTick"⟩ ≤ 1 ∧
    ∀ n, (doorBound.EventTrackListeners n).count ⟨7, "OnTick"⟩ ≤ 1 :=
  binding_keys_unique (fun _ _ => true) [(7, "TimelineObj_Door")] doorOps doorBound
    (show doorBound ∈ [doorBound] from List.mem_singleton_self _) ⟨7, "OnTick"⟩

end World

namespace UTimelineObject

/-- C10 (unbind-all completeness): after `RemoveAllDelegatesForObject(T)` with `T` non-null,
no listener whose target is `T` remains in the Update, Finished, float-track, vector-track,
colour-track or any event-track channel, no entry of the Update, Finished or any event
track's tracking set has `T` as its target, and a broadcast on any of these channels then
invokes nothing on `T`. -/
theorem unbind_all_complete (s : UTimelineObject) (T : UObject) :
    (∀ x ∈ (s.RemoveAllDelegatesForObject (some T)).OnTimelineUpdate, x.Object ≠ T) ∧
    (∀ x ∈ (s.RemoveAllDelegatesForObject (some T)).OnTimelineFinished, x.Object ≠ T) ∧
    (∀ x ∈ (s.RemoveAllDelegatesForObject (some T)).OnFloatTrack, x.Object ≠ T) ∧
    (∀ x ∈ (s.RemoveAllDelegatesForObject (some T)).OnVectorTrack, x.Object ≠ T) ∧
    (∀ x ∈ (s.RemoveAllDelegatesForObject (some T)).OnLinearColorTrack, x.Object ≠ T) ∧
    (∀ p ∈ (s.RemoveAllDelegatesForObject (some T)).EventTrackDelegates,
      ∀ x ∈ p.2, x.Object ≠ T) ∧
    (∀ k ∈ (s.RemoveAllDelegatesForObject (some T)).BoundUpdateFunctions, k.1 ≠ T) ∧
    (∀ k ∈ (s.RemoveAllDelegatesForObject (some T)).BoundFinishedFunctions, k.1 ≠ T) ∧
    (∀ p ∈ (s.RemoveAllDelegatesForObject (some T)).BoundEventTrackFunctions,
      ∀ k ∈ p.2, k.1 ≠ T) ∧
    (∀ F, (⟨T, F⟩ : FScriptDelegate) ∉
        (s.RemoveAllDelegatesForObject (some T)).OnTimelineUpdate.Broadcast ∧
      (⟨T, F⟩ : FScriptDelegate) ∉
        (s.RemoveAllDelegatesForObject (some T)).OnTimelineFinished.Broadcast ∧
      (⟨T, F⟩ : FScriptDelegate) ∉
        (s.RemoveAllDelegatesForObject (some T)).OnFloatTrack.Broadcast ∧
      (⟨T, F⟩ : FScriptDelegate) ∉
        (s.RemoveAllDelegatesForObject (some T)).OnVectorTrack.Broadcast ∧
      (⟨T, F⟩ : FScriptDelegate) ∉
        (s.RemoveAllDelegatesForObject (some T)).OnLinearColorTrack.Broadcast ∧
      ∀ n, (⟨T, F⟩ : FScriptDelegate) ∉
        ((s.RemoveAllDelegatesForObject (some T)).EventTrackListeners n).Broadcast) := by
  have hrm : ∀ (d : FMulticastScriptDelegate), ∀ x ∈ d.RemoveAll T, x.Object ≠ T := by
    intro d x hx
    have := (List.mem_filter.1 hx).2
    simpa using this
  have hset : ∀ (b : TSet FBindingKey), ∀ k ∈ b.filter (fun It => decide (It.1 ≠ T)),
      k.1 ≠ T := by
    intro b k hk
    have := (List.mem_filter.1 hk).2
    simpa using this
  have hev : ∀ p ∈ (s.RemoveAllDelegatesForObject (some T)).EventTrackDelegates,
      ∀ x ∈ p.2, x.Object ≠ T := by
    intro p hp x hx
    simp only [RemoveAllDelegatesForObject] at hp
    obtain ⟨q, _, rfl⟩ := List.mem_map.1 hp
    exact hrm _ x hx
  refine ⟨hrm _, hrm _, hrm _, hrm _, hrm _, hev, hset _, hset _, ?_, ?_⟩
  · intro p hp k hk
    simp only [RemoveAllDelegatesForObject] at hp
    obtain ⟨q, _, rfl⟩ := List.mem_map.1 hp
    exact hset _ k hk
  · intro F
    refine ⟨fun h => hrm _ _ h rfl, fun h => hrm _ _ h rfl, fun h => hrm _ _ h rfl,
      fun h => hrm _ _ h rfl, fun h => hrm _ _ h rfl, ?_⟩
    intro n h
    unfold EventTrackListeners FMulticastScriptDelegate.Broadcast at h
    cases hf : (s.RemoveAllDelegatesForObject (some T)).EventTrackDelegates.Find n with
    | none => simp [hf] at h
    | some d =>
      rw [hf] at h
      exact hev (n, d) (TMap.mem_of_Find _ _ _ hf) _ h rfl

end UTimelineObject

/-! ## Tracking sets are backed by listeners -/

namespace TMap

variable {K V : Type} [DecidableEq K]

theorem Find_map_snd (m : TMap K V) (f : V → V) (k : K) :
    Find (m.map (fun p => (p.1, f p.2))) k = (Find m k).map f := by
  induction m with
  | nil => rfl
  | cons p rest ih =>
    obtain ⟨k1, v1⟩ := p
    by_cases h : k1 = k
    · simp [Find, h]
    · simp [Find, h, ih]

end TMap

namespace UTimelineObject

theorem listeners_bind_track_self (D : TMap FName FMulticastScriptDelegate) (n : FName)
    (x : FScriptDelegate) :
    x ∈ (((D.FindOrAdd n []).Add n
      ((((D.FindOrAdd n []).Find n).getD []).AddUnique x)).Find n).getD [] := by
  rw [TMap.Find_Add_self]
  exact FMulticastScriptDelegate.mem_AddUnique_self _ _

theorem listeners_bind_track_mono (D : TMap FName FMulticastScriptDelegate) (n m : FName)
    (x y : FScriptDelegate) (h : y ∈ (D.Find m).getD []) :
    y ∈ (((D.FindOrAdd n []).Add n
      ((((D.FindOrAdd n []).Find n).getD []).AddUnique x)).Find m).getD [] := by
  by_cases hnm : n = m
  · subst hnm
    rw [TMap.Find_Add_self]
    apply FMulticastScriptDelegate.mem_AddUnique_of_mem
    rw [TMap.Find_FindOrAdd]
    exact h
  · rw [TMap.Find_Add_ne _ _ _ _ hnm, TMap.Find_FindOrAdd]
    exact h

theorem TrackingSound_BindUpdateFunction (Fn : UObject → FName → Bool) (s : UTimelineObject)
    (Target : Option UObject) (F : FName) (h : s.TrackingSound) :
    (s.BindUpdateFunction Fn Target F).TrackingSound := by
  cases Target with
  | none => exact h
  | some T =>
    simp only [BindUpdateFunction]
    split
    · exact h
    · split
      · exact h
      · split
        · refine ⟨?_, h.finished, h.eventTrack⟩
          intro k hk
          rcases TSet.mem_TSet_Add _ _ _ hk with h1 | h1
          · rw [h1]
            exact FMulticastScriptDelegate.mem_AddUnique_self _ _
          · exact FMulticastScriptDelegate.mem_AddUnique_of_mem _ _ _ (h.update k h1)
        · exact h

theorem TrackingSound_BindFinishedFunction (Fn : UObject → FName → Bool)
    (s : UTimelineObject) (Target : Option UObject) (F : FName) (h : s.TrackingSound) :
    (s.BindFinishedFunction Fn Target F).TrackingSound := by
  cases Target with
  | none => exact h
  | some T =>
    simp only [BindFinishedFunction]
    split
    · exact h
    · split
      · exact h
      · split
        · refine ⟨h.update, ?_, h.eventTrack⟩
          intro k hk
          rcases TSet.mem_TSet_Add _ _ _ hk with h1 | h1
          · rw [h1]
            exact FMulticastScriptDelegate.mem_AddUnique_self _ _
          · exact FMulticastScriptDelegate.mem_AddUnique_of_mem _ _ _ (h.finished k h1)
        · exact h

theorem TrackingSound_FindOrAdd (s : UTimelineObject) (n : FName) (h : s.TrackingSound) :
    TrackingSound
      { s with BoundEventTrackFunctions := s.BoundEventTrackFunctions.FindOrAdd n [] } := by
  refine ⟨h.update, h.finished, ?_⟩
  intro p hp k hk
  rcases TMap.mem_FindOrAdd _ _ _ _ hp with h1 | h1
  · rw [h1] at hk
    simp at hk
  · exact h.eventTrack p h1 k hk

theorem TrackingSound_BindEventTrackFunction (Fn : UObject → FName → Bool)
    (s : UTimelineObject) (n : FName) (Target : Option UObject) (F : FName)
    (h : s.TrackingSound) : (s.BindEventTrackFunction Fn n Target F).TrackingSound := by
  cases Target with
  | none => exact h
  | some T =>
    simp only [BindEventTrackFunction]
    split
    · exact h
    · split
      · exact TrackingSound_FindOrAdd s n h
      · split
        · have h1 := TrackingSound_FindOrAdd s n h
          refine ⟨h.update, h.finished, ?_⟩
          intro p hp k hk
          rcases TMap.mem_Add _ _ _ _ hp with h2 | h2
          · rw [h2] at hk ⊢
            rcases TSet.mem_TSet_Add _ _ _ hk with h3 | h3
            · rw [h3]
              exact listeners_bind_track_self s.EventTrackDelegates n ⟨T, F⟩
            · apply listeners_bind_track_mono s.EventTrackDelegates n n ⟨T, F⟩
              unfold EventTrackBound at h3
              cases hf : (s.BoundEventTrackFunctions.FindOrAdd n []).Find n with
              | none => simp [hf] at h3
              | some v =>
                simp only [hf, Option.getD_some] at h3
                exact h1.eventTrack (n, v) (TMap.mem_of_Find _ _ _ hf) k h3
          · exact listeners_bind_track_mono s.EventTrackDelegates n p.1 ⟨T, F⟩ _
              (h1.eventTrack p h2 k hk)
        · exact TrackingSound_FindOrAdd s n h

theorem TrackingSound_RemoveAllDelegatesForObject (s : UTimelineObject)
    (BoundObject : Option UObject) (h : s.TrackingSound) :
    (s.RemoveAllDelegatesForObject BoundObject).TrackingSound := by
  cases BoundObject with
  | none => exact h
  | some T =>
    have hkeep : ∀ (d : FMulticastScriptDelegate) (k : FBindingKey), k.1 ≠ T →
        (⟨k.1, k.2⟩ : FScriptDelegate) ∈ d → (⟨k.1, k.2⟩ : FScriptDelegate) ∈ d.RemoveAll T := by
      intro d k hk hd
      exact List.mem_filter.2 ⟨hd, by simpa using hk⟩
    refine ⟨?_, ?_, ?_⟩
    · intro k hk
      have hk1 := List.mem_filter.1 hk
      exact hkeep _ k (by simpa using hk1.2) (h.update k hk1.1)
    · intro k hk
      have hk1 := List.mem_filter.1 hk
      exact hkeep _ k (by simpa using hk1.2) (h.finished k hk1.1)
    · intro p hp k hk
      simp only [RemoveAllDelegatesForObject] at hp
      obtain ⟨q, hq, rfl⟩ := List.mem_map.1 hp
      have hk1 := List.mem_filter.1 hk
      have hmem := h.eventTrack q hq k hk1.1
      simp only [EventTrackListeners, RemoveAllDelegatesForObject]
      rw [TMap.Find_map_snd s.EventTrackDelegates (fun d => d.RemoveAll T) q.1]
      unfold EventTrackListeners at hmem
      cases hf : s.EventTrackDelegates.Find q.1 with
      | none => simp [hf] at hmem
      | some d =>
        simp only [hf, Option.getD_some] at hmem
        exact hkeep d k (by simpa using hk1.2) hmem

end UTimelineObject

namespace UTimelineObjectBinding

open UTimelineObject

theorem TrackingSound_BindEventTracks (Fn : UObject → FName → Bool) (o : UObject)
    (l : List (FName × FName)) :
    ∀ tl : UTimelineObject, tl.TrackingSound → (BindEventTracks Fn o tl l).TrackingSound := by
  induction l with
  | nil =>
    intro tl h
    exact h
  | cons p rest ih =>
    intro tl h
    simp only [BindEventTracks]
    split
    · refine ih _ ⟨h.update, h.finished, ?_⟩
      intro q hq k hk
      exact listeners_bind_track_mono tl.EventTrackDelegates p.1 q.1 ⟨o, p.2⟩ _
        (h.eventTrack q hq k hk)
    · exact ih tl h

theorem TrackingSound_BindEntry (Fn : UObject → FName → Bool) (o : UObject)
    (Entry : FTimelineObjectBindingEntry) (tl : UTimelineObject) (h : tl.TrackingSound) :
    (BindEntry Fn o Entry tl).TrackingSound := by
  simp only [BindEntry]
  apply TrackingSound_BindEventTracks
  have h1 : (if Entry.UpdateFunctionName ≠ NAME_None ∧
        Fn o Entry.UpdateFunctionName = true then
      { tl with OnTimelineUpdate := tl.OnTimelineUpdate.AddUnique ⟨o, Entry.UpdateFunctionName⟩ }
    else tl).TrackingSound := by
    split
    · exact ⟨fun k hk => FMulticastScriptDelegate.mem_AddUnique_of_mem _ _ _ (h.update k hk),
        h.finished, h.eventTrack⟩
    · exact h
  split
  · exact ⟨h1.update,
      fun k hk => FMulticastScriptDelegate.mem_AddUnique_of_mem _ _ _ (h1.finished k hk),
      h1.eventTrack⟩
  · exact h1

end UTimelineObjectBinding

namespace World

open UTimelineObject

theorem TrackingSound_BindEntries (Fn : UObject → FName → Bool) (o : UObject)
    (entries : List FTimelineObjectBindingEntry) :
    ∀ W : World, (∀ tl ∈ W, tl.TrackingSound) →
      ∀ tl ∈ UTimelineObjectBinding.BindEntries Fn o W entries, tl.TrackingSound := by
  induction entries with
  | nil =>
    intro W h
    exact h
  | cons Entry rest ih =>
    intro W h
    simp only [UTimelineObjectBinding.BindEntries]
    split
    · exact ih W h
    · exact ih _ (forall_modifyAt _ _
        (UTimelineObjectBinding.TrackingSound_BindEntry Fn o Entry) W _ h)

theorem TrackingSound_applyOp (Fn : UObject → FName → Bool) (W : World) (op : BindingOp)
    (h : ∀ tl ∈ W, tl.TrackingSound) : ∀ tl ∈ W.applyOp Fn op, tl.TrackingSound := by
  cases op with
  | BindUpdateFunction i T F =>
    exact forall_modifyAt _ _ (fun tl => TrackingSound_BindUpdateFunction Fn tl T F) W i h
  | BindFinishedFunction i T F =>
    exact forall_modifyAt _ _ (fun tl => TrackingSound_BindFinishedFunction Fn tl T F) W i h
  | BindEventTrackFunction i n T F =>
    exact forall_modifyAt _ _ (fun tl => TrackingSound_BindEventTrackFunction Fn tl n T F) W i h
  | BindDynamicDelegates b o =>
    cases o with
    | none => exact h
    | some o => exact TrackingSound_BindEntries Fn o b.TimelineBindings W h
  | RemoveAllDelegatesForObject i T =>
    exact forall_modifyAt _ _ (fun tl => TrackingSound_RemoveAllDelegatesForObject tl T) W i h

theorem TrackingSound_runOps (Fn : UObject → FName → Bool) (ops : List BindingOp) :
    ∀ W : World, (∀ tl ∈ W, tl.TrackingSound) → ∀ tl ∈ W.runOps Fn ops, tl.TrackingSound := by
  induction ops with
  | nil =>
    intro W h
    exact h
  | cons op rest ih =>
    intro W h
    exact ih _ (TrackingSound_applyOp Fn W op h)

end World

/-! ## Unbind-all: what is kept -/

namespace UTimelineObject

theorem SameCore_refl (a : UTimelineObject) : SameCore a a :=
  ⟨rfl, rfl, rfl, rfl, rfl, rfl, rfl, rfl, rfl, rfl⟩

theorem SameCore_trans (a b c : UTimelineObject) (h1 : SameCore a b) (h2 : SameCore b c) :
    SameCore a c :=
  ⟨h2.outer.trans h1.outer, h2.objectName.trans h1.objectName, h2.timeline.trans h1.timeline,
    h2.ignoreTimeDilation.trans h1.ignoreTimeDilation, h2.floatTracks.trans h1.floatTracks,
    h2.vectorTracks.trans h1.vectorTracks, h2.linearColorTracks.trans h1.linearColorTracks,
    h2.eventTracks.trans h1.eventTracks, h2.lastPositions.trans h1.lastPositions,
    h2.pendingAutoPlay.trans h1.pendingAutoPlay⟩

theorem SameCore_RemoveAllDelegatesForObject (s : UTimelineObject) (T : Option UObject) :
    SameCore s (s.RemoveAllDelegatesForObject T) := by
  cases T with
  | none => exact SameCore_refl s
  | some T => exact ⟨rfl, rfl, rfl, rfl, rfl, rfl, rfl, rfl, rfl, rfl⟩

theorem KeepsOthers_filter {α : Type} [DecidableEq α] (P : α → Prop) [DecidablePred P]
    (l : List α) : KeepsOthers P l (l.filter (fun x => decide (¬ P x))) := by
  refine ⟨List.filter_sublist l, ?_, ?_⟩
  · intro x hx
    simpa using (List.mem_filter.1 hx).2
  · intro x hx
    exact List.count_filter (by simpa using hx)

theorem filter_eq_self_of_forall {α : Type} (p : α → Bool) (l : List α)
    (h : ∀ x ∈ l, p x = true) : l.filter p = l :=
  List.filter_eq_self.2 h

theorem map_filter_snd_eq_self {K α : Type} (p : α → Bool) (m : List (K × List α))
    (h : ∀ q ∈ m, ∀ x ∈ q.2, p x = true) :
    m.map (fun q => (q.1, q.2.filter p)) = m := by
  induction m with
  | nil => rfl
  | cons q rest ih =>
    simp only [List.map_cons]
    rw [ih (fun r hr => h r (List.mem_cons_of_mem _ hr)),
      filter_eq_self_of_forall p q.2 (h q (List.mem_cons_self _ _))]

theorem RemoveAllDelegatesForObject_of_HasNoBindings (s : UTimelineObject) (T : UObject)
    (h : s.HasNoBindings T) : s.RemoveAllDelegatesForObject (some T) = s := by
  have hd : ∀ d : FMulticastScriptDelegate, (∀ x ∈ d, x.Object ≠ T) → d.RemoveAll T = d := by
    intro d hd
    exact filter_eq_self_of_forall _ d (fun x hx => by simpa using hd x hx)
  have hs : ∀ b : TSet FBindingKey, (∀ k ∈ b, k.1 ≠ T) →
      b.filter (fun It => decide (It.1 ≠ T)) = b := by
    intro b hb
    exact filter_eq_self_of_forall _ b (fun k hk => by simpa using hb k hk)
  have he : s.EventTrackDelegates.map (fun Pair => (Pair.1, Pair.2.RemoveAll T)) =
      s.EventTrackDelegates :=
    map_filter_snd_eq_self _ s.EventTrackDelegates
      (fun q hq x hx => by simpa using h.eventTrack q hq x hx)
  have hb : s.BoundEventTrackFunctions.map (fun TrackPair =>
      (TrackPair.1, TrackPair.2.filter (fun It => decide (It.1 ≠ T)))) =
      s.BoundEventTrackFunctions :=
    map_filter_snd_eq_self _ s.BoundEventTrackFunctions
      (fun q hq k hk => by simpa using h.boundEventTrack q hq k hk)
  simp only [RemoveAllDelegatesForObject]
  rw [hd _ h.update, hd _ h.finished, hd _ h.floatTrack, hd _ h.vectorTrack,
    hd _ h.linearColorTrack, he, hs _ h.boundUpdate, hs _ h.boundFinished, hb]

theorem EventTrackListeners_RemoveAll (s : UTimelineObject) (T : UObject) (n : FName) :
    (s.RemoveAllDelegatesForObject (some T)).EventTrackListeners n =
      (s.EventTrackListeners n).RemoveAll T := by
  simp only [EventTrackListeners, RemoveAllDelegatesForObject]
  rw [TMap.Find_map_snd s.EventTrackDelegates (fun d => d.RemoveAll T) n]
  cases s.EventTrackDelegates.Find n <;> rfl

theorem EventTrackBound_RemoveAll (s : UTimelineObject) (T : UObject) (n : FName) :
    (s.RemoveAllDelegatesForObject (some T)).EventTrackBound n =
      (s.EventTrackBound n).filter (fun It => decide (It.1 ≠ T)) := by
  simp only [EventTrackBound, RemoveAllDelegatesForObject]
  rw [TMap.Find_map_snd s.BoundEventTrackFunctions
    (fun b => b.filter (fun It => decide (It.1 ≠ T))) n]
  cases s.BoundEventTrackFunctions.Find n <;> rfl

theorem Forall₂_SameCore_refl (W : World) : List.Forall₂ SameCore W W := by
  induction W with
  | nil => exact List.Forall₂.nil
  | cons x rest ih => exact List.Forall₂.cons (SameCore_refl x) ih

theorem Forall₂_SameCore_modifyAt (f : UTimelineObject → UTimelineObject)
    (hf : ∀ x, SameCore x (f x)) (W : World) :
    ∀ i, List.Forall₂ SameCore W (W.modifyAt i f) := by
  induction W with
  | nil =>
    intro i
    exact List.Forall₂.nil
  | cons x rest ih =>
    intro i
    cases i with
    | zero => exact List.Forall₂.cons (hf x) (Forall₂_SameCore_refl rest)
    | succ i => exact List.Forall₂.cons (SameCore_refl x) (ih i)

theorem Forall₂_SameCore_trans (W1 W2 W3 : World) (h1 : List.Forall₂ SameCore W1 W2)
    (h2 : List.Forall₂ SameCore W2 W3) : List.Forall₂ SameCore W1 W3 := by
  induction h1 generalizing W3 with
  | nil =>
    cases h2
    exact List.Forall₂.nil
  | cons hab _ ih =>
    cases h2 with
    | cons hbc hrest => exact List.Forall₂.cons (SameCore_trans _ _ _ hab hbc) (ih _ hrest)

theorem SameCore_UnbindEntries (o : UObject) (entries : List FTimelineObjectBindingEntry) :
    ∀ W : World, List.Forall₂ SameCore W (UTimelineObjectBinding.UnbindEntries o W entries) := by
  induction entries with
  | nil =>
    intro W
    exact Forall₂_SameCore_refl W
  | cons Entry rest ih =>
    intro W
    simp only [UTimelineObjectBinding.UnbindEntries]
    split
    · exact Forall₂_SameCore_trans _ _ _
        (Forall₂_SameCore_modifyAt _ (fun x => SameCore_RemoveAllDelegatesForObject x (some o))
          W _) (ih _)
    · exact ih W

/-- C11 (unbind-all frame): `RemoveAllDelegatesForObject(T)` keeps, in every channel and
every tracking set, every entry whose target differs from `T`, as often and in the same
relative order, and keeps the set of event tracks; it leaves the identity of the object,
its timeline (playback state), its flags, its track maps and its detector positions
unchanged; when `T` is the target of no binding, or `T` is null, the whole object is
unchanged; and `UnbindDynamicDelegates`, which calls it on the timeline objects of an
instance, keeps every timeline object of the world, with the same identity, timeline, track
maps and detector positions. -/
theorem unbind_all_frame (s : UTimelineObject) (T : UObject) (b : UTimelineObjectBinding)
    (W : World) (InInstance : Option UObject) :
    KeepsOthers (fun x => x.Object = T) s.OnTimelineUpdate
      (s.RemoveAllDelegatesForObject (some T)).OnTimelineUpdate ∧
    KeepsOthers (fun x => x.Object = T) s.OnTimelineFinished
      (s.RemoveAllDelegatesForObject (some T)).OnTimelineFinished ∧
    KeepsOthers (fun x => x.Object = T) s.OnFloatTrack
      (s.RemoveAllDelegatesForObject (some T)).OnFloatTrack ∧
    KeepsOthers (fun x => x.Object = T) s.OnVectorTrack
      (s.RemoveAllDelegatesForObject (some T)).OnVectorTrack ∧
    KeepsOthers (fun x => x.Object = T) s.OnLinearColorTrack
      (s.RemoveAllDelegatesForObject (some T)).OnLinearColorTrack ∧
    (s.RemoveAllDelegatesForObject (some T)).EventTrackDelegates.map Prod.fst =
      s.EventTrackDelegates.map Prod.fst ∧
    (∀ n, KeepsOthers (fun x => x.Object = T) (s.EventTrackListeners n)
      ((s.RemoveAllDelegatesForObject (some T)).EventTrackListeners n)) ∧
    KeepsOthers (fun k => k.1 = T) s.BoundUpdateFunctions
      (s.RemoveAllDelegatesForObject (some T)).BoundUpdateFunctions ∧
    KeepsOthers (fun k => k.1 = T) s.BoundFinishedFunctions
      (s.RemoveAllDelegatesForObject (some T)).BoundFinishedFunctions ∧
    (s.RemoveAllDelegatesForObject (some T)).BoundEventTrackFunctions.map Prod.fst =
      s.BoundEventTrackFunctions.map Prod.fst ∧
    (∀ n, KeepsOthers (fun k => k.1 = T) (s.EventTrackBound n)
      ((s.RemoveAllDelegatesForObject (some T)).EventTrackBound n)) ∧
    SameCore s (s.RemoveAllDelegatesForObject (some T)) ∧
    (s.HasNoBindings T → s.RemoveAllDelegatesForObject (some T) = s) ∧
    s.RemoveAllDelegatesForObject none = s ∧
    List.Forall₂ SameCore W (b.UnbindDynamicDelegates W InInstance) := by
  have hd : ∀ d : FMulticastScriptDelegate,
      KeepsOthers (fun x => x.Object = T) d (d.RemoveAll T) :=
    fun d => KeepsOthers_filter (fun x : FScriptDelegate => x.Object = T) d
  have hs : ∀ b : TSet FBindingKey, KeepsOthers (fun k => k.1 = T) b
      (b.filter (fun It => decide (It.1 ≠ T))) :=
    fun b => KeepsOthers_filter (fun k : FBindingKey => k.1 = T) b
  refine ⟨hd _, hd _, hd _, hd _, hd _, ?_, ?_, hs _, hs _, ?_, ?_,
    SameCore_RemoveAllDelegatesForObject s (some T),
    RemoveAllDelegatesForObject_of_HasNoBindings s T, rfl, ?_⟩
  · simp [RemoveAllDelegatesForObject, List.map_map, Function.comp_def]
  · intro n
    rw [EventTrackListeners_RemoveAll]
    exact hd _
  · simp [RemoveAllDelegatesForObject, List.map_map, Function.comp_def]
  · intro n
    rw [EventTrackBound_RemoveAll]
    exact hs _
  · cases InInstance with
    | none => exact Forall₂_SameCore_refl W
    | some o => exact SameCore_UnbindEntries o b.TimelineBindings W

theorem unbind_all_frame_witness :
    doorBound.RemoveAllDelegatesForObject (some 8) = doorBound :=
  (unbind_all_frame doorBound 8 ⟨[]⟩ [] none).2.2.2.2.2.2.2.2.2.2.2.2.1
    ⟨by decide, by decide, by decide, by decide, by decide, by decide, by decide, by decide,
      by decide⟩

end UTimelineObject

/-! ## Binding misses -/

namespace UTimelineObject

theorem BindUpdateFunction_miss (Fn : UObject → FName → Bool) (s : UTimelineObject)
    (Target : Option UObject) (F : FName) (h : BindingMiss Fn Target F) :
    s.BindUpdateFunction Fn Target F = s := by
  cases Target with
  | none => rfl
  | some T =>
    simp only [BindUpdateFunction]
    split
    · rfl
    · split
      · rfl
      · split
        · rename_i hF _ hfn
          rcases h with h | h | ⟨T1, hT, hf⟩
          · cases h
          · exact absurd h hF
          · cases hT
            rw [hf] at hfn
            cases hfn
        · rfl

theorem BindFinishedFunction_miss (Fn : UObject → FName → Bool) (s : UTimelineObject)
    (Target : Option UObject) (F : FName) (h : BindingMiss Fn Target F) :
    s.BindFinishedFunction Fn Target F = s := by
  cases Target with
  | none => rfl
  | some T =>
    simp only [BindFinishedFunction]
    split
    · rfl
    · split
      · rfl
      · split
        · rename_i hF _ hfn
          rcases h with h | h | ⟨T1, hT, hf⟩
          · cases h
          · exact absurd h hF
          · cases hT
            rw [hf] at hfn
            cases hfn
        · rfl

/-- On a miss `BindEventTrackFunction` returns the object itself, or the object with an
empty tracking set created for the track. -/
theorem BindEventTrackFunction_miss (Fn : UObject → FName → Bool) (s : UTimelineObject)
    (n : FName) (Target : Option UObject) (F : FName)
    (h : BindingMiss Fn Target F ∨ n = NAME_None) :
    s.BindEventTrackFunction Fn n Target F = s ∨
    s.BindEventTrackFunction Fn n Target F =
      { s with BoundEventTrackFunctions := s.BoundEventTrackFunctions.FindOrAdd n [] } := by
  cases Target with
  | none => exact Or.inl rfl
  | some T =>
    simp only [BindEventTrackFunction]
    split
    · exact Or.inl rfl
    · split
      · exact Or.inr rfl
      · split
        · rename_i hFn _ hfn
          rcases h with (h | h | ⟨T1, hT, hf⟩) | h
          · cases h
          · exact absurd (Or.inl h) hFn
          · cases hT
            rw [hf] at hfn
            cases hfn
          · exact absurd (Or.inr h) hFn
        · exact Or.inr rfl

/-- C12 (binding miss is a silent no-op): when the target is null, or the function name is
`NAME_None`, or the function name does not resolve on the class of the target (or, for an
event track, the track name is `NAME_None`), `BindUpdateFunction` and
`BindFinishedFunction` return the object unchanged, and `BindEventTrackFunction` returns an
object with the same listener lists in every channel, the same Update and Finished tracking
sets and, for every track, the same tracked keys (at most an empty tracking set is created
for the track); the binders are total functions, so the call does not fail. -/
theorem binding_miss_is_silent (Fn : UObject → FName → Bool) (s : UTimelineObject) (n : FName)
    (Target : Option UObject) (F : FName) (h : BindingMiss Fn Target F ∨ n = NAME_None) :
    (BindingMiss Fn Target F →
      s.BindUpdateFunction Fn Target F = s ∧ s.BindFinishedFunction Fn Target F = s) ∧
    (s.BindEventTrackFunction Fn n Target F).OnTimelineUpdate = s.OnTimelineUpdate ∧
    (s.BindEventTrackFunction Fn n Target F).OnTimelineFinished = s.OnTimelineFinished ∧
    (s.BindEventTrackFunction Fn n Target F).OnFloatTrack = s.OnFloatTrack ∧
    (s.BindEventTrackFunction Fn n Target F).OnVectorTrack = s.OnVectorTrack ∧
    (s.BindEventTrackFunction Fn n Target F).OnLinearColorTrack = s.OnLinearColorTrack ∧
    (s.BindEventTrackFunction Fn n Target F).EventTrackDelegates = s.EventTrackDelegates ∧
    (s.BindEventTrackFunction Fn n Target F).BoundUpdateFunctions = s.BoundUpdateFunctions ∧
    (s.BindEventTrackFunction Fn n Target F).BoundFinishedFunctions =
      s.BoundFinishedFunctions ∧
    (∀ p ∈ (s.BindEventTrackFunction Fn n Target F).BoundEventTrackFunctions,
      p ∈ s.BoundEventTrackFunctions ∨ p.2 = []) ∧
    (∀ m, (s.BindEventTrackFunction Fn n Target F).EventTrackBound m = s.EventTrackBound m) ∧
    SameCore s (s.BindEventTrackFunction Fn n Target F) := by
  refine ⟨fun hm => ⟨BindUpdateFunction_miss Fn s Target F hm,
    BindFinishedFunction_miss Fn s Target F hm⟩, ?_⟩
  rcases BindEventTrackFunction_miss Fn s n Target F h with h1 | h1
  · rw [h1]
    exact ⟨rfl, rfl, rfl, rfl, rfl, rfl, rfl, rfl, fun p hp => Or.inl hp, fun m => rfl,
      SameCore_refl s⟩
  · rw [h1]
    refine ⟨rfl, rfl, rfl, rfl, rfl, rfl, rfl, rfl, ?_, ?_,
      ⟨rfl, rfl, rfl, rfl, rfl, rfl, rfl, rfl, rfl, rfl⟩⟩
    · intro p hp
      rcases TMap.mem_FindOrAdd _ _ _ _ hp with h2 | h2
      · exact Or.inr (by rw [h2])
      · exact Or.inl h2
    · intro m
      exact TMap.Find_FindOrAdd _ _ _ _

theorem binding_miss_is_silent_witness :
    doorBound.BindUpdateFunction (fun _ _ => false) (some 7) "OnMissing" = doorBound ∧
    doorBound.BindFinishedFunction (fun _ _ => false) (some 7) "OnMissing" = doorBound ∧
    (doorBound.BindEventTrackFunction (fun _ _ => false) "Closed" (some 7)
      "OnMissing").EventTrackDelegates = doorBound.EventTrackDelegates ∧
    ∀ m, (doorBound.BindEventTrackFunction (fun _ _ => false) "Closed" (some 7)
      "OnMissing").EventTrackBound m = doorBound.EventTrackBound m :=
  have h : BindingMiss (fun _ _ => false) (some 7) "OnMissing" := Or.inr (Or.inr ⟨7, rfl, rfl⟩)
  have hw := binding_miss_is_silent (fun _ _ => false) doorBound "Closed" (some 7) "OnMissing"
    (Or.inl h)
  ⟨(hw.1 h).1, (hw.1 h).2, hw.2.2.2.2.2.2.1, hw.2.2.2.2.2.2.2.2.2.2.1⟩

end UTimelineObject

/-! ## Frame lemmas of the binders and of initialisation -/

namespace UTimelineObject

theorem SameCore_BindUpdateFunction (Fn : UObject → FName → Bool) (s : UTimelineObject)
    (Target : Option UObject) (F : FName) : SameCore s (s.BindUpdateFunction Fn Target F) := by
  cases Target with
  | none => exact SameCore_refl s
  | some T =>
    simp only [BindUpdateFunction]
    repeat' split
    all_goals first | exact SameCore_refl s | exact ⟨rfl, rfl, rfl, rfl, rfl, rfl, rfl, rfl, rfl, rfl⟩

theorem SameCore_BindFinishedFunction (Fn : UObject → FName → Bool) (s : UTimelineObject)
    (Target : Option UObject) (F : FName) : SameCore s (s.BindFinishedFunction Fn Target F) := by
  cases Target with
  | none => exact SameCore_refl s
  | some T =>
    simp only [BindFinishedFunction]
    repeat' split
    all_goals first | exact SameCore_refl s | exact ⟨rfl, rfl, rfl, rfl, rfl, rfl, rfl, rfl, rfl, rfl⟩

theorem SameCore_BindEventTrackFunction (Fn : UObject → FName → Bool) (s : UTimelineObject)
    (n : FName) (Target : Option UObject) (F : FName) :
    SameCore s (s.BindEventTrackFunction Fn n Target F) := by
  cases Target with
  | none => exact SameCore_refl s
  | some T =>
    simp only [BindEventTrackFunction]
    repeat' split
    all_goals first | exact SameCore_refl s | exact ⟨rfl, rfl, rfl, rfl, rfl, rfl, rfl, rfl, rfl, rfl⟩

theorem SameCore_BindUpdateAndFinished (Fn : UObject → FName → Bool) (o : UObject)
    (s : UTimelineObject) (upd fin : FName) :
    SameCore s (BindUpdateAndFinished Fn o s upd fin) := by
  have h1 : SameCore s (if upd ≠ NAME_None then s.BindUpdateFunction Fn (some o) upd else s) := by
    split
    · exact SameCore_BindUpdateFunction Fn s (some o) upd
    · exact SameCore_refl s
  simp only [BindUpdateAndFinished]
  split
  · exact SameCore_trans _ _ _ h1 (SameCore_BindFinishedFunction Fn _ (some o) fin)
  · exact h1

theorem SameCore_BindDeclaredEventTracks (Fn : UObject → FName → Bool) (o : UObject)
    (l : List (FName × FName)) :
    ∀ s : UTimelineObject, SameCore s (BindDeclaredEventTracks Fn o s l) := by
  induction l with
  | nil =>
    intro s
    exact SameCore_refl s
  | cons p rest ih =>
    intro s
    simp only [BindDeclaredEventTracks]
    split
    · exact SameCore_trans _ _ _ (SameCore_BindEventTrackFunction Fn s p.1 (some o) p.2) (ih _)
    · exact ih s

theorem SameCore_BindCreated (Fn : UObject → FName → Bool)
    (GetBPGC : UObject → Option UBlueprintGeneratedClass) (o : UObject) (s : UTimelineObject)
    (name upd fin : FName) : SameCore s (BindCreated Fn GetBPGC o s name upd fin) := by
  have h1 := SameCore_BindUpdateAndFinished Fn o s upd fin
  simp only [BindCreated]
  repeat' split
  all_goals first
    | exact h1
    | exact SameCore_trans _ _ _ h1 (SameCore_BindDeclaredEventTracks Fn o _ _)

theorem SameBindings_refl (a : UTimelineObject) : SameBindings a a :=
  ⟨rfl, rfl, rfl, rfl, rfl, rfl, rfl, rfl, rfl⟩

theorem SameBindings_trans (a b c : UTimelineObject) (h1 : SameBindings a b)
    (h2 : SameBindings b c) : SameBindings a c :=
  ⟨h2.update.trans h1.update, h2.finished.trans h1.finished, h2.floatTrack.trans h1.floatTrack,
    h2.vectorTrack.trans h1.vectorTrack, h2.linearColorTrack.trans h1.linearColorTrack,
    h2.eventTrack.trans h1.eventTrack, h2.boundUpdate.trans h1.boundUpdate,
    h2.boundFinished.trans h1.boundFinished, h2.boundEventTrack.trans h1.boundEventTrack⟩

theorem UniqueBindings_of_SameBindings (a b : UTimelineObject) (h : SameBindings a b)
    (ha : a.UniqueBindings) : b.UniqueBindings :=
  UniqueBindings_congr a b ha h.update h.finished h.eventTrack

theorem TrackingSound_of_SameBindings (a b : UTimelineObject) (h : SameBindings a b)
    (ha : a.TrackingSound) : b.TrackingSound := by
  refine ⟨?_, ?_, ?_⟩
  · rw [h.update, h.boundUpdate]
    exact ha.update
  · rw [h.finished, h.boundFinished]
    exact ha.finished
  · rw [h.boundEventTrack]
    intro p hp k hk
    have := ha.eventTrack p hp k hk
    simpa [EventTrackListeners, h.eventTrack] using this

theorem SameBindings_TriggerAutoPlay (s : UTimelineObject) :
    SameBindings s (TriggerAutoPlay s) := by
  simp only [TriggerAutoPlay]
  split
  · exact ⟨rfl, rfl, rfl, rfl, rfl, rfl, rfl, rfl, rfl⟩
  · exact SameBindings_refl s

theorem foldl_preserves {α β : Type} (Q : UTimelineObject → β)
    (f : UTimelineObject → α → UTimelineObject) (h : ∀ s x, Q (f s x) = Q s) (l : List α) :
    ∀ s, Q (l.foldl f s) = Q s := by
  induction l with
  | nil =>
    intro s
    rfl
  | cons x rest ih =>
    intro s
    simp only [List.foldl_cons]
    rw [ih, h]

theorem foldl_invariant {α : Type} (P : UTimelineObject → Prop)
    (f : UTimelineObject → α → UTimelineObject) (h : ∀ s x, P s → P (f s x)) (l : List α) :
    ∀ s, P s → P (l.foldl f s) := by
  induction l with
  | nil =>
    intro s hs
    exact hs
  | cons x rest ih =>
    intro s hs
    exact ih _ (h s x hs)

end UTimelineObject

/-! ## Initialisation from a template -/

namespace UTimelineObject

theorem InitFrame_refl (a : UTimelineObject) : InitFrame a a :=
  ⟨rfl, rfl, rfl, rfl, rfl, rfl, rfl, rfl, rfl, rfl, rfl, rfl, fun _ => rfl, rfl, rfl, rfl⟩

theorem InitFrame_trans (a b c : UTimelineObject) (h1 : InitFrame a b) (h2 : InitFrame b c) :
    InitFrame a c :=
  ⟨h2.outer.trans h1.outer, h2.objectName.trans h1.objectName, h2.playing.trans h1.playing,
    h2.reverse.trans h1.reverse, h2.position.trans h1.position,
    h2.postUpdateFunc.trans h1.postUpdateFunc, h2.finishedFunc.trans h1.finishedFunc,
    h2.update.trans h1.update, h2.finished.trans h1.finished,
    h2.floatTrack.trans h1.floatTrack, h2.vectorTrack.trans h1.vectorTrack,
    h2.linearColorTrack.trans h1.linearColorTrack,
    fun n => (h2.eventTrack n).trans (h1.eventTrack n), h2.boundUpdate.trans h1.boundUpdate,
    h2.boundFinished.trans h1.boundFinished, h2.boundEventTrack.trans h1.boundEventTrack⟩

theorem InitFrame_foldl {α : Type} (f : UTimelineObject → α → UTimelineObject)
    (h : ∀ s x, InitFrame s (f s x)) (l : List α) : ∀ s, InitFrame s (l.foldl f s) := by
  induction l with
  | nil =>
    intro s
    exact InitFrame_refl s
  | cons x rest ih =>
    intro s
    exact InitFrame_trans _ _ _ (h s x) (ih _)

theorem InitFrame_RegisterEventTrack (s : UTimelineObject) (n : FName) (c : Option UCurveFloat) :
    InitFrame s (s.RegisterEventTrack n c) := by
  cases c with
  | none => exact InitFrame_refl s
  | some c =>
    simp only [RegisterEventTrack]
    split
    · exact ⟨rfl, rfl, rfl, rfl, rfl, rfl, rfl, rfl, rfl, rfl, rfl, rfl,
        fun m => TMap.Find_FindOrAdd _ _ _ _, rfl, rfl, rfl⟩
    · exact InitFrame_refl s

theorem InitFrame_InitEventTrack (s : UTimelineObject) (Track : FTTEventTrack) :
    InitFrame s (s.InitEventTrack Track) := by
  simp only [InitEventTrack]
  split
  · exact InitFrame_RegisterEventTrack s _ _
  · exact InitFrame_refl s

theorem InitFrame_InitFloatTrack (s : UTimelineObject) (Track : FTTFloatTrack) :
    InitFrame s (s.InitFloatTrack Track) := by
  simp only [InitFloatTrack]
  split
  · exact ⟨rfl, rfl, rfl, rfl, rfl, rfl, rfl, rfl, rfl, rfl, rfl, rfl, fun _ => rfl, rfl, rfl,
      rfl⟩
  · exact InitFrame_refl s

theorem InitFrame_InitVectorTrack (s : UTimelineObject) (Track : FTTVectorTrack) :
    InitFrame s (s.InitVectorTrack Track) := by
  simp only [InitVectorTrack]
  split
  · exact ⟨rfl, rfl, rfl, rfl, rfl, rfl, rfl, rfl, rfl, rfl, rfl, rfl, fun _ => rfl, rfl, rfl,
      rfl⟩
  · exact InitFrame_refl s

theorem InitFrame_InitLinearColorTrack (s : UTimelineObject) (Track : FTTLinearColorTrack) :
    InitFrame s (s.InitLinearColorTrack Track) := by
  simp only [InitLinearColorTrack]
  split
  · exact ⟨rfl, rfl, rfl, rfl, rfl, rfl, rfl, rfl, rfl, rfl, rfl, rfl, fun _ => rfl, rfl, rfl,
      rfl⟩
  · exact InitFrame_refl s

theorem InitFrame_InitializeFromTemplate (s : UTimelineObject)
    (Template : Option UTimelineTemplate) : InitFrame s (s.InitializeFromTemplate Template) := by
  cases Template with
  | none => exact InitFrame_refl s
  | some T =>
    have h1 : InitFrame s (((((s.SetTimelineLength T.TimelineLength).SetTimelineLengthMode
        T.LengthMode).SetLooping T.bLoop).SetPlayRate 1).SetIgnoreTimeDilation
        T.bIgnoreTimeDilation) :=
      ⟨rfl, rfl, rfl, rfl, rfl, rfl, rfl, rfl, rfl, rfl, rfl, rfl, fun _ => rfl, rfl, rfl, rfl⟩
    have h5 := InitFrame_trans _ _ _ (InitFrame_trans _ _ _ (InitFrame_trans _ _ _
      (InitFrame_trans _ _ _ h1 (InitFrame_foldl InitFloatTrack InitFrame_InitFloatTrack
        T.FloatTracks _))
      (InitFrame_foldl InitVectorTrack InitFrame_InitVectorTrack T.VectorTracks _))
      (InitFrame_foldl InitLinearColorTrack InitFrame_InitLinearColorTrack
        T.LinearColorTracks _))
      (InitFrame_foldl InitEventTrack InitFrame_InitEventTrack T.EventTracks _)
    simp only [InitializeFromTemplate]
    split
    · exact InitFrame_trans _ _ _ h5
        ⟨rfl, rfl, rfl, rfl, rfl, rfl, rfl, rfl, rfl, rfl, rfl, rfl, fun _ => rfl, rfl, rfl, rfl⟩
    · exact h5

theorem TrackingSound_of_InitFrame (a b : UTimelineObject) (h : InitFrame a b)
    (ha : a.TrackingSound) : b.TrackingSound := by
  refine ⟨?_, ?_, ?_⟩
  · rw [h.update, h.boundUpdate]
    exact ha.update
  · rw [h.finished, h.boundFinished]
    exact ha.finished
  · rw [h.boundEventTrack]
    intro p hp k hk
    rw [h.eventTrack]
    exact ha.eventTrack p hp k hk

theorem UniqueBindings_RegisterEventTrack (s : UTimelineObject) (n : FName)
    (c : Option UCurveFloat) (h : s.UniqueBindings) : (s.RegisterEventTrack n c).UniqueBindings := by
  cases c with
  | none => exact h
  | some c =>
    simp only [RegisterEventTrack]
    split
    · refine ⟨h.update, h.finished, ?_⟩
      intro p hp
      rcases TMap.mem_FindOrAdd _ _ _ _ hp with h1 | h1
      · rw [h1]
        exact List.nodup_nil
      · exact h.eventTrack p h1
    · exact h

theorem UniqueBindings_InitializeFromTemplate (s : UTimelineObject)
    (Template : Option UTimelineTemplate) (h : s.UniqueBindings) :
    (s.InitializeFromTemplate Template).UniqueBindings := by
  cases Template with
  | none => exact h
  | some T =>
    have h1 : (((((s.SetTimelineLength T.TimelineLength).SetTimelineLengthMode
        T.LengthMode).SetLooping T.bLoop).SetPlayRate 1).SetIgnoreTimeDilation
        T.bIgnoreTimeDilation).UniqueBindings := UniqueBindings_congr s _ h rfl rfl rfl
    have h2 := foldl_invariant UniqueBindings InitFloatTrack (fun s x hs => by
      simp only [InitFloatTrack]
      split
      · exact UniqueBindings_congr s _ hs rfl rfl rfl
      · exact hs) T.FloatTracks _ h1
    have h3 := foldl_invariant UniqueBindings InitVectorTrack (fun s x hs => by
      simp only [InitVectorTrack]
      split
      · exact UniqueBindings_congr s _ hs rfl rfl rfl
      · exact hs) T.VectorTracks _ h2
    have h4 := foldl_invariant UniqueBindings InitLinearColorTrack (fun s x hs => by
      simp only [InitLinearColorTrack]
      split
      · exact UniqueBindings_congr s _ hs rfl rfl rfl
      · exact hs) T.LinearColorTracks _ h3
    have h5 := foldl_invariant UniqueBindings InitEventTrack (fun s x hs => by
      simp only [InitEventTrack]
      split
      · exact UniqueBindings_RegisterEventTrack s _ _ hs
      · exact hs) T.EventTracks _ h4
    simp only [InitializeFromTemplate]
    split
    · exact UniqueBindings_congr _ _ h5 rfl rfl rfl
    · exact h5

theorem TracksWF_InitializeFromTemplate (s : UTimelineObject)
    (Template : Option UTimelineTemplate) (h : s.TracksWF) :
    (s.InitializeFromTemplate Template).TracksWF := by
  cases Template with
  | none => exact h
  | some T =>
    have h1 : (((((s.SetTimelineLength T.TimelineLength).SetTimelineLengthMode
        T.LengthMode).SetLooping T.bLoop).SetPlayRate 1).SetIgnoreTimeDilation
        T.bIgnoreTimeDilation).TracksWF := TracksWF_congr s _ h rfl rfl
    have h2 := foldl_invariant TracksWF InitFloatTrack (fun s x hs => by
      simp only [InitFloatTrack]
      split
      · exact TracksWF_congr s _ hs rfl rfl
      · exact hs) T.FloatTracks _ h1
    have h3 := foldl_invariant TracksWF InitVectorTrack (fun s x hs => by
      simp only [InitVectorTrack]
      split
      · exact TracksWF_congr s _ hs rfl rfl
      · exact hs) T.VectorTracks _ h2
    have h4 := foldl_invariant TracksWF InitLinearColorTrack (fun s x hs => by
      simp only [InitLinearColorTrack]
      split
      · exact TracksWF_congr s _ hs rfl rfl
      · exact hs) T.LinearColorTracks _ h3
    have h5 := foldl_invariant TracksWF InitEventTrack (fun s x hs => by
      simp only [InitEventTrack]
      split
      · exact TracksWF_RegisterEventTrack s _ _ hs
      · exact hs) T.EventTracks _ h4
    simp only [InitializeFromTemplate]
    split
    · exact TracksWF_congr _ _ h5 rfl rfl
    · exact h5

end UTimelineObject

/-! ## Get-or-create -/

namespace World

theorem length_modifyAt (f : UTimelineObject → UTimelineObject) (W : World) :
    ∀ i, (W.modifyAt i f).length = W.length := by
  induction W with
  | nil =>
    intro i
    rfl
  | cons x rest ih =>
    intro i
    cases i with
    | zero => rfl
    | succ i => simp [modifyAt, ih]

theorem getElem?_modifyAt_self (f : UTimelineObject → UTimelineObject) (W : World) :
    ∀ i, (W.modifyAt i f)[i]? = W[i]?.map f := by
  induction W with
  | nil =>
    intro i
    rfl
  | cons x rest ih =>
    intro i
    cases i with
    | zero => simp [modifyAt]
    | succ i => simp [modifyAt, ih]

theorem findIdx?_modifyAt (p : UTimelineObject → Bool) (f : UTimelineObject → UTimelineObject)
    (hf : ∀ x, p (f x) = p x) (W : World) :
    ∀ i k, (W.modifyAt i f).findIdx? p k = W.findIdx? p k := by
  induction W with
  | nil =>
    intro i k
    rfl
  | cons x rest ih =>
    intro i k
    cases i with
    | zero => simp only [modifyAt, List.findIdx?_cons, hf]
    | succ i => simp only [modifyAt, List.findIdx?_cons, ih]

theorem FindTimelineObject_modifyAt (f : UTimelineObject → UTimelineObject)
    (hf : ∀ x, (f x).Outer = x.Outer ∧ (f x).ObjectFName = x.ObjectFName) (W : World) (i : Nat)
    (Owner : Option UObject) (name : FName) :
    FindTimelineObject (W.modifyAt i f) Owner name = FindTimelineObject W Owner name := by
  cases Owner with
  | none => rfl
  | some o =>
    simp only [FindTimelineObject]
    exact findIdx?_modifyAt _ f (fun x => by rw [(hf x).1, (hf x).2]) W i 0

theorem FindTimelineObject_get (W : World) (o : UObject) (name : FName) (i : Nat)
    (h : FindTimelineObject W (some o) name = some i) :
    ∃ tl, W[i]? = some tl ∧ tl ∈ W ∧ tl.Outer = o ∧ tl.ObjectFName = UniqueObjectName name := by
  simp only [FindTimelineObject] at h
  have h1 := List.findIdx?_of_eq_some h
  cases hg : W[i]? with
  | none => simp [hg] at h1
  | some tl =>
    simp only [hg, Bool.and_eq_true, decide_eq_true_eq] at h1
    exact ⟨tl, rfl, List.getElem?_mem hg, h1.1, h1.2⟩

theorem FindTimelineObject_append_new (W : World) (o : UObject) (name : FName)
    (x : UTimelineObject) (h : FindTimelineObject W (some o) name = none) (hx1 : x.Outer = o)
    (hx2 : x.ObjectFName = UniqueObjectName name) :
    FindTimelineObject (W ++ [x]) (some o) name = some W.length := by
  simp only [FindTimelineObject] at h ⊢
  rw [List.findIdx?_append, h]
  simp [List.findIdx?_cons, hx1, hx2, UniqueObjectName]

end World

namespace FMulticastScriptDelegate

theorem count_AddUnique_of_ne (d : FMulticastScriptDelegate) (x y : FScriptDelegate)
    (h : x ≠ y) : (d.AddUnique y).count x = d.count x := by
  unfold AddUnique
  split
  · rfl
  · rw [List.count_append]
    simp [List.count_cons, h]

end FMulticastScriptDelegate

namespace UTimelineObject

theorem BindFinishedFunction_update (Fn : UObject → FName → Bool) (s : UTimelineObject)
    (Target : Option UObject) (F : FName) :
    (s.BindFinishedFunction Fn Target F).OnTimelineUpdate = s.OnTimelineUpdate := by
  cases Target with
  | none => rfl
  | some T =>
    simp only [BindFinishedFunction]
    repeat' split
    all_goals rfl

theorem BindEventTrackFunction_update (Fn : UObject → FName → Bool) (s : UTimelineObject)
    (n : FName) (Target : Option UObject) (F : FName) :
    (s.BindEventTrackFunction Fn n Target F).OnTimelineUpdate = s.OnTimelineUpdate := by
  cases Target with
  | none => rfl
  | some T =>
    simp only [BindEventTrackFunction]
    repeat' split
    all_goals rfl

theorem BindDeclaredEventTracks_update (Fn : UObject → FName → Bool) (o : UObject)
    (l : List (FName × FName)) :
    ∀ s : UTimelineObject,
      (BindDeclaredEventTracks Fn o s l).OnTimelineUpdate = s.OnTimelineUpdate := by
  induction l with
  | nil =>
    intro s
    rfl
  | cons p rest ih =>
    intro s
    simp only [BindDeclaredEventTracks]
    split
    · rw [ih, BindEventTrackFunction_update]
    · exact ih s

theorem BindUpdateFunction_count_other (Fn : UObject → FName → Bool) (s : UTimelineObject)
    (T : UObject) (F : FName) (x : FScriptDelegate) (h : x ≠ ⟨T, F⟩) :
    (s.BindUpdateFunction Fn (some T) F).OnTimelineUpdate.count x =
      s.OnTimelineUpdate.count x := by
  simp only [BindUpdateFunction]
  repeat' split
  all_goals first
    | rfl
    | exact FMulticastScriptDelegate.count_AddUnique_of_ne _ _ _ h

theorem UniqueBindings_BindUpdateAndFinished (Fn : UObject → FName → Bool) (o : UObject)
    (s : UTimelineObject) (upd fin : FName) (h : s.UniqueBindings) :
    (BindUpdateAndFinished Fn o s upd fin).UniqueBindings := by
  have h1 : (if upd ≠ NAME_None then s.BindUpdateFunction Fn (some o) upd
      else s).UniqueBindings := by
    split
    · exact UniqueBindings_BindUpdateFunction Fn s _ _ h
    · exact h
  simp only [BindUpdateAndFinished]
  split
  · exact UniqueBindings_BindFinishedFunction Fn _ _ _ h1
  · exact h1

theorem TrackingSound_BindUpdateAndFinished (Fn : UObject → FName → Bool) (o : UObject)
    (s : UTimelineObject) (upd fin : FName) (h : s.TrackingSound) :
    (BindUpdateAndFinished Fn o s upd fin).TrackingSound := by
  have h1 : (if upd ≠ NAME_None then s.BindUpdateFunction Fn (some o) upd
      else s).TrackingSound := by
    split
    · exact TrackingSound_BindUpdateFunction Fn s _ _ h
    · exact h
  simp only [BindUpdateAndFinished]
  split
  · exact TrackingSound_BindFinishedFunction Fn _ _ _ h1
  · exact h1

/-- After the update function `f` of the owner is bound by `GetOrCreateTimelineObject`, the
listener occurs exactly once in the Update channel. -/
theorem BindUpdateAndFinished_count_self (Fn : UObject → FName → Bool) (o : UObject)
    (s : UTimelineObject) (f fin : FName) (hu : s.UniqueBindings) (ht : s.TrackingSound)
    (hf : f ≠ NAME_None) (hfn : Fn o f = true) :
    (BindUpdateAndFinished Fn o s f fin).OnTimelineUpdate.count ⟨o, f⟩ = 1 := by
  have h1 := (BindUpdateFunction_twice Fn s o f hu ht hf hfn).2
  simp only [BindUpdateAndFinished, if_pos hf]
  split
  · rw [BindFinishedFunction_update]
    exact h1
  · exact h1

theorem BindUpdateAndFinished_count_other (Fn : UObject → FName → Bool) (o : UObject)
    (s : UTimelineObject) (f fin : FName) (x : FScriptDelegate) (h : x ≠ ⟨o, f⟩) :
    (BindUpdateAndFinished Fn o s f fin).OnTimelineUpdate.count x =
      s.OnTimelineUpdate.count x := by
  have h1 : (if f ≠ NAME_None then s.BindUpdateFunction Fn (some o) f
      else s).OnTimelineUpdate.count x = s.OnTimelineUpdate.count x := by
    split
    · exact BindUpdateFunction_count_other Fn s o f x h
    · rfl
  simp only [BindUpdateAndFinished]
  split
  · rw [BindFinishedFunction_update]
    exact h1
  · exact h1

theorem UniqueBindings_BindDeclaredEventTracks (Fn : UObject → FName → Bool) (o : UObject)
    (l : List (FName × FName)) :
    ∀ s : UTimelineObject, s.UniqueBindings →
      (BindDeclaredEventTracks Fn o s l).UniqueBindings := by
  induction l with
  | nil =>
    intro s h
    exact h
  | cons p rest ih =>
    intro s h
    simp only [BindDeclaredEventTracks]
    split
    · exact ih _ (UniqueBindings_BindEventTrackFunction Fn s _ _ _ h)
    · exact ih s h

theorem TrackingSound_BindDeclaredEventTracks (Fn : UObject → FName → Bool) (o : UObject)
    (l : List (FName × FName)) :
    ∀ s : UTimelineObject, s.TrackingSound →
      (BindDeclaredEventTracks Fn o s l).TrackingSound := by
  induction l with
  | nil =>
    intro s h
    exact h
  | cons p rest ih =>
    intro s h
    simp only [BindDeclaredEventTracks]
    split
    · exact ih _ (TrackingSound_BindEventTrackFunction Fn s _ _ _ h)
    · exact ih s h

theorem InitFrame_CreateInitialized (GetBPGC : UObject → Option UBlueprintGeneratedClass)
    (o : UObject) (name : FName) :
    InitFrame (new o (UniqueObjectName name)) (CreateInitialized GetBPGC o name) := by
  simp only [CreateInitialized]
  repeat' split
  all_goals first
    | exact InitFrame_refl _
    | exact InitFrame_InitializeFromTemplate _ _

theorem UniqueBindings_CreateInitialized (GetBPGC : UObject → Option UBlueprintGeneratedClass)
    (o : UObject) (name : FName) : (CreateInitialized GetBPGC o name).UniqueBindings := by
  simp only [CreateInitialized]
  repeat' split
  all_goals first
    | exact UniqueBindings_new _ _
    | exact UniqueBindings_InitializeFromTemplate _ _ (UniqueBindings_new _ _)

theorem TrackingSound_CreateInitialized (GetBPGC : UObject → Option UBlueprintGeneratedClass)
    (o : UObject) (name : FName) : (CreateInitialized GetBPGC o name).TrackingSound :=
  TrackingSound_of_InitFrame _ _ (InitFrame_CreateInitialized GetBPGC o name)
    (TrackingSound_new _ _)

/-- The object `GetOrCreateTimelineObject` creates, before the deferred autoplay: bound, not
yet playing. -/
theorem BindCreated_facts (Fn : UObject → FName → Bool)
    (GetBPGC : UObject → Option UBlueprintGeneratedClass) (o : UObject) (s : UTimelineObject)
    (name upd fin : FName) (hu : s.UniqueBindings) (ht : s.TrackingSound) :
    (BindCreated Fn GetBPGC o s name upd fin).UniqueBindings ∧
    (BindCreated Fn GetBPGC o s name upd fin).TrackingSound ∧
    (BindCreated Fn GetBPGC o s name upd fin).OnTimelineUpdate =
      (BindUpdateAndFinished Fn o s upd fin).OnTimelineUpdate := by
  have h1 := UniqueBindings_BindUpdateAndFinished Fn o s upd fin hu
  have h2 := TrackingSound_BindUpdateAndFinished Fn o s upd fin ht
  simp only [BindCreated]
  repeat' split
  all_goals first
    | exact ⟨h1, h2, rfl⟩
    | exact ⟨UniqueBindings_BindDeclaredEventTracks Fn o _ _ h1,
        TrackingSound_BindDeclaredEventTracks Fn o _ _ h2,
        BindDeclaredEventTracks_update Fn o _ _⟩

end UTimelineObject

namespace UTimelineObject

theorem TriggerAutoPlay_identity (s : UTimelineObject) :
    (TriggerAutoPlay s).Outer = s.Outer ∧ (TriggerAutoPlay s).ObjectFName = s.ObjectFName := by
  simp only [TriggerAutoPlay]
  split
  · exact ⟨rfl, rfl⟩
  · exact ⟨rfl, rfl⟩

/-- The object that the creation path of `GetOrCreateTimelineObject` adds to the world. -/
theorem created_facts (Fn : UObject → FName → Bool)
    (GetBPGC : UObject → Option UBlueprintGeneratedClass) (o : UObject)
    (name upd fin : FName) :
    (TriggerAutoPlay (BindCreated Fn GetBPGC o (CreateInitialized GetBPGC o name) name upd
      fin)).Outer = o ∧
    (TriggerAutoPlay (BindCreated Fn GetBPGC o (CreateInitialized GetBPGC o name) name upd
      fin)).ObjectFName = UniqueObjectName name ∧
    (TriggerAutoPlay (BindCreated Fn GetBPGC o (CreateInitialized GetBPGC o name) name upd
      fin)).UniqueBindings ∧
    (TriggerAutoPlay (BindCreated Fn GetBPGC o (CreateInitialized GetBPGC o name) name upd
      fin)).TrackingSound ∧
    (TriggerAutoPlay (BindCreated Fn GetBPGC o (CreateInitialized GetBPGC o name) name upd
      fin)).OnTimelineUpdate =
      (BindUpdateAndFinished Fn o (CreateInitialized GetBPGC o name) upd fin).OnTimelineUpdate := by
  have hi := InitFrame_CreateInitialized GetBPGC o name
  have hc := SameCore_BindCreated Fn GetBPGC o (CreateInitialized GetBPGC o name) name upd fin
  have hb := BindCreated_facts Fn GetBPGC o (CreateInitialized GetBPGC o name) name upd fin
    (UniqueBindings_CreateInitialized GetBPGC o name)
    (TrackingSound_CreateInitialized GetBPGC o name)
  have ha := SameBindings_TriggerAutoPlay
    (BindCreated Fn GetBPGC o (CreateInitialized GetBPGC o name) name upd fin)
  have hid := TriggerAutoPlay_identity
    (BindCreated Fn GetBPGC o (CreateInitialized GetBPGC o name) name upd fin)
  refine ⟨?_, ?_, UniqueBindings_of_SameBindings _ _ ha hb.1,
    TrackingSound_of_SameBindings _ _ ha hb.2.1, ha.update.trans hb.2.2⟩
  · rw [hid.1, hc.outer, hi.outer]
    rfl
  · rw [hid.2, hc.objectName, hi.objectName]
    rfl

theorem GetOrCreateTimelineObject_existing (Fn : UObject → FName → Bool)
    (GetBPGC : UObject → Option UBlueprintGeneratedClass) (W : World) (o : UObject)
    (name upd fin : FName) (i : Nat) (h : FindTimelineObject W (some o) name = some i) :
    GetOrCreateTimelineObject Fn GetBPGC W (some o) name upd fin =
      (W.modifyAt i (fun tl => BindUpdateAndFinished Fn o tl upd fin), some i) := by
  have h1 : W.findIdx? (fun ExistingTimeline =>
      decide (ExistingTimeline.Outer = o) &&
        decide (ExistingTimeline.ObjectFName = UniqueObjectName name)) = some i := h
  simp only [GetOrCreateTimelineObject, h1]

theorem GetOrCreateTimelineObject_new (Fn : UObject → FName → Bool)
    (GetBPGC : UObject → Option UBlueprintGeneratedClass) (W : World) (o : UObject)
    (name upd fin : FName) (h : FindTimelineObject W (some o) name = none) :
    GetOrCreateTimelineObject Fn GetBPGC W (some o) name upd fin =
      (W ++ [TriggerAutoPlay (BindCreated Fn GetBPGC o (CreateInitialized GetBPGC o name) name
        upd fin)], some W.length) := by
  have h1 : W.findIdx? (fun ExistingTimeline =>
      decide (ExistingTimeline.Outer = o) &&
        decide (ExistingTimeline.ObjectFName = UniqueObjectName name)) = none := h
  simp only [GetOrCreateTimelineObject, h1]

/-- A second `GetOrCreateTimelineObject` call on a world in which the instance exists at
index `i`. -/
theorem GetOrCreateTimelineObject_again (Fn : UObject → FName → Bool)
    (GetBPGC : UObject → Option UBlueprintGeneratedClass) (W1 : World) (o : UObject)
    (name f1 f2 fin2 : FName) (i : Nat) (y : UTimelineObject)
    (hfind : FindTimelineObject W1 (some o) name = some i) (hy : W1[i]? = some y)
    (hu : y.UniqueBindings) (ht : y.TrackingSound) :
    (GetOrCreateTimelineObject Fn GetBPGC W1 (some o) name f2 fin2).2 = some i ∧
    (GetOrCreateTimelineObject Fn GetBPGC W1 (some o) name f2 fin2).1.length = W1.length ∧
    ∃ tl, (GetOrCreateTimelineObject Fn GetBPGC W1 (some o) name f2 fin2).1[i]? = some tl ∧
      SameCore y tl ∧
      (f1 ≠ f2 → f2 ≠ NAME_None → Fn o f2 = true →
        tl.OnTimelineUpdate.count ⟨o, f1⟩ = y.OnTimelineUpdate.count ⟨o, f1⟩ ∧
        tl.OnTimelineUpdate.count ⟨o, f2⟩ = 1) := by
  rw [GetOrCreateTimelineObject_existing Fn GetBPGC W1 o name f2 fin2 i hfind]
  refine ⟨rfl, World.length_modifyAt _ W1 i, BindUpdateAndFinished Fn o y f2 fin2, ?_,
    SameCore_BindUpdateAndFinished Fn o y f2 fin2, ?_⟩
  · simp only []
    rw [World.getElem?_modifyAt_self, hy]
    rfl
  · intro hne hf2 hfn2
    refine ⟨BindUpdateAndFinished_count_other Fn o y f2 fin2 ⟨o, f1⟩ ?_,
      BindUpdateAndFinished_count_self Fn o y f2 fin2 hu ht hf2 hfn2⟩
    intro heq
    cases heq
    exact hne rfl

/-- C13 (get-or-create is idempotent per owner and name): for a non-null owner, the second
`GetOrCreateTimelineObject(owner, name, f2, ...)` call returns the same instance as the
first call with `f1`, adds no instance to the world, leaves everything of the instance but
its bindings as the first call left it, and, when `f1` and `f2` are distinct functions that
both exist on the owner, the Update channel of the instance afterwards contains `(owner,
f1)` and `(owner, f2)`, each exactly once. -/
theorem get_or_create_idempotent (Fn : UObject → FName → Bool)
    (GetBPGC : UObject → Option UBlueprintGeneratedClass) (W : World) (o : UObject)
    (name f1 fin1 f2 fin2 : FName) (hU : ∀ tl ∈ W, tl.UniqueBindings)
    (hT : ∀ tl ∈ W, tl.TrackingSound) :
    ∃ i y tl,
      (GetOrCreateTimelineObject Fn GetBPGC W (some o) name f1 fin1).2 = some i ∧
      (GetOrCreateTimelineObject Fn GetBPGC W (some o) name f1 fin1).1[i]? = some y ∧
      (GetOrCreateTimelineObject Fn GetBPGC
        (GetOrCreateTimelineObject Fn GetBPGC W (some o) name f1 fin1).1 (some o) name f2
        fin2).2 = some i ∧
      (GetOrCreateTimelineObject Fn GetBPGC
        (GetOrCreateTimelineObject Fn GetBPGC W (some o) name f1 fin1).1 (some o) name f2
        fin2).1.length =
        (GetOrCreateTimelineObject Fn GetBPGC W (some o) name f1 fin1).1.length ∧
      (GetOrCreateTimelineObject Fn GetBPGC
        (GetOrCreateTimelineObject Fn GetBPGC W (some o) name f1 fin1).1 (some o) name f2
        fin2).1[i]? = some tl ∧
      SameCore y tl ∧
      (f1 ≠ f2 → f1 ≠ NAME_None → f2 ≠ NAME_None → Fn o f1 = true → Fn o f2 = true →
        tl.OnTimelineUpdate.count ⟨o, f1⟩ = 1 ∧ tl.OnTimelineUpdate.count ⟨o, f2⟩ = 1) := by
  have main : ∀ (W1 : World) (i : Nat) (y : UTimelineObject),
      GetOrCreateTimelineObject Fn GetBPGC W (some o) name f1 fin1 = (W1, some i) →
      FindTimelineObject W1 (some o) name = some i → W1[i]? = some y →
      y.UniqueBindings → y.TrackingSound →
      (f1 ≠ NAME_None → Fn o f1 = true → y.OnTimelineUpdate.count ⟨o, f1⟩ = 1) →
      ∃ i y tl,
        (GetOrCreateTimelineObject Fn GetBPGC W (some o) name f1 fin1).2 = some i ∧
        (GetOrCreateTimelineObject Fn GetBPGC W (some o) name f1 fin1).1[i]? = some y ∧
        (GetOrCreateTimelineObject Fn GetBPGC
          (GetOrCreateTimelineObject Fn GetBPGC W (some o) name f1 fin1).1 (some o) name f2
          fin2).2 = some i ∧
        (GetOrCreateTimelineObject Fn GetBPGC
          (GetOrCreateTimelineObject Fn GetBPGC W (some o) name f1 fin1).1 (some o) name f2
          fin2).1.length =
          (GetOrCreateTimelineObject Fn GetBPGC W (some o) name f1 fin1).1.length ∧
        (GetOrCreateTimelineObject Fn GetBPGC
          (GetOrCreateTimelineObject Fn GetBPGC W (some o) name f1 fin1).1 (some o) name f2
          fin2).1[i]? = some tl ∧
        SameCore y tl ∧
        (f1 ≠ f2 → f1 ≠ NAME_None → f2 ≠ NAME_None → Fn o f1 = true → Fn o f2 = true →
          tl.OnTimelineUpdate.count ⟨o, f1⟩ = 1 ∧ tl.OnTimelineUpdate.count ⟨o, f2⟩ = 1) := by
    intro W1 i y hr hfind hy hu ht hcount
    rw [hr]
    obtain ⟨h1, h2, tl, h3, h4, h5⟩ :=
      GetOrCreateTimelineObject_again Fn GetBPGC W1 o name f1 f2 fin2 i y hfind hy hu ht
    refine ⟨i, y, tl, rfl, hy, h1, h2, h3, h4, ?_⟩
    intro hne hf1 hf2 hfn1 hfn2
    obtain ⟨h6, h7⟩ := h5 hne hf2 hfn2
    exact ⟨h6.trans (hcount hf1 hfn1), h7⟩
  cases hfind : FindTimelineObject W (some o) name with
  | some i =>
    obtain ⟨tl0, hget, hmem, _, _⟩ := World.FindTimelineObject_get W o name i hfind
    refine main _ i (BindUpdateAndFinished Fn o tl0 f1 fin1)
      (GetOrCreateTimelineObject_existing Fn GetBPGC W o name f1 fin1 i hfind) ?_ ?_
      (UniqueBindings_BindUpdateAndFinished Fn o tl0 f1 fin1 (hU tl0 hmem))
      (TrackingSound_BindUpdateAndFinished Fn o tl0 f1 fin1 (hT tl0 hmem))
      (fun hf1 hfn1 => BindUpdateAndFinished_count_self Fn o tl0 f1 fin1 (hU tl0 hmem)
        (hT tl0 hmem) hf1 hfn1)
    · rw [World.FindTimelineObject_modifyAt _
        (fun x => ⟨(SameCore_BindUpdateAndFinished Fn o x f1 fin1).outer,
          (SameCore_BindUpdateAndFinished Fn o x f1 fin1).objectName⟩)]
      exact hfind
    · rw [World.getElem?_modifyAt_self, hget]
      rfl
  | none =>
    obtain ⟨hx1, hx2, hx3, hx4, hx5⟩ := created_facts Fn GetBPGC o name f1 fin1
    refine main _ W.length _
      (GetOrCreateTimelineObject_new Fn GetBPGC W o name f1 fin1 hfind)
      (World.FindTimelineObject_append_new W o name _ hfind hx1 hx2) ?_ hx3 hx4 ?_
    · simp
    · intro hf1 hfn1
      rw [hx5]
      exact BindUpdateAndFinished_count_self Fn o _ f1 fin1
        (UniqueBindings_CreateInitialized GetBPGC o name)
        (TrackingSound_CreateInitialized GetBPGC o name) hf1 hfn1

end UTimelineObject

namespace UTimelineObject

theorem get_or_create_idempotent_witness :
    ∃ i y tl,
      (GetOrCreateTimelineObject (fun _ _ => true) doorGetBPGC [] (some 7) "Door" "OnTick"
        "None").2 = some i ∧
      (GetOrCreateTimelineObject (fun _ _ => true) doorGetBPGC [] (some 7) "Door" "OnTick"
        "None").1[i]? = some y ∧
      (GetOrCreateTimelineObject (fun _ _ => true) doorGetBPGC
        (GetOrCreateTimelineObject (fun _ _ => true) doorGetBPGC [] (some 7) "Door" "OnTick"
          "None").1 (some 7) "Door" "OnTock" "None").2 = some i ∧
      (GetOrCreateTimelineObject (fun _ _ => true) doorGetBPGC
        (GetOrCreateTimelineObject (fun _ _ => true) doorGetBPGC [] (some 7) "Door" "OnTick"
          "None").1 (some 7) "Door" "OnTock" "None").1.length =
        (GetOrCreateTimelineObject (fun _ _ => true) doorGetBPGC [] (some 7) "Door" "OnTick"
          "None").1.length ∧
      (GetOrCreateTimelineObject (fun _ _ => true) doorGetBPGC
        (GetOrCreateTimelineObject (fun _ _ => true) doorGetBPGC [] (some 7) "Door" "OnTick"
          "None").1 (some 7) "Door" "OnTock" "None").1[i]? = some tl ∧
      SameCore y tl ∧
      (("OnTick" : FName) ≠ "OnTock" → ("OnTick" : FName) ≠ NAME_None →
        ("OnTock" : FName) ≠ NAME_None → (fun _ _ => true) 7 "OnTick" = true →
        (fun _ _ => true) 7 "OnTock" = true →
        tl.OnTimelineUpdate.count ⟨7, "OnTick"⟩ = 1 ∧
        tl.OnTimelineUpdate.count ⟨7, "OnTock"⟩ = 1) :=
  get_or_create_idempotent (fun _ _ => true) doorGetBPGC [] 7 "Door" "OnTick" "None" "OnTock"
    "None" (fun _ h => absurd h (List.not_mem_nil _)) (fun _ h => absurd h (List.not_mem_nil _))

/-- C14, counterexample: object 8 is of a class that is not blueprint-generated, so it has
no authored timeline `Door`; in an empty world `GetOrCreateTimelineObject(8, Door)` returns
a non-null object (index 0) and the world then holds one timeline object, under owner 8. -/
theorem lookup_failure_counterexample :
    doorGetBPGC 8 = none ∧
    (GetOrCreateTimelineObject (fun _ _ => true) doorGetBPGC [] (some 8) "Door" "None"
      "None").2 = some 0 ∧
    ((GetOrCreateTimelineObject (fun _ _ => true) doorGetBPGC [] (some 8) "Door" "None"
      "None").1.map (fun tl => (tl.Outer, tl.ObjectFName))) = [(8, "TimelineObj_Door")] := by
  refine ⟨rfl, by decide, by decide⟩

theorem CreateInitialized_without_template
    (GetBPGC : UObject → Option UBlueprintGeneratedClass) (o : UObject) (name : FName)
    (hno : ∀ cls, GetBPGC o = some cls → FindTemplate cls.Timelines name = none) :
    CreateInitialized GetBPGC o name = new o (UniqueObjectName name) := by
  simp only [CreateInitialized]
  cases hc : GetBPGC o with
  | none => rfl
  | some cls => simp only [hno cls hc]

/-- C14, amended (no authored definition): for a non-null owner whose class has no authored
timeline named `name` (in particular a class that is not blueprint-generated),
`GetOrCreateTimelineObject` still returns a non-null object; when the owner has no timeline
object for `name` yet, it adds one new object to the world, named `TimelineObj_<name>` under
the owner, and returns it: the object is not initialised from any definition (the timeline
state of the constructor, no track in any track map, no detector position, not pending
autoplay, not playing). Only a null owner gives a null result, with the world unchanged. -/
theorem lookup_failure_creates_blank (Fn : UObject → FName → Bool)
    (GetBPGC : UObject → Option UBlueprintGeneratedClass) (W : World) (o : UObject)
    (name upd fin : FName)
    (hno : ∀ cls, GetBPGC o = some cls → FindTemplate cls.Timelines name = none) :
    (∃ i, (GetOrCreateTimelineObject Fn GetBPGC W (some o) name upd fin).2 = some i) ∧
    (FindTimelineObject W (some o) name = none →
      (GetOrCreateTimelineObject Fn GetBPGC W (some o) name upd fin).2 = some W.length ∧
      (GetOrCreateTimelineObject Fn GetBPGC W (some o) name upd fin).1.length = W.length + 1 ∧
      ∃ tl, (GetOrCreateTimelineObject Fn GetBPGC W (some o) name upd fin).1[W.length]? =
          some tl ∧
        SameCore (new o (UniqueObjectName name)) tl ∧ tl.IsPlaying = false) ∧
    GetOrCreateTimelineObject Fn GetBPGC W none name upd fin = (W, none) := by
  refine ⟨?_, ?_, rfl⟩
  · cases hfind : FindTimelineObject W (some o) name with
    | some i =>
      exact ⟨i, by rw [GetOrCreateTimelineObject_existing Fn GetBPGC W o name upd fin i hfind]⟩
    | none =>
      exact ⟨W.length, by rw [GetOrCreateTimelineObject_new Fn GetBPGC W o name upd fin hfind]⟩
  · intro hfind
    rw [GetOrCreateTimelineObject_new Fn GetBPGC W o name upd fin hfind,
      CreateInitialized_without_template GetBPGC o name hno]
    have hc := SameCore_BindCreated Fn GetBPGC o (new o (UniqueObjectName name)) name upd fin
    have hp : (BindCreated Fn GetBPGC o (new o (UniqueObjectName name)) name upd
        fin).bPendingAutoPlay = false := hc.pendingAutoPlay
    have hx : TriggerAutoPlay (BindCreated Fn GetBPGC o (new o (UniqueObjectName name)) name
        upd fin) = BindCreated Fn GetBPGC o (new o (UniqueObjectName name)) name upd fin := by
      simp only [TriggerAutoPlay, hp]
      rfl
    rw [hx]
    refine ⟨rfl, by simp, _, by simp, hc, ?_⟩
    simp only [IsPlaying, hc.timeline]
    rfl

theorem lookup_failure_creates_blank_witness :
    (∃ i, (GetOrCreateTimelineObject (fun _ _ => true) doorGetBPGC [] (some 8) "Door" "None"
      "None").2 = some i) ∧
    (FindTimelineObject [] (some 8) "Door" = none →
      (GetOrCreateTimelineObject (fun _ _ => true) doorGetBPGC [] (some 8) "Door" "None"
        "None").2 = some ([] : World).length ∧
      (GetOrCreateTimelineObject (fun _ _ => true) doorGetBPGC [] (some 8) "Door" "None"
        "None").1.length = ([] : World).length + 1 ∧
      ∃ tl, (GetOrCreateTimelineObject (fun _ _ => true) doorGetBPGC [] (some 8) "Door" "None"
          "None").1[([] : World).length]? = some tl ∧
        SameCore (new 8 (UniqueObjectName "Door")) tl ∧ tl.IsPlaying = false) ∧
    GetOrCreateTimelineObject (fun _ _ => true) doorGetBPGC [] none "Door" "None" "None" =
      ([], none) :=
  lookup_failure_creates_blank (fun _ _ => true) doorGetBPGC [] 8 "Door" "None" "None"
    (fun cls h => by simp [doorGetBPGC] at h)

end UTimelineObject

/-! ## Deferred autoplay -/

namespace UTimelineObject

theorem RegisterEventTrack_pending (s : UTimelineObject) (n : FName) (c : Option UCurveFloat) :
    (s.RegisterEventTrack n c).bPendingAutoPlay = s.bPendingAutoPlay := by
  cases c with
  | none => rfl
  | some c =>
    simp only [RegisterEventTrack]
    split <;> rfl

theorem InitializeFromTemplate_pending (s : UTimelineObject) (T : UTimelineTemplate) :
    (s.InitializeFromTemplate (some T)).bPendingAutoPlay =
      (T.bAutoPlay || s.bPendingAutoPlay) := by
  have h2 := foldl_preserves (fun s => s.bPendingAutoPlay) InitFloatTrack (fun s x => by
    simp only [InitFloatTrack]
    split <;> rfl) T.FloatTracks
  have h3 := foldl_preserves (fun s => s.bPendingAutoPlay) InitVectorTrack (fun s x => by
    simp only [InitVectorTrack]
    split <;> rfl) T.VectorTracks
  have h4 := foldl_preserves (fun s => s.bPendingAutoPlay) InitLinearColorTrack (fun s x => by
    simp only [InitLinearColorTrack]
    split <;> rfl) T.LinearColorTracks
  have h5 := foldl_preserves (fun s => s.bPendingAutoPlay) InitEventTrack (fun s x => by
    simp only [InitEventTrack]
    split
    · exact RegisterEventTrack_pending s _ _
    · rfl) T.EventTracks
  simp only [InitializeFromTemplate]
  split
  · rename_i ha
    simp [ha]
  · rename_i ha
    simp only [h5, h4, h3, h2]
    simp [ha, SetIgnoreTimeDilation, SetPlayRate, SetLooping, SetTimelineLengthMode,
      SetTimelineLength]

theorem CreateInitialized_with_template
    (GetBPGC : UObject → Option UBlueprintGeneratedClass) (o : UObject) (name : FName)
    (cls : UBlueprintGeneratedClass) (T : UTimelineTemplate) (hcls : GetBPGC o = some cls)
    (hT : FindTemplate cls.Timelines name = some T) :
    CreateInitialized GetBPGC o name =
      (new o (UniqueObjectName name)).InitializeFromTemplate (some T) := by
  simp only [CreateInitialized, hcls, hT]

end UTimelineObject

/-! ## The first tick after creation -/

namespace UTimelineObject

theorem count_EventTrack_filterMap {α : Type} (l : List α) (f : α → Option Notification)
    (n : FName) (h : ∀ a x, f a = some x → x ≠ Notification.EventTrack n) :
    (l.filterMap f).count (Notification.EventTrack n) = 0 := by
  rw [List.count_eq_zero]
  intro hmem
  obtain ⟨a, _, ha⟩ := List.mem_filterMap.1 hmem
  exact h a _ ha rfl

/-- In the trace of the update callback only the crossing detector broadcasts event-track
channels. -/
theorem Internal_OnTimelineUpdate_count (s : UTimelineObject) (n : FName) :
    (Internal_OnTimelineUpdate s).2.count (Notification.EventTrack n) =
      (CheckEventTracks s).2.count (Notification.EventTrack n) := by
  simp only [Internal_OnTimelineUpdate, List.count_append]
  rw [count_EventTrack_filterMap, count_EventTrack_filterMap, count_EventTrack_filterMap]
  · simp [List.count_cons]
  · intro a x hx
    cases ha : a.2 with
    | none => simp [ha] at hx
    | some c =>
      simp only [ha, Option.map_some', Option.some.injEq] at hx
      rw [← hx]
      simp
  · intro a x hx
    cases ha : a.2 with
    | none => simp [ha] at hx
    | some c =>
      simp only [ha, Option.map_some', Option.some.injEq] at hx
      rw [← hx]
      simp
  · intro a x hx
    cases ha : a.2 with
    | none => simp [ha] at hx
    | some c =>
      simp only [ha, Option.map_some', Option.some.injEq] at hx
      rw [← hx]
      simp

/-- One evaluation of a track whose detector holds the unset sentinel broadcasts nothing on
the track and stores the cursor. -/
theorem CheckEventTracks_unbaselined (s : UTimelineObject) (n : FName) (hwf : s.TracksWF)
    (hun : s.Unbaselined n) :
    (CheckEventTracks s).2.count (Notification.EventTrack n) = 0 ∧
    (CheckEventTracks s).1.LastEventTrackPositions.Find n = some s.GetPlaybackPosition := by
  obtain ⟨⟨c, hc⟩, hlast⟩ := hun
  have h := CheckEventTracks_track s n c hwf.curveKeys hc
  refine ⟨?_, h.1⟩
  rw [h.2, hlast]
  simp [TrackBroadcasts]

/-- Setting the playback position of an object whose track `n` is unbaselined broadcasts
nothing on the track, keeps the callbacks of the timeline, and, when the update callback
of the constructor runs, stores the new cursor as the track's last position. -/
theorem SetPlaybackPosition_unbaselined (s : UTimelineObject) (n : FName) (p : ℚ)
    (b1 b2 : Bool) (hwf : s.TracksWF) (hun : s.Unbaselined n) :
    (s.SetPlaybackPosition p b1 b2).2.count (Notification.EventTrack n) = 0 ∧
    (s.SetPlaybackPosition p b1 b2).1.TheTimeline.TimelineFinishedFunc =
      s.TheTimeline.TimelineFinishedFunc ∧
    (s.TheTimeline.TimelinePostUpdateFunc = FOnTimelineEvent.Internal_OnTimelineUpdate →
      b2 = true →
      (s.SetPlaybackPosition p b1 b2).1.LastEventTrackPositions.Find n =
        some (s.SetPlaybackPosition p b1 b2).1.GetPlaybackPosition) := by
  have hwf1 : TracksWF { s with TheTimeline := s.TheTimeline.SetPosition p } :=
    TracksWF_congr s _ hwf rfl rfl
  have hun1 : Unbaselined { s with TheTimeline := s.TheTimeline.SetPosition p } n := hun
  have hchk := CheckEventTracks_unbaselined _ n hwf1 hun1
  simp only [SetPlaybackPosition]
  cases b2 with
  | false =>
    refine ⟨by simp, rfl, ?_⟩
    intro _ hb
    cases hb
  | true =>
    simp only [if_true]
    cases hf : s.TheTimeline.TimelinePostUpdateFunc with
    | Unbound =>
      have e : (s.TheTimeline.SetPosition p).TimelinePostUpdateFunc =
          FOnTimelineEvent.Unbound := hf
      simp only [e, ExecuteIfBound]
      exact ⟨by simp, rfl, fun h => by cases h⟩
    | Internal_OnTimelineUpdate =>
      have e : (s.TheTimeline.SetPosition p).TimelinePostUpdateFunc =
          FOnTimelineEvent.Internal_OnTimelineUpdate := hf
      simp only [e, ExecuteIfBound]
      refine ⟨?_, rfl, fun _ _ => hchk.2⟩
      rw [Internal_OnTimelineUpdate_count]
      exact hchk.1
    | Internal_OnTimelineFinished =>
      have e : (s.TheTimeline.SetPosition p).TimelinePostUpdateFunc =
          FOnTimelineEvent.Internal_OnTimelineFinished := hf
      simp only [e, ExecuteIfBound, Internal_OnTimelineFinished]
      exact ⟨by simp [List.count_cons], rfl, fun h => by cases h⟩
    | External d =>
      have e : (s.TheTimeline.SetPosition p).TimelinePostUpdateFunc =
          FOnTimelineEvent.External d := hf
      simp only [e, ExecuteIfBound]
      exact ⟨by simp, rfl, fun h => by cases h⟩

theorem FinishAt_unbaselined (s : UTimelineObject) (n : FName) (p : ℚ) (hwf : s.TracksWF)
    (hun : s.Unbaselined n) (hcb : s.ConstructorCallbacks) :
    (s.FinishAt p).2.count (Notification.EventTrack n) = 0 ∧
    (s.FinishAt p).1.LastEventTrackPositions.Find n = some (s.FinishAt p).1.GetPlaybackPosition := by
  have h := SetPlaybackPosition_unbaselined s n p true true hwf hun
  have hfin : (s.SetPlaybackPosition p true true).1.TheTimeline.TimelineFinishedFunc =
      FOnTimelineEvent.Internal_OnTimelineFinished := h.2.1.trans hcb.2
  simp only [FinishAt, hfin, ExecuteIfBound, Internal_OnTimelineFinished, List.count_append]
  refine ⟨?_, h.2.2 hcb.1 rfl⟩
  rw [h.1]
  simp [List.count_cons]

/-- A tick of an object whose track `n` is unbaselined broadcasts nothing on the track;
when the object is playing the tick stores the new cursor as the track's last position. -/
theorem TickTimeline_unbaselined (s : UTimelineObject) (n : FName) (dt : ℚ) (hwf : s.TracksWF)
    (hun : s.Unbaselined n) (hcb : s.ConstructorCallbacks) :
    (s.TickTimeline dt).2.count (Notification.EventTrack n) = 0 ∧
    (s.IsPlaying = true →
      (s.TickTimeline dt).1.LastEventTrackPositions.Find n =
        some (s.TickTimeline dt).1.GetPlaybackPosition) := by
  have hset : ∀ p, (s.SetPlaybackPosition p true true).2.count (Notification.EventTrack n) = 0 ∧
      ((s.SetPlaybackPosition p true true).1.LastEventTrackPositions.Find n =
        some (s.SetPlaybackPosition p true true).1.GetPlaybackPosition) := fun p =>
    ⟨(SetPlaybackPosition_unbaselined s n p true true hwf hun).1,
      (SetPlaybackPosition_unbaselined s n p true true hwf hun).2.2 hcb.1 rfl⟩
  have hfin : ∀ p, (s.Stop.FinishAt p).2.count (Notification.EventTrack n) = 0 ∧
      (s.Stop.FinishAt p).1.LastEventTrackPositions.Find n =
        some (s.Stop.FinishAt p).1.GetPlaybackPosition := fun p =>
    FinishAt_unbaselined s.Stop n p (TracksWF_congr s _ hwf rfl rfl) hun hcb
  simp only [TickTimeline]
  split
  · repeat' split
    all_goals first
      | exact ⟨(hset _).1, fun _ => (hset _).2⟩
      | exact ⟨(hfin _).1, fun _ => (hfin _).2⟩
  · rename_i hp
    refine ⟨by simp, ?_⟩
    intro hplay
    exact absurd hplay hp

end UTimelineObject

namespace TMap

variable {K V : Type} [DecidableEq K]

theorem Find_Add_mono (m : TMap K V) (k k2 : K) (v : V) (h : (Find m k2).isSome = true) :
    (Find (Add m k v) k2).isSome = true := by
  by_cases hk : k = k2
  · subst hk
    simp [Find_Add_self]
  · rw [Find_Add_ne m k k2 v hk]
    exact h

end TMap

namespace UTimelineObject

theorem DelegatesGrow_refl (a : UTimelineObject) : DelegatesGrow a a := fun _ h => h

theorem DelegatesGrow_trans (a b c : UTimelineObject) (h1 : DelegatesGrow a b)
    (h2 : DelegatesGrow b c) : DelegatesGrow a c := fun n h => h2 n (h1 n h)

theorem TracksWF_of_grow (a b : UTimelineObject) (hcore : SameCore a b)
    (hgrow : DelegatesGrow a b) (ha : a.TracksWF) : b.TracksWF := by
  refine ⟨?_, ?_⟩
  · rw [hcore.eventTracks]
    exact ha.curveKeys
  · rw [hcore.eventTracks]
    intro p hp
    exact hgrow p.1 (ha.hasDelegate p hp)

theorem DelegatesGrow_BindUpdateFunction (Fn : UObject → FName → Bool) (s : UTimelineObject)
    (Target : Option UObject) (F : FName) :
    DelegatesGrow s (s.BindUpdateFunction Fn Target F) := by
  cases Target with
  | none => exact DelegatesGrow_refl s
  | some T =>
    simp only [BindUpdateFunction]
    repeat' split
    all_goals exact fun _ h => h

theorem DelegatesGrow_BindFinishedFunction (Fn : UObject → FName → Bool) (s : UTimelineObject)
    (Target : Option UObject) (F : FName) :
    DelegatesGrow s (s.BindFinishedFunction Fn Target F) := by
  cases Target with
  | none => exact DelegatesGrow_refl s
  | some T =>
    simp only [BindFinishedFunction]
    repeat' split
    all_goals exact fun _ h => h

theorem DelegatesGrow_BindEventTrackFunction (Fn : UObject → FName → Bool)
    (s : UTimelineObject) (n : FName) (Target : Option UObject) (F : FName) :
    DelegatesGrow s (s.BindEventTrackFunction Fn n Target F) := by
  cases Target with
  | none => exact DelegatesGrow_refl s
  | some T =>
    simp only [BindEventTrackFunction]
    repeat' split
    all_goals first
      | exact fun _ h => h
      | exact fun m h => TMap.Find_Add_mono _ _ _ _ (TMap.Find_FindOrAdd_mono _ _ _ _ h)

theorem DelegatesGrow_BindUpdateAndFinished (Fn : UObject → FName → Bool) (o : UObject)
    (s : UTimelineObject) (upd fin : FName) :
    DelegatesGrow s (BindUpdateAndFinished Fn o s upd fin) := by
  have h1 : DelegatesGrow s
      (if upd ≠ NAME_None then s.BindUpdateFunction Fn (some o) upd else s) := by
    split
    · exact DelegatesGrow_BindUpdateFunction Fn s (some o) upd
    · exact DelegatesGrow_refl s
  simp only [BindUpdateAndFinished]
  split
  · exact DelegatesGrow_trans _ _ _ h1 (DelegatesGrow_BindFinishedFunction Fn _ (some o) fin)
  · exact h1

theorem DelegatesGrow_BindDeclaredEventTracks (Fn : UObject → FName → Bool) (o : UObject)
    (l : List (FName × FName)) :
    ∀ s : UTimelineObject, DelegatesGrow s (BindDeclaredEventTracks Fn o s l) := by
  induction l with
  | nil =>
    intro s
    exact DelegatesGrow_refl s
  | cons p rest ih =>
    intro s
    simp only [BindDeclaredEventTracks]
    split
    · exact DelegatesGrow_trans _ _ _
        (DelegatesGrow_BindEventTrackFunction Fn s p.1 (some o) p.2) (ih _)
    · exact ih s

theorem DelegatesGrow_BindCreated (Fn : UObject → FName → Bool)
    (GetBPGC : UObject → Option UBlueprintGeneratedClass) (o : UObject) (s : UTimelineObject)
    (name upd fin : FName) : DelegatesGrow s (BindCreated Fn GetBPGC o s name upd fin) := by
  have h1 := DelegatesGrow_BindUpdateAndFinished Fn o s upd fin
  simp only [BindCreated]
  repeat' split
  all_goals first
    | exact h1
    | exact DelegatesGrow_trans _ _ _ h1 (DelegatesGrow_BindDeclaredEventTracks Fn o _ _)

theorem Unbaselined_RegisterEventTrack_self (s : UTimelineObject) (n : FName) (c : UCurveFloat)
    (hn : n ≠ NAME_None) : Unbaselined (s.RegisterEventTrack n (some c)) n := by
  simp only [RegisterEventTrack]
  rw [if_pos hn]
  exact ⟨⟨c, TMap.Find_Add_self _ _ _⟩, TMap.Find_Add_self _ _ _⟩

theorem Unbaselined_RegisterEventTrack (s : UTimelineObject) (n m : FName)
    (c : Option UCurveFloat) (h : s.Unbaselined n) : Unbaselined (s.RegisterEventTrack m c) n := by
  cases c with
  | none => exact h
  | some c =>
    by_cases hm : m ≠ NAME_None
    · by_cases hmn : m = n
      · subst hmn
        exact Unbaselined_RegisterEventTrack_self s m c hm
      · simp only [RegisterEventTrack]
        rw [if_pos hm]
        obtain ⟨⟨c0, hc0⟩, hl⟩ := h
        refine ⟨⟨c0, ?_⟩, ?_⟩
        · simp only []
          rw [TMap.Find_Add_ne _ _ _ _ hmn]
          exact hc0
        · simp only []
          rw [TMap.Find_Add_ne _ _ _ _ hmn]
          exact hl
    · simp only [RegisterEventTrack]
      rw [if_neg hm]
      exact h

theorem Unbaselined_InitEventTrack (s : UTimelineObject) (n : FName) (Track : FTTEventTrack)
    (h : s.Unbaselined n) : Unbaselined (s.InitEventTrack Track) n := by
  simp only [InitEventTrack]
  split
  · exact Unbaselined_RegisterEventTrack s n _ _ h
  · exact h

theorem Unbaselined_foldl_InitEventTrack (l : List FTTEventTrack) (Track : FTTEventTrack)
    (c : UCurveFloat) (hmem : Track ∈ l) (hc : Track.CurveKeys = some c)
    (hn : Track.TrackName ≠ NAME_None) :
    ∀ s : UTimelineObject, Unbaselined (l.foldl InitEventTrack s) Track.TrackName := by
  induction l with
  | nil => simp at hmem
  | cons x rest ih =>
    intro s
    simp only [List.foldl_cons]
    rcases List.mem_cons.1 hmem with h | h
    · subst h
      refine foldl_invariant (fun t => Unbaselined t Track.TrackName) InitEventTrack
        (fun t y ht => Unbaselined_InitEventTrack t _ y ht) rest _ ?_
      simp only [InitEventTrack, hc]
      exact Unbaselined_RegisterEventTrack_self s _ c hn
    · exact ih h _

theorem Unbaselined_InitializeFromTemplate (s : UTimelineObject) (T : UTimelineTemplate)
    (Track : FTTEventTrack) (c : UCurveFloat) (hmem : Track ∈ T.EventTracks)
    (hc : Track.CurveKeys = some c) (hn : Track.TrackName ≠ NAME_None) :
    Unbaselined (s.InitializeFromTemplate (some T)) Track.TrackName := by
  have h := Unbaselined_foldl_InitEventTrack T.EventTracks Track c hmem hc hn
  simp only [InitializeFromTemplate]
  split
  · exact h _
  · exact h _

/-- The object created by `GetOrCreateTimelineObject` from the definition `T`: its event
maps are well formed, the detector of every event track of `T` is unbaselined, and its
timeline holds the callbacks of the constructor. -/
theorem created_tracks (Fn : UObject → FName → Bool)
    (GetBPGC : UObject → Option UBlueprintGeneratedClass) (o : UObject) (name upd fin : FName)
    (cls : UBlueprintGeneratedClass) (T : UTimelineTemplate) (hcls : GetBPGC o = some cls)
    (hT : FindTemplate cls.Timelines name = some T) :
    (TriggerAutoPlay (BindCreated Fn GetBPGC o (CreateInitialized GetBPGC o name) name upd
      fin)).TracksWF ∧
    (TriggerAutoPlay (BindCreated Fn GetBPGC o (CreateInitialized GetBPGC o name) name upd
      fin)).ConstructorCallbacks ∧
    ∀ (Track : FTTEventTrack) (c : UCurveFloat), Track ∈ T.EventTracks →
      Track.CurveKeys = some c → Track.TrackName ≠ NAME_None →
      Unbaselined (TriggerAutoPlay (BindCreated Fn GetBPGC o (CreateInitialized GetBPGC o name)
        name upd fin)) Track.TrackName := by
  have hci := CreateInitialized_with_template GetBPGC o name cls T hcls hT
  have hc := SameCore_BindCreated Fn GetBPGC o (CreateInitialized GetBPGC o name) name upd fin
  have hg := DelegatesGrow_BindCreated Fn GetBPGC o (CreateInitialized GetBPGC o name) name upd
    fin
  have hwf0 : (CreateInitialized GetBPGC o name).TracksWF := by
    rw [hci]
    exact TracksWF_InitializeFromTemplate _ _ (TracksWF_new _ _)
  have hwf1 := TracksWF_of_grow _ _ hc hg hwf0
  have hfr := InitFrame_CreateInitialized GetBPGC o name
  have hcb1 : (BindCreated Fn GetBPGC o (CreateInitialized GetBPGC o name) name upd
      fin).ConstructorCallbacks := by
    unfold ConstructorCallbacks
    rw [hc.timeline, hfr.postUpdateFunc, hfr.finishedFunc]
    exact ⟨rfl, rfl⟩
  have hun1 : ∀ (Track : FTTEventTrack) (c : UCurveFloat), Track ∈ T.EventTracks →
      Track.CurveKeys = some c → Track.TrackName ≠ NAME_None →
      Unbaselined (BindCreated Fn GetBPGC o (CreateInitialized GetBPGC o name) name upd fin)
        Track.TrackName := by
    intro Track c hmem hck hn
    have h0 := Unbaselined_InitializeFromTemplate (new o (UniqueObjectName name)) T Track c
      hmem hck hn
    rw [← hci] at h0
    unfold Unbaselined at h0 ⊢
    rw [hc.eventTracks, hc.lastPositions]
    exact h0
  simp only [TriggerAutoPlay]
  split
  · exact ⟨TracksWF_congr _ _ hwf1 rfl rfl, hcb1, hun1⟩
  · exact ⟨hwf1, hcb1, hun1⟩

end UTimelineObject

namespace UTimelineObject

theorem created_playing (Fn : UObject → FName → Bool)
    (GetBPGC : UObject → Option UBlueprintGeneratedClass) (o : UObject) (name upd fin : FName)
    (cls : UBlueprintGeneratedClass) (T : UTimelineTemplate) (hcls : GetBPGC o = some cls)
    (hT : FindTemplate cls.Timelines name = some T) (hauto : T.bAutoPlay = true) :
    (TriggerAutoPlay (BindCreated Fn GetBPGC o (CreateInitialized GetBPGC o name) name upd
      fin)).IsPlaying = true := by
  have hc := SameCore_BindCreated Fn GetBPGC o (CreateInitialized GetBPGC o name) name upd fin
  have hpend : (BindCreated Fn GetBPGC o (CreateInitialized GetBPGC o name) name upd
      fin).bPendingAutoPlay = true := by
    rw [hc.pendingAutoPlay, CreateInitialized_with_template GetBPGC o name cls T hcls hT,
      InitializeFromTemplate_pending, hauto]
    rfl
  simp only [TriggerAutoPlay, hpend]
  rfl

/-- C16, counterexample: object 7 has the authored timeline `Door` with autoplay and an
event track `Opened` whose only key is at time 0, and the listener `OnOpened` declared for
it. `GetOrCreateTimelineObject` creates the instance, playing, with the listener bound to
the track; the first `Tick` with delta 1 moves the cursor to 1 and broadcasts only the
Update channel: the listener of `Opened` is not invoked. -/
theorem autoplay_trigger_at_zero_counterexample :
    GetOrCreateTimelineObject (fun _ _ => true) doorGetBPGC [] (some 7) "Door" "OnTick" "None" =
      ([doorCreated], some 0) ∧
    doorTemplate.bAutoPlay = true ∧
    doorTemplate.EventTracks.map (fun t =>
      (t.TrackName, t.CurveKeys.map (fun c => c.FloatCurve.Keys.map FRichCurveKey.Time))) =
      [("Opened", some [0])] ∧
    doorCreated.IsPlaying = true ∧
    doorCreated.EventTrackListeners "Opened" = [⟨7, "OnOpened"⟩] ∧
    (doorCreated.Tick ⟨1, fun _ => none⟩ 1).2 = [Notification.TimelineUpdate] ∧
    (doorCreated.Tick ⟨1, fun _ => none⟩ 1).1.GetPlaybackPosition = 1 ∧
    (doorCreated.Tick ⟨1, fun _ => none⟩ 1).2.count (Notification.EventTrack "Opened") = 0 := by
  refine ⟨rfl, rfl, by decide, rfl, by decide, by decide!, by decide!, by decide!⟩

end UTimelineObject

/-! ## Re-registration, notification order and tick delta -/

namespace TMap

variable {K V : Type} [DecidableEq K]

theorem keys_Add_of_isSome (m : TMap K V) (k : K) (v : V) (h : (Find m k).isSome = true) :
    (Add m k v).map Prod.fst = m.map Prod.fst := by
  induction m with
  | nil => simp [Find] at h
  | cons q rest ih =>
    obtain ⟨k1, v1⟩ := q
    by_cases h1 : k1 = k
    · simp [Add, h1]
    · simp only [Find, h1, if_false] at h
      simp [Add, h1, ih h]

end TMap

namespace UTimelineObject

/-- C17 (re-registration resets the detector): for an event track that is registered and
baselined, `RegisterEventTrack` with a non-null curve under the same name replaces the
curve of the track (the set of tracks is the same), stores the unset sentinel as the
track's last position, and the next `CheckEventTracks` evaluation, for any timeline state
(cursor and direction), broadcasts nothing on the track. -/
theorem reregistration_resets_detector (s : UTimelineObject) (n : FName) (c0 c : UCurveFloat)
    (p0 : ℚ) (T : FTimeline) (hwf : s.TracksWF) (hn : n ≠ NAME_None)
    (hreg : s.EventTrackCurves.Find n = some (some c0))
    (_hbase : s.LastEventTrackPositions.Find n = some p0) (_hp0 : 0 ≤ p0) :
    (s.RegisterEventTrack n (some c)).EventTrackCurves.Find n = some (some c) ∧
    (s.RegisterEventTrack n (some c)).EventTrackCurves.map Prod.fst =
      s.EventTrackCurves.map Prod.fst ∧
    (s.RegisterEventTrack n (some c)).LastEventTrackPositions.Find n = some (-1) ∧
    (CheckEventTracks ((s.RegisterEventTrack n (some c)).WithTimeline T)).2.count
      (Notification.EventTrack n) = 0 := by
  have hun := Unbaselined_RegisterEventTrack_self s n c hn
  have hwf1 := TracksWF_RegisterEventTrack s n (some c) hwf
  have hwf2 : ((s.RegisterEventTrack n (some c)).WithTimeline T).TracksWF :=
    TracksWF_congr _ _ hwf1 rfl rfl
  have hun2 : Unbaselined ((s.RegisterEventTrack n (some c)).WithTimeline T) n := hun
  refine ⟨?_, ?_, hun.2, (CheckEventTracks_unbaselined _ n hwf2 hun2).1⟩
  · simp only [RegisterEventTrack]
    rw [if_pos hn]
    exact TMap.Find_Add_self _ _ _
  · simp only [RegisterEventTrack]
    rw [if_pos hn]
    exact TMap.keys_Add_of_isSome _ _ _ (by rw [hreg]; rfl)

theorem reregistration_resets_detector_witness :
    ((doorBaselined (singleKeyCurve 1) 0 false).RegisterEventTrack "Opened"
      (some threeKeyCurve)).LastEventTrackPositions.Find "Opened" = some (-1) ∧
    (CheckEventTracks (((doorBaselined (singleKeyCurve 1) 0 false).RegisterEventTrack "Opened"
      (some threeKeyCurve)).WithTimeline { Position := 4 })).2.count
      (Notification.EventTrack "Opened") = 0 :=
  have h := reregistration_resets_detector (doorBaselined (singleKeyCurve 1) 0 false) "Opened"
    (singleKeyCurve 1) threeKeyCurve 0 { Position := 4 } (TracksWF_doorBaselined _ 0 false)
    (by decide) rfl rfl (le_refl 0)
  ⟨h.2.2.1, h.2.2.2⟩

theorem CheckEventTrack_only_events (cur : ℚ) (rev : Bool)
    (D : TMap FName FMulticastScriptDelegate) (acc : TMap FName ℚ × List Notification)
    (Pair : FName × Option UCurveFloat) (h : ∀ x ∈ acc.2, ∃ n, x = Notification.EventTrack n) :
    ∀ x ∈ (CheckEventTrack cur rev D acc Pair).2, ∃ n, x = Notification.EventTrack n := by
  obtain ⟨m, oc⟩ := Pair
  cases oc with
  | none => exact h
  | some c =>
    rw [(CheckEventTrack_self cur rev D acc m c).2]
    intro x hx
    rcases List.mem_append.1 hx with h1 | h1
    · exact h x h1
    · unfold TrackBroadcasts at h1
      split at h1
      · simp at h1
      · rw [CheckKeys_eq] at h1
        split at h1
        · cases hf : D.Find m with
          | none => simp [hf] at h1
          | some d =>
            simp only [hf, List.mem_singleton] at h1
            exact ⟨m, h1⟩
        · simp at h1

/-- The trace of one `CheckEventTracks` evaluation holds event-track broadcasts only. -/
theorem CheckEventTracks_only_events (s : UTimelineObject) :
    ∀ x ∈ (CheckEventTracks s).2, ∃ n, x = Notification.EventTrack n := by
  have h : ∀ (l : List (FName × Option UCurveFloat)) (acc : TMap FName ℚ × List Notification),
      (∀ x ∈ acc.2, ∃ n, x = Notification.EventTrack n) →
      ∀ x ∈ (l.foldl (CheckEventTrack s.GetPlaybackPosition s.IsReversing
        s.EventTrackDelegates) acc).2, ∃ n, x = Notification.EventTrack n := by
    intro l
    induction l with
    | nil =>
      intro acc hacc
      exact hacc
    | cons p rest ih =>
      intro acc hacc
      exact ih _ (CheckEventTrack_only_events _ _ _ acc p hacc)
  exact h s.EventTrackCurves (s.LastEventTrackPositions, []) (by simp)

/-- C18 (notification order within one update): the broadcasts of
`Internal_OnTimelineUpdate` are, in this order, the float-track value notifications, the
vector-track ones, the colour-track ones (one per track with a curve, carrying the track's
name and the curve's value at the current cursor position), then the event-track
broadcasts of the crossing detector (`CheckEventTracks`), and last the Update channel,
which is broadcast exactly once; the state afterwards is the one the detector leaves. -/
theorem notification_order (s : UTimelineObject) :
    ∃ fl vec col ev,
      (Internal_OnTimelineUpdate s).2 = fl ++ vec ++ col ++ ev ++ [Notification.TimelineUpdate] ∧
      (∀ x, x ∈ fl ↔ ∃ name c, (name, some c) ∈ s.FloatTrackCurves ∧
        x = Notification.FloatTrack name (c.GetFloatValue s.GetPlaybackPosition)) ∧
      (∀ x, x ∈ vec ↔ ∃ name c, (name, some c) ∈ s.VectorTrackCurves ∧
        x = Notification.VectorTrack name (c.GetVectorValue s.GetPlaybackPosition)) ∧
      (∀ x, x ∈ col ↔ ∃ name c, (name, some c) ∈ s.LinearColorTrackCurves ∧
        x = Notification.LinearColorTrack name (c.GetLinearColorValue s.GetPlaybackPosition)) ∧
      fl.length = (s.FloatTrackCurves.filter (fun p => p.2.isSome)).length ∧
      vec.length = (s.VectorTrackCurves.filter (fun p => p.2.isSome)).length ∧
      col.length = (s.LinearColorTrackCurves.filter (fun p => p.2.isSome)).length ∧
      ev = (CheckEventTracks s).2 ∧ (∀ x ∈ ev, ∃ n, x = Notification.EventTrack n) ∧
      (Internal_OnTimelineUpdate s).2.count Notification.TimelineUpdate = 1 ∧
      (Internal_OnTimelineUpdate s).1 = (CheckEventTracks s).1 := by
  have hmem : ∀ {C : Type} (m : TMap FName (Option C)) (g : FName → C → Notification)
      (x : Notification),
      x ∈ m.filterMap (fun Pair => Pair.2.map (fun c => g Pair.1 c)) ↔
        ∃ name c, (name, some c) ∈ m ∧ x = g name c := by
    intro C m g x
    rw [List.mem_filterMap]
    constructor
    · rintro ⟨⟨name, oc⟩, hp, hx⟩
      cases oc with
      | none => simp at hx
      | some c =>
        simp only [Option.map_some', Option.some.injEq] at hx
        exact ⟨name, c, hp, hx.symm⟩
    · rintro ⟨name, c, hp, hx⟩
      exact ⟨(name, some c), hp, by simp [hx]⟩
  have hlen : ∀ {C : Type} (m : TMap FName (Option C)) (g : FName → C → Notification),
      (m.filterMap (fun Pair => Pair.2.map (fun c => g Pair.1 c))).length =
        (m.filter (fun p => p.2.isSome)).length := by
    intro C m g
    induction m with
    | nil => rfl
    | cons p rest ih =>
      obtain ⟨name, oc⟩ := p
      cases oc with
      | none => simpa [List.filterMap_cons, List.filter_cons] using ih
      | some c => simpa [List.filterMap_cons, List.filter_cons] using ih
  have hnot : ∀ {C : Type} (m : TMap FName (Option C)) (g : FName → C → Notification),
      (∀ name c, g name c ≠ Notification.TimelineUpdate) →
      (m.filterMap (fun Pair => Pair.2.map (fun c => g Pair.1 c))).count
        Notification.TimelineUpdate = 0 := by
    intro C m g hg
    rw [List.count_eq_zero]
    intro hx
    obtain ⟨name, c, _, hx⟩ := (hmem m g _).1 hx
    exact hg name c hx.symm
  refine ⟨s.FloatTrackCurves.filterMap (fun (Pair : FName × Option UCurveFloat) =>
      Pair.2.map (fun (c : UCurveFloat) =>
        Notification.FloatTrack Pair.1 (c.GetFloatValue s.GetPlaybackPosition))),
    s.VectorTrackCurves.filterMap (fun (Pair : FName × Option UCurveVector) =>
      Pair.2.map (fun (c : UCurveVector) =>
        Notification.VectorTrack Pair.1 (c.GetVectorValue s.GetPlaybackPosition))),
    s.LinearColorTrackCurves.filterMap (fun (Pair : FName × Option UCurveLinearColor) =>
      Pair.2.map (fun (c : UCurveLinearColor) =>
        Notification.LinearColorTrack Pair.1 (c.GetLinearColorValue s.GetPlaybackPosition))),
    (CheckEventTracks s).2, rfl,
    hmem s.FloatTrackCurves (fun name (c : UCurveFloat) => Notification.FloatTrack name
      (c.GetFloatValue s.GetPlaybackPosition)),
    hmem s.VectorTrackCurves (fun name (c : UCurveVector) => Notification.VectorTrack name
      (c.GetVectorValue s.GetPlaybackPosition)),
    hmem s.LinearColorTrackCurves (fun name (c : UCurveLinearColor) =>
      Notification.LinearColorTrack name (c.GetLinearColorValue s.GetPlaybackPosition)),
    hlen s.FloatTrackCurves (fun name (c : UCurveFloat) => Notification.FloatTrack name
      (c.GetFloatValue s.GetPlaybackPosition)),
    hlen s.VectorTrackCurves (fun name (c : UCurveVector) => Notification.VectorTrack name
      (c.GetVectorValue s.GetPlaybackPosition)),
    hlen s.LinearColorTrackCurves (fun name (c : UCurveLinearColor) =>
      Notification.LinearColorTrack name (c.GetLinearColorValue s.GetPlaybackPosition)),
    rfl, CheckEventTracks_only_events s, ?_, rfl⟩
  simp only [Internal_OnTimelineUpdate, List.count_append]
  rw [hnot s.FloatTrackCurves (fun name (c : UCurveFloat) => Notification.FloatTrack name
      (c.GetFloatValue s.GetPlaybackPosition)) (by intro _ _ h; cases h),
    hnot s.VectorTrackCurves (fun name (c : UCurveVector) => Notification.VectorTrack name
      (c.GetVectorValue s.GetPlaybackPosition)) (by intro _ _ h; cases h),
    hnot s.LinearColorTrackCurves (fun name (c : UCurveLinearColor) =>
      Notification.LinearColorTrack name (c.GetLinearColorValue s.GetPlaybackPosition))
      (by intro _ _ h; cases h)]
  have hev : (CheckEventTracks s).2.count Notification.TimelineUpdate = 0 := by
    rw [List.count_eq_zero]
    intro hx
    obtain ⟨n, hn⟩ := CheckEventTracks_only_events s _ hx
    cases hn
  rw [hev]
  simp

/-- C20 (delta-time selection in `Tick`): when ignore-time-dilation is not set, the delta
handed to the timeline is the `DeltaTime` argument; when it is set and world settings are
available, it is the undilated application delta clamped with `MinUndilatedFrameTime` and
`MaxUndilatedFrameTime` (so it lies between them when the minimum is not above the
maximum) and does not depend on the `DeltaTime` argument. -/
theorem tick_delta_selection (ctx : FTickContext) (s : UTimelineObject) (DeltaTime : ℚ) :
    (s.bIgnoreTimeDilation = false →
      TickDeltaTime ctx s DeltaTime = DeltaTime ∧
      s.Tick ctx DeltaTime = s.TickTimeline DeltaTime) ∧
    (∀ ws, s.bIgnoreTimeDilation = true → ctx.GetWorldSettings s.Outer = some ws →
      TickDeltaTime ctx s DeltaTime =
        FMath.Clamp ctx.AppDeltaTime ws.MinUndilatedFrameTime ws.MaxUndilatedFrameTime ∧
      s.Tick ctx DeltaTime = s.TickTimeline
        (FMath.Clamp ctx.AppDeltaTime ws.MinUndilatedFrameTime ws.MaxUndilatedFrameTime) ∧
      (ws.MinUndilatedFrameTime ≤ ws.MaxUndilatedFrameTime →
        ws.MinUndilatedFrameTime ≤ TickDeltaTime ctx s DeltaTime ∧
        TickDeltaTime ctx s DeltaTime ≤ ws.MaxUndilatedFrameTime) ∧
      ∀ OtherDeltaTime, TickDeltaTime ctx s OtherDeltaTime = TickDeltaTime ctx s DeltaTime) := by
  constructor
  · intro h
    have e : TickDeltaTime ctx s DeltaTime = DeltaTime := by simp [TickDeltaTime, h]
    exact ⟨e, by rw [Tick, e]⟩
  · intro ws h hws
    have e : ∀ dt, TickDeltaTime ctx s dt =
        FMath.Clamp ctx.AppDeltaTime ws.MinUndilatedFrameTime ws.MaxUndilatedFrameTime := by
      intro dt
      simp [TickDeltaTime, h, hws]
    refine ⟨e _, by rw [Tick, e], ?_, fun dt2 => (e dt2).trans (e DeltaTime).symm⟩
    intro hle
    rw [e]
    unfold FMath.Clamp
    exact ⟨le_max_right _ _, max_le (min_le_right _ _) hle⟩

theorem tick_delta_selection_witness :
    TickDeltaTime ⟨1 / 2, fun _ => some ⟨1 / 100, 1 / 10⟩⟩
      (doorSnapped.SetIgnoreTimeDilation true) 3 = 1 / 10 ∧
    TickDeltaTime ⟨1 / 2, fun _ => some ⟨1 / 100, 1 / 10⟩⟩ doorSnapped 3 = 3 :=
  have h1 := (tick_delta_selection ⟨1 / 2, fun _ => some ⟨1 / 100, 1 / 10⟩⟩
    (doorSnapped.SetIgnoreTimeDilation true) 3).2 ⟨1 / 100, 1 / 10⟩ rfl rfl
  have h2 := (tick_delta_selection ⟨1 / 2, fun _ => some ⟨1 / 100, 1 / 10⟩⟩ doorSnapped 3).1 rfl
  ⟨h1.1.trans (by norm_num [FMath.Clamp]), h2.1⟩

end UTimelineObject

/-! ## Claims on the terminal step, the value getters and the creation service -/

namespace UTimelineObject

/-- The trace of the update callback is a run of value-track and event-track broadcasts
followed by one broadcast of the Update channel; the timeline is left as it was. -/
theorem Internal_OnTimelineUpdate_shape (s : UTimelineObject) :
    (Internal_OnTimelineUpdate s).1.TheTimeline = s.TheTimeline ∧
    ∃ pre : List Notification,
      (∀ x ∈ pre, x ≠ Notification.TimelineUpdate ∧ x ≠ Notification.TimelineFinished) ∧
      (Internal_OnTimelineUpdate s).2 = pre ++ [Notification.TimelineUpdate] := by
  refine ⟨rfl, _, ?_, rfl⟩
  intro x hx
  simp only [List.mem_append, List.mem_filterMap] at hx
  rcases hx with ((⟨a, _, ha⟩ | ⟨a, _, ha⟩) | ⟨a, _, ha⟩) | hx
  · cases h2 : a.2 with
    | none => simp [h2] at ha
    | some c =>
      simp only [h2, Option.map_some', Option.some.injEq] at ha
      rw [← ha]
      simp
  · cases h2 : a.2 with
    | none => simp [h2] at ha
    | some c =>
      simp only [h2, Option.map_some', Option.some.injEq] at ha
      rw [← ha]
      simp
  · cases h2 : a.2 with
    | none => simp [h2] at ha
    | some c =>
      simp only [h2, Option.map_some', Option.some.injEq] at ha
      rw [← ha]
      simp
  · obtain ⟨n, hn⟩ := CheckEventTracks_only_events s x hx
    rw [hn]
    simp

/-- The terminal step of a non-looping timeline whose callbacks are the constructor's: the
cursor is put on the endpoint, the update callback runs there, then the Finished channel is
broadcast. -/
theorem FinishAt_trace (s : UTimelineObject) (L : ℚ) (hcb : s.ConstructorCallbacks)
    (hL : s.TheTimeline.GetTimelineLength = L) (hL0 : 0 ≤ L) :
    (s.FinishAt L).1.TheTimeline = (s.WithCursor L).TheTimeline ∧
    (s.FinishAt L).2 =
      (Internal_OnTimelineUpdate (s.WithCursor L)).2 ++ [Notification.TimelineFinished] := by
  obtain ⟨h1, h2⟩ := hcb
  have e : { s with TheTimeline := s.TheTimeline.SetPosition L } = s.WithCursor L := by
    simp only [WithCursor, FTimeline.SetPosition, hL, min_self, max_eq_right hL0]
  have e1 : (s.TheTimeline.SetPosition L).TimelinePostUpdateFunc =
      FOnTimelineEvent.Internal_OnTimelineUpdate := h1
  have hs : s.SetPlaybackPosition L true true = Internal_OnTimelineUpdate (s.WithCursor L) := by
    simp only [SetPlaybackPosition, e, if_true, e1, ExecuteIfBound]
  have e2 : (Internal_OnTimelineUpdate (s.WithCursor L)).1.TheTimeline.TimelineFinishedFunc =
      FOnTimelineEvent.Internal_OnTimelineFinished := h2
  have hf : s.FinishAt L = ((Internal_OnTimelineUpdate (s.WithCursor L)).1,
      (Internal_OnTimelineUpdate (s.WithCursor L)).2 ++ [Notification.TimelineFinished]) := by
    simp only [FinishAt, hs, e2, ExecuteIfBound, Internal_OnTimelineFinished]
  rw [hf]
  exact ⟨rfl, rfl⟩

/-- C21 (non-looping overshoot): for an object whose timeline callbacks are the
constructor's, playing forward, not looping, with length `L ≥ 0`, one `Tick` whose effective
delta is positive and would carry the cursor past `L` leaves the cursor at exactly `L`; its
broadcasts are those of the update callback run with the cursor at `L` followed by one
Finished broadcast, so Update is broadcast exactly once, then Finished exactly once and
last; afterwards the object is not playing and `IsTickable` is false. -/
theorem nonlooping_overshoot_finishes (ctx : FTickContext) (s : UTimelineObject)
    (DeltaTime L : ℚ) (hcb : s.ConstructorCallbacks)
    (hplay : s.TheTimeline.bPlaying = true)
    (hfwd : s.TheTimeline.bReversePlayback = false)
    (hloop : s.TheTimeline.bLooping = false)
    (hL : s.TheTimeline.GetTimelineLength = L) (hL0 : 0 ≤ L)
    (hpos : 0 < TickDeltaTime ctx s DeltaTime * s.TheTimeline.PlayRate)
    (hover : L < s.TheTimeline.Position + TickDeltaTime ctx s DeltaTime * s.TheTimeline.PlayRate) :
    (Tick ctx s DeltaTime).1.GetPlaybackPosition = L ∧
    (s.Stop.WithCursor L).GetPlaybackPosition = L ∧
    (Tick ctx s DeltaTime).2 =
      (Internal_OnTimelineUpdate (s.Stop.WithCursor L)).2 ++ [Notification.TimelineFinished] ∧
    (∃ pre : List Notification,
      (∀ x ∈ pre, x ≠ Notification.TimelineUpdate ∧ x ≠ Notification.TimelineFinished) ∧
      (Tick ctx s DeltaTime).2 =
        pre ++ [Notification.TimelineUpdate, Notification.TimelineFinished]) ∧
    (Tick ctx s DeltaTime).2.count Notification.TimelineUpdate = 1 ∧
    (Tick ctx s DeltaTime).2.count Notification.TimelineFinished = 1 ∧
    (Tick ctx s DeltaTime).1.IsPlaying = false ∧
    (Tick ctx s DeltaTime).1.IsTickable = false := by
  have ht : Tick ctx s DeltaTime = s.Stop.FinishAt L := by
    simp only [Tick, TickTimeline, hplay, hfwd, hloop, if_true, hL]
    simp [hpos, hover]
  have hf := FinishAt_trace s.Stop L hcb hL hL0
  obtain ⟨pre, hpre, hshape⟩ := (Internal_OnTimelineUpdate_shape (s.Stop.WithCursor L)).2
  have htr : (Tick ctx s DeltaTime).2 =
      pre ++ [Notification.TimelineUpdate, Notification.TimelineFinished] := by
    rw [ht, hf.2, hshape]
    simp
  have hc1 : pre.count Notification.TimelineUpdate = 0 :=
    List.count_eq_zero.2 (fun h => (hpre _ h).1 rfl)
  have hc2 : pre.count Notification.TimelineFinished = 0 :=
    List.count_eq_zero.2 (fun h => (hpre _ h).2 rfl)
  have htl : (Tick ctx s DeltaTime).1.TheTimeline = (s.Stop.WithCursor L).TheTimeline := by
    rw [ht]
    exact hf.1
  refine ⟨?_, rfl, ?_, ⟨pre, hpre, htr⟩, ?_, ?_, ?_, ?_⟩
  · simp only [GetPlaybackPosition, htl]
    rfl
  · rw [ht]
    exact hf.2
  · rw [htr, List.count_append, hc1]
    simp [List.count_cons]
  · rw [htr, List.count_append, hc2]
    simp [List.count_cons]
  · simp only [IsPlaying, htl]
    rfl
  · simp only [IsTickable, htl]
    rfl

theorem nonlooping_overshoot_finishes_witness :
    sprintNearEnd.GetPlaybackPosition = 9 / 10 ∧
    (Tick ⟨4 / 10, fun _ => none⟩ sprintNearEnd (4 / 10)).1.GetPlaybackPosition = 1 ∧
    (Tick ⟨4 / 10, fun _ => none⟩ sprintNearEnd (4 / 10)).2 =
      [Notification.FloatTrack "Speed" 1, Notification.TimelineUpdate,
        Notification.TimelineFinished] ∧
    (Tick ⟨4 / 10, fun _ => none⟩ sprintNearEnd (4 / 10)).1.IsTickable = false :=
  have h := nonlooping_overshoot_finishes ⟨4 / 10, fun _ => none⟩ sprintNearEnd (4 / 10) 1
    ⟨rfl, rfl⟩ rfl rfl rfl rfl (by norm_num)
    (by decide!) (by decide!)
  ⟨rfl, h.1, h.2.2.1.trans (by decide!), h.2.2.2.2.2.2.2⟩

end UTimelineObject

namespace UTimelineObject

/-- C22 (an absent curve evaluates to a zero value): for every object state the value
getters are total; for a null curve `GetFloatValue` returns 0, `GetVectorValue` the zero
vector and `GetLinearColorValue` opaque black; for a curve that is not null each getter
returns the curve's value at the current cursor position. -/
theorem absent_curve_zero_value (s : UTimelineObject) :
    s.GetFloatValue none = 0 ∧
    s.GetVectorValue none = ⟨0, 0, 0⟩ ∧
    s.GetLinearColorValue none = ⟨0, 0, 0, 1⟩ ∧
    (∀ c : UCurveFloat, s.GetFloatValue (some c) = c.GetFloatValue s.GetPlaybackPosition) ∧
    (∀ c : UCurveVector,
      s.GetVectorValue (some c) = c.GetVectorValue s.GetPlaybackPosition) ∧
    (∀ c : UCurveLinearColor,
      s.GetLinearColorValue (some c) = c.GetLinearColorValue s.GetPlaybackPosition) :=
  ⟨rfl, rfl, rfl, fun _ => rfl, fun _ => rfl, fun _ => rfl⟩

end UTimelineObject

namespace World

theorem getElem?_modifyAt_ne (f : UTimelineObject → UTimelineObject) (W : World) :
    ∀ i j, j ≠ i → (W.modifyAt i f)[j]? = W[j]? := by
  induction W with
  | nil =>
    intro i j _
    rfl
  | cons x rest ih =>
    intro i j hj
    cases i with
    | zero =>
      cases j with
      | zero => exact absurd rfl hj
      | succ j => simp [modifyAt]
    | succ i =>
      cases j with
      | zero => simp [modifyAt]
      | succ j =>
        simp only [modifyAt, List.getElem?_cons_succ]
        exact ih i j (fun h => hj (by rw [h]))

end World

namespace UTimelineObject

theorem BindUpdateFunction_only_update (Fn : UObject → FName → Bool) (s : UTimelineObject)
    (T : UObject) (F : FName) :
    SameOrAppended s.OnTimelineUpdate (s.BindUpdateFunction Fn (some T) F).OnTimelineUpdate
      ⟨T, F⟩ ∧
    (s.BindUpdateFunction Fn (some T) F).OnTimelineFinished = s.OnTimelineFinished ∧
    (s.BindUpdateFunction Fn (some T) F).OnFloatTrack = s.OnFloatTrack ∧
    (s.BindUpdateFunction Fn (some T) F).OnVectorTrack = s.OnVectorTrack ∧
    (s.BindUpdateFunction Fn (some T) F).OnLinearColorTrack = s.OnLinearColorTrack ∧
    (s.BindUpdateFunction Fn (some T) F).EventTrackDelegates = s.EventTrackDelegates ∧
    (s.BindUpdateFunction Fn (some T) F).BoundEventTrackFunctions =
      s.BoundEventTrackFunctions := by
  simp only [BindUpdateFunction]
  repeat' split
  all_goals first
    | exact ⟨Or.inl rfl, rfl, rfl, rfl, rfl, rfl, rfl⟩
    | refine ⟨?_, rfl, rfl, rfl, rfl, rfl, rfl⟩
      simp only [SameOrAppended, FMulticastScriptDelegate.AddUnique]
      split
      · exact Or.inl rfl
      · exact Or.inr rfl

theorem BindFinishedFunction_only_finished (Fn : UObject → FName → Bool) (s : UTimelineObject)
    (T : UObject) (F : FName) :
    (s.BindFinishedFunction Fn (some T) F).OnTimelineUpdate = s.OnTimelineUpdate ∧
    SameOrAppended s.OnTimelineFinished
      (s.BindFinishedFunction Fn (some T) F).OnTimelineFinished ⟨T, F⟩ ∧
    (s.BindFinishedFunction Fn (some T) F).OnFloatTrack = s.OnFloatTrack ∧
    (s.BindFinishedFunction Fn (some T) F).OnVectorTrack = s.OnVectorTrack ∧
    (s.BindFinishedFunction Fn (some T) F).OnLinearColorTrack = s.OnLinearColorTrack ∧
    (s.BindFinishedFunction Fn (some T) F).EventTrackDelegates = s.EventTrackDelegates ∧
    (s.BindFinishedFunction Fn (some T) F).BoundEventTrackFunctions =
      s.BoundEventTrackFunctions := by
  simp only [BindFinishedFunction]
  repeat' split
  all_goals first
    | exact ⟨rfl, Or.inl rfl, rfl, rfl, rfl, rfl, rfl⟩
    | refine ⟨rfl, ?_, rfl, rfl, rfl, rfl, rfl⟩
      simp only [SameOrAppended, FMulticastScriptDelegate.AddUnique]
      split
      · exact Or.inl rfl
      · exact Or.inr rfl

theorem BindUpdateAndFinished_only_binds (Fn : UObject → FName → Bool) (o : UObject)
    (s : UTimelineObject) (upd fin : FName) :
    SameOrAppended s.OnTimelineUpdate (BindUpdateAndFinished Fn o s upd fin).OnTimelineUpdate
      ⟨o, upd⟩ ∧
    SameOrAppended s.OnTimelineFinished
      (BindUpdateAndFinished Fn o s upd fin).OnTimelineFinished ⟨o, fin⟩ ∧
    (BindUpdateAndFinished Fn o s upd fin).OnFloatTrack = s.OnFloatTrack ∧
    (BindUpdateAndFinished Fn o s upd fin).OnVectorTrack = s.OnVectorTrack ∧
    (BindUpdateAndFinished Fn o s upd fin).OnLinearColorTrack = s.OnLinearColorTrack ∧
    (BindUpdateAndFinished Fn o s upd fin).EventTrackDelegates = s.EventTrackDelegates ∧
    (BindUpdateAndFinished Fn o s upd fin).BoundEventTrackFunctions =
      s.BoundEventTrackFunctions := by
  have hu := BindUpdateFunction_only_update Fn s o upd
  by_cases h1 : upd ≠ NAME_None
  · by_cases h2 : fin ≠ NAME_None
    · have hf := BindFinishedFunction_only_finished Fn (s.BindUpdateFunction Fn (some o) upd)
        o fin
      have e : BindUpdateAndFinished Fn o s upd fin =
          (s.BindUpdateFunction Fn (some o) upd).BindFinishedFunction Fn (some o) fin := by
        simp only [BindUpdateAndFinished, if_pos h1, if_pos h2]
      rw [e]
      obtain ⟨u1, u2, u3, u4, u5, u6, u7⟩ := hu
      obtain ⟨f1, f2, f3, f4, f5, f6, f7⟩ := hf
      refine ⟨?_, ?_, f3.trans u3, f4.trans u4, f5.trans u5, f6.trans u6, f7.trans u7⟩
      · rw [f1]
        exact u1
      · rw [← u2]
        exact f2
    · have e : BindUpdateAndFinished Fn o s upd fin = s.BindUpdateFunction Fn (some o) upd := by
        simp only [BindUpdateAndFinished, if_pos h1, if_neg h2]
      rw [e]
      obtain ⟨u1, u2, u3, u4, u5, u6, u7⟩ := hu
      exact ⟨u1, Or.inl u2, u3, u4, u5, u6, u7⟩
  · by_cases h2 : fin ≠ NAME_None
    · have hf := BindFinishedFunction_only_finished Fn s o fin
      have e : BindUpdateAndFinished Fn o s upd fin =
          s.BindFinishedFunction Fn (some o) fin := by
        simp only [BindUpdateAndFinished, if_neg h1, if_pos h2]
      rw [e]
      obtain ⟨f1, f2, f3, f4, f5, f6, f7⟩ := hf
      exact ⟨Or.inl f1, f2, f3, f4, f5, f6, f7⟩
    · have e : BindUpdateAndFinished Fn o s upd fin = s := by
        simp only [BindUpdateAndFinished, if_neg h1, if_neg h2]
      rw [e]
      exact ⟨Or.inl rfl, Or.inl rfl, rfl, rfl, rfl, rfl, rfl⟩

/-- C23 (the existing-instance path only binds): when the lookup of
`GetOrCreateTimelineObject` finds the object `y` at index `i` for (owner, name), the call
returns `i`, creates no object and leaves every other object of the world as it is; on the
object itself the identity, the whole timeline state (playing flag, direction, cursor,
rate, loop, length), the track maps, the detector positions and the pending-autoplay flag
are unchanged (`SameCore`), so it is neither initialised again nor started; the event-track
delegates and their tracking sets and the value-track channels are unchanged; the Update
channel is unchanged or has the listener (owner, update function) appended, and the
Finished channel is unchanged or has the listener (owner, finished function) appended. -/
theorem existing_path_only_binds (Fn : UObject → FName → Bool)
    (GetBPGC : UObject → Option UBlueprintGeneratedClass) (W : World) (o : UObject)
    (name upd fin : FName) (i : Nat) (y : UTimelineObject)
    (hfind : FindTimelineObject W (some o) name = some i) (hy : W[i]? = some y) :
    (GetOrCreateTimelineObject Fn GetBPGC W (some o) name upd fin).2 = some i ∧
    (GetOrCreateTimelineObject Fn GetBPGC W (some o) name upd fin).1.length = W.length ∧
    (∀ j, j ≠ i →
      (GetOrCreateTimelineObject Fn GetBPGC W (some o) name upd fin).1[j]? = W[j]?) ∧
    ∃ tl, (GetOrCreateTimelineObject Fn GetBPGC W (some o) name upd fin).1[i]? = some tl ∧
      SameCore y tl ∧
      tl.IsPlaying = y.IsPlaying ∧
      tl.GetPlaybackPosition = y.GetPlaybackPosition ∧
      tl.EventTrackDelegates = y.EventTrackDelegates ∧
      tl.BoundEventTrackFunctions = y.BoundEventTrackFunctions ∧
      tl.OnFloatTrack = y.OnFloatTrack ∧
      tl.OnVectorTrack = y.OnVectorTrack ∧
      tl.OnLinearColorTrack = y.OnLinearColorTrack ∧
      SameOrAppended y.OnTimelineUpdate tl.OnTimelineUpdate ⟨o, upd⟩ ∧
      SameOrAppended y.OnTimelineFinished tl.OnTimelineFinished ⟨o, fin⟩ := by
  rw [GetOrCreateTimelineObject_existing Fn GetBPGC W o name upd fin i hfind]
  have hc := SameCore_BindUpdateAndFinished Fn o y upd fin
  obtain ⟨b1, b2, b3, b4, b5, b6, b7⟩ := BindUpdateAndFinished_only_binds Fn o y upd fin
  refine ⟨rfl, World.length_modifyAt _ W i, fun j hj => World.getElem?_modifyAt_ne _ W i j hj,
    BindUpdateAndFinished Fn o y upd fin, ?_, hc, ?_, ?_, b6, b7, b3, b4, b5, b1, b2⟩
  · simp only [World.getElem?_modifyAt_self, hy, Option.map_some']
  · simp only [IsPlaying, hc.timeline]
  · simp only [GetPlaybackPosition, hc.timeline]

theorem existing_path_only_binds_witness :
    (GetOrCreateTimelineObject (fun _ _ => true) doorGetBPGC [doorCreated] (some 7) "Door"
      "OnTick" "OnDone").1 =
      [{ doorCreated with OnTimelineFinished := [⟨7, "OnDone"⟩]
                          BoundFinishedFunctions := [(7, "OnDone")] }] ∧
    ∃ tl, (GetOrCreateTimelineObject (fun _ _ => true) doorGetBPGC [doorCreated] (some 7)
        "Door" "OnTick" "OnDone").1[0]? = some tl ∧
      SameCore doorCreated tl ∧
      tl.OnTimelineUpdate = doorCreated.OnTimelineUpdate ∧
      SameOrAppended doorCreated.OnTimelineFinished tl.OnTimelineFinished ⟨7, "OnDone"⟩ :=
  have h := existing_path_only_binds (fun _ _ => true) doorGetBPGC [doorCreated] 7 "Door"
    "OnTick" "OnDone" 0 doorCreated rfl rfl
  match h with
  | ⟨_, _, _, tl, h1, h2, _, _, _, _, _, _, _, _, h3⟩ =>
    have e : tl = BindUpdateAndFinished (fun _ _ => true) 7 doorCreated "OnTick" "OnDone" :=
      (Option.some.inj h1).symm
    ⟨rfl, tl, h1, h2, e ▸ rfl, h3⟩

end UTimelineObject

namespace UTimelineObject

theorem BindEventTrackFunction_listeners_mono (Fn : UObject → FName → Bool)
    (s : UTimelineObject) (n m : FName) (Target : Option UObject) (F : FName)
    (y : FScriptDelegate) (h : y ∈ s.EventTrackListeners m) :
    y ∈ (s.BindEventTrackFunction Fn n Target F).EventTrackListeners m := by
  cases Target with
  | none => exact h
  | some T =>
    simp only [BindEventTrackFunction]
    repeat' split
    all_goals first
      | exact h
      | exact listeners_bind_track_mono _ n m _ y h

theorem BindEventTrackFunction_listeners_self (Fn : UObject → FName → Bool)
    (s : UTimelineObject) (n : FName) (T : UObject) (F : FName) (hu : s.UniqueBindings)
    (ht : s.TrackingSound) (hF : F ≠ NAME_None) (hn : n ≠ NAME_None) (hfn : Fn T F = true) :
    (⟨T, F⟩ : FScriptDelegate) ∈ (s.BindEventTrackFunction Fn n (some T) F).EventTrackListeners
      n := by
  have h : List.count (⟨T, F⟩ : FScriptDelegate)
      ((s.BindEventTrackFunction Fn n (some T) F).EventTrackListeners n) = 1 :=
    (BindEventTrackFunction_twice Fn s n T F hu ht hF hn hfn).2
  exact List.count_pos_iff.1 (by rw [h]; exact Nat.one_pos)

theorem BindDeclaredEventTracks_listeners_mono (Fn : UObject → FName → Bool) (o : UObject)
    (m : FName) (y : FScriptDelegate) (l : List (FName × FName)) :
    ∀ s : UTimelineObject, y ∈ s.EventTrackListeners m →
      y ∈ (BindDeclaredEventTracks Fn o s l).EventTrackListeners m := by
  induction l with
  | nil =>
    intro s h
    exact h
  | cons p rest ih =>
    intro s h
    simp only [BindDeclaredEventTracks]
    split
    · exact ih _ (BindEventTrackFunction_listeners_mono Fn s p.1 m (some o) p.2 y h)
    · exact ih _ h

/-- The track loop of the creation service binds every declared pair whose names are not
`NAME_None` and whose function resolves on the owner. -/
theorem BindDeclaredEventTracks_binds (Fn : UObject → FName → Bool) (o : UObject)
    (track fn : FName) (hfn : fn ≠ NAME_None) (htrack : track ≠ NAME_None)
    (hex : Fn o fn = true) (l : List (FName × FName)) :
    ∀ s : UTimelineObject, s.UniqueBindings → s.TrackingSound → (track, fn) ∈ l →
      (⟨o, fn⟩ : FScriptDelegate) ∈
        (BindDeclaredEventTracks Fn o s l).EventTrackListeners track := by
  induction l with
  | nil =>
    intro s _ _ h
    simp at h
  | cons p rest ih =>
    intro s hu ht h
    simp only [BindDeclaredEventTracks]
    rcases List.mem_cons.1 h with h1 | h1
    · subst h1
      rw [if_pos hfn]
      exact BindDeclaredEventTracks_listeners_mono Fn o track _ rest _
        (BindEventTrackFunction_listeners_self Fn s track o fn hu ht hfn htrack hex)
    · split
      · exact ih _ (UniqueBindings_BindEventTrackFunction Fn s p.1 (some o) p.2 hu)
          (TrackingSound_BindEventTrackFunction Fn s p.1 (some o) p.2 ht) h1
      · exact ih _ hu ht h1

/-- C24, as stated, fails for a declared pair whose track name is `NAME_None`: the class
`unnamedTrackClass` declares for timeline `Door` the pair (`NAME_None`, `OnOpened`), the
function name is not `NAME_None` and resolves on the owner 7, and yet the object that
`GetOrCreateTimelineObject` creates has no listener (7, `OnOpened`) in the channel of that
track, because `BindEventTrackFunction` returns at once for a track name `NAME_None`. -/
theorem unnamed_track_listener_counterexample :
    FindTimelineObject [] (some 7) "Door" = none ∧
    FirstTimelineObjectBinding unnamedTrackClass.DynamicBindingObjects =
      some ⟨[⟨"Door", "None", "None", [(NAME_None, "OnOpened")]⟩]⟩ ∧
    FindBindingEntry [⟨"Door", "None", "None", [(NAME_None, "OnOpened")]⟩] "Door" =
      some ⟨"Door", "None", "None", [(NAME_None, "OnOpened")]⟩ ∧
    ("OnOpened" : FName) ≠ NAME_None ∧
    ∃ tl, (GetOrCreateTimelineObject (fun _ _ => true) (fun _ => some unnamedTrackClass) []
        (some 7) "Door" "None" "None").1[0]? = some tl ∧
      (tl.EventTrackListeners NAME_None).count ⟨7, "OnOpened"⟩ = 0 :=
  ⟨rfl, rfl, rfl, by decide, _, rfl, by decide⟩

/-- C24 (declared event-track listeners are bound at creation), amended: when
`GetOrCreateTimelineObject` creates a new object for (owner, name), then for every
(track name, function name) pair of the binding entry declared for `name` on the owner's
class whose track name and function name are both not `NAME_None` and whose function
exists on the owner, the listener (owner, function) is in that track's channel exactly once
when the call returns, whatever Update and Finished function names were passed
(`NAME_None` included). -/
theorem declared_event_listeners_bound (Fn : UObject → FName → Bool)
    (GetBPGC : UObject → Option UBlueprintGeneratedClass) (W : World) (o : UObject)
    (name upd fin : FName) (cls : UBlueprintGeneratedClass) (b : UTimelineObjectBinding)
    (Entry : FTimelineObjectBindingEntry) (track fn : FName)
    (hnew : FindTimelineObject W (some o) name = none)
    (hcls : GetBPGC o = some cls)
    (hb : FirstTimelineObjectBinding cls.DynamicBindingObjects = some b)
    (he : FindBindingEntry b.TimelineBindings name = some Entry)
    (hp : (track, fn) ∈ Entry.EventTrackFunctionNames)
    (hfn : fn ≠ NAME_None) (htrack : track ≠ NAME_None) (hex : Fn o fn = true) :
    (GetOrCreateTimelineObject Fn GetBPGC W (some o) name upd fin).2 = some W.length ∧
    ∃ tl, (GetOrCreateTimelineObject Fn GetBPGC W (some o) name upd fin).1[W.length]? =
        some tl ∧
      (tl.EventTrackListeners track).Broadcast.count ⟨o, fn⟩ = 1 := by
  rw [GetOrCreateTimelineObject_new Fn GetBPGC W o name upd fin hnew]
  refine ⟨rfl, TriggerAutoPlay (BindCreated Fn GetBPGC o (CreateInitialized GetBPGC o name)
    name upd fin), by simp, ?_⟩
  have hf := created_facts Fn GetBPGC o name upd fin
  have hsb := SameBindings_TriggerAutoPlay
    (BindCreated Fn GetBPGC o (CreateInitialized GetBPGC o name) name upd fin)
  have hbc : BindCreated Fn GetBPGC o (CreateInitialized GetBPGC o name) name upd fin =
      BindDeclaredEventTracks Fn o
        (BindUpdateAndFinished Fn o (CreateInitialized GetBPGC o name) upd fin)
        Entry.EventTrackFunctionNames := by
    simp only [BindCreated, hcls, hb, he]
  have hmem : (⟨o, fn⟩ : FScriptDelegate) ∈
      (BindCreated Fn GetBPGC o (CreateInitialized GetBPGC o name) name upd
        fin).EventTrackListeners track := by
    rw [hbc]
    exact BindDeclaredEventTracks_binds Fn o track fn hfn htrack hex _ _
      (UniqueBindings_BindUpdateAndFinished Fn o _ upd fin
        (UniqueBindings_CreateInitialized GetBPGC o name))
      (TrackingSound_BindUpdateAndFinished Fn o _ upd fin
        (TrackingSound_CreateInitialized GetBPGC o name)) hp
  have hmem2 : (⟨o, fn⟩ : FScriptDelegate) ∈
      (TriggerAutoPlay (BindCreated Fn GetBPGC o (CreateInitialized GetBPGC o name) name upd
        fin)).EventTrackListeners track := by
    simp only [EventTrackListeners, hsb.eventTrack]
    exact hmem
  exact List.count_eq_one_of_mem (nodup_listeners _ track hf.2.2.1.eventTrack) hmem2

theorem declared_event_listeners_bound_witness :
    ∃ tl, (GetOrCreateTimelineObject (fun _ _ => true) doorGetBPGC [] (some 7) "Door" "None"
        "None").1[0]? = some tl ∧
      (tl.EventTrackListeners "Opened").Broadcast.count ⟨7, "OnOpened"⟩ = 1 :=
  (declared_event_listeners_bound (fun _ _ => true) doorGetBPGC [] 7 "Door" "None" "None"
    doorClass ⟨[⟨"Door", "None", "None", [("Opened", "OnOpened")]⟩]⟩
    ⟨"Door", "None", "None", [("Opened", "OnOpened")]⟩ "Opened" "OnOpened" rfl rfl rfl rfl
    (List.mem_singleton_self _) (by decide) (by decide) rfl).2

end UTimelineObject

/-! ## Further claims on the crossing detector -/

namespace UTimelineObject

theorem CheckKeys_no_crossing (rev : Bool) (last cur : ℚ)
    (D : TMap FName FMulticastScriptDelegate) (n : FName) (keys : List FRichCurveKey)
    (h : ∀ k ∈ keys, ShouldFire rev last cur k.Time = false) :
    CheckKeys rev last cur D n keys = [] := by
  rw [CheckKeys_eq]
  have h1 : ¬ keys.any (fun k => ShouldFire rev last cur k.Time) = true := by
    intro hh
    obtain ⟨k, hk, hf⟩ := List.any_eq_true.1 hh
    rw [h k hk] at hf
    exact Bool.false_ne_true hf
  rw [if_neg h1]

theorem ShouldFire_non_advancing (rev : Bool) (p0 p1 t : ℚ)
    (h : if rev = true then p0 ≤ p1 else p1 ≤ p0) : ShouldFire rev p0 p1 t = false := by
  cases rev with
  | false =>
    simp only [Bool.false_eq_true, if_false] at h
    simp only [ShouldFire, Bool.false_eq_true, if_false, Bool.and_eq_false_imp,
      decide_eq_true_eq, decide_eq_false_iff_not, not_le]
    intro h1
    exact lt_of_le_of_lt h h1
  | true =>
    simp only [if_true] at h
    simp only [ShouldFire, if_true, Bool.and_eq_false_imp, decide_eq_true_eq,
      decide_eq_false_iff_not, ge_iff_le, not_le]
    intro h1
    exact lt_of_lt_of_le h1 h

/-- C25 (no firing on non-advancing steps): for an event track with curve `c` (any key
list) whose stored last position `p0` is baselined (`p0 ≥ 0`), an evaluation of
`CheckEventTracks` in the forward direction with the cursor `p1 ≤ p0`, and an evaluation in
the backward direction with the cursor `p1 ≥ p0`, broadcast nothing on the track, whatever
keys lie between `p0` and the end or between the start and `p1`; the cursor is stored as
the track's last position. -/
theorem no_firing_on_non_advancing_step (s : UTimelineObject) (n : FName) (c : UCurveFloat)
    (p0 p1 : ℚ) (hnd : (s.EventTrackCurves.map Prod.fst).Nodup)
    (hc : s.EventTrackCurves.Find n = some (some c))
    (hlast : s.LastEventTrackPositions.Find n = some p0) (hp0 : 0 ≤ p0)
    (hp1 : s.GetPlaybackPosition = p1)
    (hstep : if s.IsReversing = true then p0 ≤ p1 else p1 ≤ p0) :
    Notification.EventTrack n ∉ (CheckEventTracks s).2 ∧
    (CheckEventTracks s).1.LastEventTrackPositions.Find n = some p1 := by
  have h := CheckEventTracks_track s n c hnd hc
  refine ⟨?_, by rw [h.1, hp1]⟩
  rw [← List.count_pos_iff, h.2, hlast, hp1]
  simp only [TrackBroadcasts, Option.getD_some, not_lt.2 hp0, if_false]
  rw [CheckKeys_no_crossing _ _ _ _ _ _
    (fun k _ => ShouldFire_non_advancing s.IsReversing p0 p1 k.Time hstep)]
  simp

theorem no_firing_on_non_advancing_step_witness :
    (Notification.EventTrack "Opened" ∉
        (CheckEventTracks ((doorBaselined threeKeyCurve 4 false).WithCursor (1 / 2))).2 ∧
      (CheckEventTracks ((doorBaselined threeKeyCurve 4 false).WithCursor
        (1 / 2))).1.LastEventTrackPositions.Find "Opened" = some (1 / 2)) ∧
    (Notification.EventTrack "Opened" ∉
        (CheckEventTracks ((doorBaselined threeKeyCurve (1 / 2) true).WithCursor 4)).2 ∧
      (CheckEventTracks ((doorBaselined threeKeyCurve (1 / 2) true).WithCursor
        4)).1.LastEventTrackPositions.Find "Opened" = some 4) :=
  ⟨no_firing_on_non_advancing_step ((doorBaselined threeKeyCurve 4 false).WithCursor (1 / 2))
      "Opened" threeKeyCurve 4 (1 / 2) (by decide) rfl rfl (by norm_num) rfl
      (by
        rw [if_neg (by decide)]
        norm_num),
    no_firing_on_non_advancing_step ((doorBaselined threeKeyCurve (1 / 2) true).WithCursor 4)
      "Opened" threeKeyCurve (1 / 2) 4 (by decide) rfl rfl (by norm_num) rfl
      (by
        rw [if_pos (by decide)]
        norm_num)⟩

/-- C26 (any negative stored position acts as the unset sentinel): for an event track with
a curve whose stored last position is any `p < 0`, an evaluation of `CheckEventTracks`
broadcasts nothing on the track, whatever the direction, the cursor position and the key
times, and stores the cursor position as the track's last position. -/
theorem negative_position_is_sentinel (s : UTimelineObject) (n : FName) (c : UCurveFloat)
    (p : ℚ) (hnd : (s.EventTrackCurves.map Prod.fst).Nodup)
    (hc : s.EventTrackCurves.Find n = some (some c))
    (hlast : s.LastEventTrackPositions.Find n = some p) (hp : p < 0) :
    Notification.EventTrack n ∉ (CheckEventTracks s).2 ∧
    (CheckEventTracks s).1.LastEventTrackPositions.Find n = some s.GetPlaybackPosition := by
  have h := CheckEventTracks_track s n c hnd hc
  refine ⟨?_, h.1⟩
  rw [← List.count_pos_iff, h.2, hlast]
  simp [TrackBroadcasts, hp]

theorem negative_position_is_sentinel_witness :
    Notification.EventTrack "Opened" ∉
      (CheckEventTracks (((CheckEventTracks ((doorRegistered threeKeyCurve).WithCursor
        0)).1.WithCursor 2).WithLastPosition "Opened" (-5 / 2))).2 ∧
    (CheckEventTracks (((CheckEventTracks ((doorRegistered threeKeyCurve).WithCursor
        0)).1.WithCursor 2).WithLastPosition "Opened"
          (-5 / 2))).1.LastEventTrackPositions.Find "Opened" = some 2 :=
  negative_position_is_sentinel
    (((CheckEventTracks ((doorRegistered threeKeyCurve).WithCursor 0)).1.WithCursor
      2).WithLastPosition "Opened" (-5 / 2))
    "Opened" threeKeyCurve (-5 / 2) (by decide) rfl rfl (by norm_num)

end UTimelineObject

/-! ## Further claims on the bindings -/

namespace FMulticastScriptDelegate

theorem count_AddUnique_fresh (d : FMulticastScriptDelegate) (x : FScriptDelegate)
    (h : x ∉ d) : (d.AddUnique x).count x = 1 := by
  unfold AddUnique
  rw [if_neg h, List.count_append, List.count_eq_zero.2 h]
  simp

theorem not_mem_RemoveAll (d : FMulticastScriptDelegate) (T : UObject) (F : FName) :
    (⟨T, F⟩ : FScriptDelegate) ∉ d.RemoveAll T := by
  unfold RemoveAll
  intro h
  have h1 := (List.mem_filter.1 h).2
  simp at h1

end FMulticastScriptDelegate

namespace UTimelineObject

/-- A bind that directly follows `RemoveAllDelegatesForObject` for the same target is not
blocked: on each channel the listener is bound exactly once afterwards. -/
theorem bind_after_RemoveAll (Fn : UObject → FName → Bool) (a : UTimelineObject) (n : FName)
    (T : UObject) (F : FName) (hF : F ≠ NAME_None) (hn : n ≠ NAME_None) (hfn : Fn T F = true) :
    ((a.RemoveAllDelegatesForObject (some T)).BindUpdateFunction Fn (some T)
      F).OnTimelineUpdate.count ⟨T, F⟩ = 1 ∧
    ((a.RemoveAllDelegatesForObject (some T)).BindFinishedFunction Fn (some T)
      F).OnTimelineFinished.count ⟨T, F⟩ = 1 ∧
    (((a.RemoveAllDelegatesForObject (some T)).BindEventTrackFunction Fn n (some T)
      F).EventTrackListeners n).count ⟨T, F⟩ = 1 := by
  have hk : ∀ l : TSet FBindingKey, (T, F) ∉ l.filter (fun It => decide (It.1 ≠ T)) := by
    intro l h
    have h1 := (List.mem_filter.1 h).2
    simp at h1
  refine ⟨?_, ?_, ?_⟩
  · rw [BindUpdateFunction_fresh Fn _ T F hF hfn (hk a.BoundUpdateFunctions)]
    exact FMulticastScriptDelegate.count_AddUnique_fresh _ _
      (FMulticastScriptDelegate.not_mem_RemoveAll a.OnTimelineUpdate T F)
  · rw [BindFinishedFunction_fresh Fn _ T F hF hfn (hk a.BoundFinishedFunctions)]
    exact FMulticastScriptDelegate.count_AddUnique_fresh _ _
      (FMulticastScriptDelegate.not_mem_RemoveAll a.OnTimelineFinished T F)
  · have hb : (T, F) ∉ (a.RemoveAllDelegatesForObject (some T)).EventTrackBound n := by
      rw [EventTrackBound_RemoveAll]
      exact hk _
    rw [BindEventTrackFunction_fresh Fn _ n T F hF hn hfn hb]
    simp only [EventTrackListeners, TMap.Find_Add_self, Option.getD_some]
    apply FMulticastScriptDelegate.count_AddUnique_fresh
    have h2 := EventTrackListeners_RemoveAll a T n
    simp only [EventTrackListeners] at h2
    rw [h2]
    exact FMulticastScriptDelegate.not_mem_RemoveAll _ T F

/-- C27 (rebinding after unbind-all works): on each channel (Update, Finished, an event
track `n`), for every state, target `T` and function `F` existing on `T`, after the
sequence bind(T, F); `RemoveAllDelegatesForObject(T)`; bind(T, F) the listener `(T, F)` is
bound in the channel exactly once: after the removal the key `(T, F)` is in no tracking set
of the channel, so the record of the first bind does not block the later bind. -/
theorem rebind_after_unbind_all (Fn : UObject → FName → Bool) (s : UTimelineObject)
    (n : FName) (T : UObject) (F : FName) (hF : F ≠ NAME_None) (hn : n ≠ NAME_None)
    (hfn : Fn T F = true) :
    ((T, F) ∉ ((s.BindUpdateFunction Fn (some T) F).RemoveAllDelegatesForObject
        (some T)).BoundUpdateFunctions ∧
      (((s.BindUpdateFunction Fn (some T) F).RemoveAllDelegatesForObject
        (some T)).BindUpdateFunction Fn (some T) F).OnTimelineUpdate.Broadcast.count
          ⟨T, F⟩ = 1) ∧
    ((T, F) ∉ ((s.BindFinishedFunction Fn (some T) F).RemoveAllDelegatesForObject
        (some T)).BoundFinishedFunctions ∧
      (((s.BindFinishedFunction Fn (some T) F).RemoveAllDelegatesForObject
        (some T)).BindFinishedFunction Fn (some T) F).OnTimelineFinished.Broadcast.count
          ⟨T, F⟩ = 1) ∧
    ((T, F) ∉ ((s.BindEventTrackFunction Fn n (some T) F).RemoveAllDelegatesForObject
        (some T)).EventTrackBound n ∧
      ((((s.BindEventTrackFunction Fn n (some T) F).RemoveAllDelegatesForObject
        (some T)).BindEventTrackFunction Fn n (some T) F).EventTrackListeners
          n).Broadcast.count ⟨T, F⟩ = 1) := by
  have hk : ∀ l : TSet FBindingKey, (T, F) ∉ l.filter (fun It => decide (It.1 ≠ T)) := by
    intro l h
    have h1 := (List.mem_filter.1 h).2
    simp at h1
  refine ⟨⟨hk _, (bind_after_RemoveAll Fn _ n T F hF hn hfn).1⟩,
    ⟨hk _, (bind_after_RemoveAll Fn _ n T F hF hn hfn).2.1⟩, ?_,
    (bind_after_RemoveAll Fn _ n T F hF hn hfn).2.2⟩
  rw [EventTrackBound_RemoveAll]
  exact hk _

theorem rebind_after_unbind_all_witness :
    (((doorBound.BindUpdateFunction (fun _ _ => true) (some 7)
        "OnTick").RemoveAllDelegatesForObject (some 7)).BindUpdateFunction (fun _ _ => true)
          (some 7) "OnTick").OnTimelineUpdate = [⟨7, "OnTick"⟩] ∧
    (((doorBound.BindUpdateFunction (fun _ _ => true) (some 7)
        "OnTick").RemoveAllDelegatesForObject (some 7)).BindUpdateFunction (fun _ _ => true)
          (some 7) "OnTick").OnTimelineUpdate.Broadcast.count ⟨7, "OnTick"⟩ = 1 ∧
    ((((doorBound.BindEventTrackFunction (fun _ _ => true) "Opened" (some 7)
        "OnTick").RemoveAllDelegatesForObject (some 7)).BindEventTrackFunction
          (fun _ _ => true) "Opened" (some 7) "OnTick").EventTrackListeners
            "Opened").Broadcast.count ⟨7, "OnTick"⟩ = 1 :=
  have h := rebind_after_unbind_all (fun _ _ => true) doorBound "Opened" 7 "OnTick"
    (by decide) (by decide) rfl
  ⟨by decide, h.1.2, h.2.2.2⟩

end UTimelineObject

namespace World

/-- C28 (tracking sets never run ahead of the listener lists): starting from new timeline
objects, after every sequence of `BindUpdateFunction`, `BindFinishedFunction`,
`BindEventTrackFunction`, `BindDynamicDelegates` and `RemoveAllDelegatesForObject` calls,
every (target, function) key recorded in the Update tracking set, in the Finished tracking
set or in the tracking set of an event track of any of the objects has its listener in the
listener list of that same channel. -/
theorem tracking_sets_have_listeners (Fn : UObject → FName → Bool)
    (ids : List (UObject × FName)) (ops : List BindingOp) (tl : UTimelineObject)
    (htl : tl ∈ World.runOps Fn (ids.map (fun p => UTimelineObject.new p.1 p.2)) ops) :
    (∀ k ∈ tl.BoundUpdateFunctions, (⟨k.1, k.2⟩ : FScriptDelegate) ∈ tl.OnTimelineUpdate) ∧
    (∀ k ∈ tl.BoundFinishedFunctions,
      (⟨k.1, k.2⟩ : FScriptDelegate) ∈ tl.OnTimelineFinished) ∧
    (∀ p ∈ tl.BoundEventTrackFunctions, ∀ k ∈ p.2,
      (⟨k.1, k.2⟩ : FScriptDelegate) ∈ tl.EventTrackListeners p.1) ∧
    ∀ n, ∀ k ∈ tl.EventTrackBound n,
      (⟨k.1, k.2⟩ : FScriptDelegate) ∈ tl.EventTrackListeners n := by
  have h : tl.TrackingSound := by
    refine TrackingSound_runOps Fn ops _ ?_ tl htl
    intro y hy
    obtain ⟨p, _, rfl⟩ := List.mem_map.1 hy
    exact UTimelineObject.TrackingSound_new _ _
  refine ⟨h.update, h.finished, h.eventTrack, ?_⟩
  intro n k hk
  unfold UTimelineObject.EventTrackBound at hk
  cases hf : tl.BoundEventTrackFunctions.Find n with
  | none => simp [hf] at hk
  | some v =>
    rw [hf] at hk
    exact h.eventTrack (n, v) (TMap.mem_of_Find _ _ _ hf) k hk

theorem tracking_sets_have_listeners_witness :
    doorTracked.BoundUpdateFunctions = [(7, "OnTick")] ∧
    doorTracked.EventTrackBound "Opened" = [(7, "OnOpened")] ∧
    (∀ k ∈ doorTracked.BoundUpdateFunctions,
      (⟨k.1, k.2⟩ : FScriptDelegate) ∈ doorTracked.OnTimelineUpdate) ∧
    ∀ n, ∀ k ∈ doorTracked.EventTrackBound n,
      (⟨k.1, k.2⟩ : FScriptDelegate) ∈ doorTracked.EventTrackListeners n :=
  have h := tracking_sets_have_listeners (fun _ _ => true) [(7, "TimelineObj_Door")]
    doorTrackedOps doorTracked
    (show doorTracked ∈ [doorTracked] from List.mem_singleton_self _)
  ⟨rfl, rfl, h.1, h.2.2.2⟩

end World

/-! ## Set-curve operations -/

namespace FTimeline

theorem SetFloatCurve_playback (t : FTimeline) (C : Option UCurveFloat) (n : FName) :
    (t.SetFloatCurve C n).Position = t.Position ∧
    (t.SetFloatCurve C n).bPlaying = t.bPlaying ∧
    (t.SetFloatCurve C n).bReversePlayback = t.bReversePlayback := by
  unfold SetFloatCurve
  split <;> exact ⟨rfl, rfl, rfl⟩

theorem SetVectorCurve_playback (t : FTimeline) (C : Option UCurveVector) (n : FName) :
    (t.SetVectorCurve C n).Position = t.Position ∧
    (t.SetVectorCurve C n).bPlaying = t.bPlaying ∧
    (t.SetVectorCurve C n).bReversePlayback = t.bReversePlayback := by
  unfold SetVectorCurve
  split <;> exact ⟨rfl, rfl, rfl⟩

theorem SetLinearColorCurve_playback (t : FTimeline) (C : Option UCurveLinearColor)
    (n : FName) :
    (t.SetLinearColorCurve C n).Position = t.Position ∧
    (t.SetLinearColorCurve C n).bPlaying = t.bPlaying ∧
    (t.SetLinearColorCurve C n).bReversePlayback = t.bReversePlayback := by
  unfold SetLinearColorCurve
  split <;> exact ⟨rfl, rfl, rfl⟩

end FTimeline

namespace UTimelineObject

/-- Replacing the timeline of the object by one with the same cursor, playing flag and
direction changes neither the track maps, nor the detector positions, nor what the track
getters return, nor the broadcasts of the update callback, nor the detector positions the
callback leaves. -/
theorem WithTimeline_keeps_notifications (s : UTimelineObject) (T : FTimeline)
    (h : T.Position = s.TheTimeline.Position ∧ T.bPlaying = s.TheTimeline.bPlaying ∧
      T.bReversePlayback = s.TheTimeline.bReversePlayback) :
    (s.WithTimeline T).KeepsNotifications s := by
  obtain ⟨h1, h2, h3⟩ := h
  have hp : (s.WithTimeline T).GetPlaybackPosition = s.GetPlaybackPosition := h1
  have hr : (s.WithTimeline T).IsReversing = s.IsReversing := by
    simp only [IsReversing, FTimeline.IsReversing, WithTimeline, h2, h3]
  refine ⟨rfl, rfl, rfl, rfl, rfl, fun _ => rfl, fun _ => rfl, fun _ => rfl, ?_, ?_⟩
  · simp only [Internal_OnTimelineUpdate, CheckEventTracks, hp, hr]
    rfl
  · simp only [Internal_OnTimelineUpdate, CheckEventTracks, hp, hr]
    rfl

/-- C29 (set-curve operations do not touch the notification track maps): for every object
state, curve `C` and track name, `SetFloatCurve`, `SetVectorCurve` and
`SetLinearColorCurve` leave the four name-to-curve maps of the object and the detector
positions unchanged; afterwards `GetFloatTrackCurve`, `GetVectorTrackCurve` and
`GetLinearColorTrackCurve` return for every name the curve they returned before, and the
update callback broadcasts the same notifications (the per-track value notifications carry
the value of the curve of the map) and leaves the same detector positions. -/
theorem set_curve_keeps_track_maps (s : UTimelineObject) (Cf : Option UCurveFloat)
    (Cv : Option UCurveVector) (Cc : Option UCurveLinearColor) (name : FName) :
    (s.SetFloatCurve Cf name).KeepsNotifications s ∧
    (s.SetVectorCurve Cv name).KeepsNotifications s ∧
    (s.SetLinearColorCurve Cc name).KeepsNotifications s :=
  ⟨WithTimeline_keeps_notifications s _ (FTimeline.SetFloatCurve_playback _ Cf name),
    WithTimeline_keeps_notifications s _ (FTimeline.SetVectorCurve_playback _ Cv name),
    WithTimeline_keeps_notifications s _ (FTimeline.SetLinearColorCurve_playback _ Cc name)⟩

/-- On the object initialised from `sprintTemplate`, replacing the curve of the float track
`Speed` by a constant curve changes the curve of the timeline's own track, and yet
`GetFloatTrackCurve` still returns the curve of the template and the value notification of
`Speed` still carries its value at the cursor. -/
theorem set_curve_on_sprint :
    (sprintNearEnd.SetFloatCurve (some ⟨⟨[], fun _ => 5⟩⟩) "Speed").TheTimeline.InterpFloats.map
      (fun p => p.2.map (fun c => c.GetFloatValue (9 / 10))) = [some 5] ∧
    ((sprintNearEnd.SetFloatCurve (some ⟨⟨[], fun _ => 5⟩⟩) "Speed").GetFloatTrackCurve
      "Speed").map (fun c => c.GetFloatValue (9 / 10)) = some (9 / 10) ∧
    (Internal_OnTimelineUpdate
      (sprintNearEnd.SetFloatCurve (some ⟨⟨[], fun _ => 5⟩⟩) "Speed")).2 =
      [Notification.FloatTrack "Speed" (9 / 10), Notification.TimelineUpdate] := by
  refine ⟨by decide!, by decide!, by decide!⟩

end UTimelineObject

/-! ## Lookup and creation -/

theorem UniqueObjectName_injective (n1 n2 : FName)
    (h : UniqueObjectName n1 = UniqueObjectName n2) : n1 = n2 := by
  unfold UniqueObjectName at h
  have h1 := congrArg String.data h
  simp only [String.data_append] at h1
  exact String.ext (List.append_cancel_left h1)

namespace UTimelineObject

/-- C30 (lookup and creation agree on the instance key): for every owner that is not null
and every timeline name, after `GetOrCreateTimelineObject(owner, name)` has returned the
object at index `i`, `FindTimelineObject(owner, name)` returns the object at index `i`
(both derive the object name `TimelineObj_<name>`); for two different timeline names the
derived object names differ, and in every world the lookups of two different names on the
same owner never return the same object. -/
theorem lookup_agrees_with_creation (Fn : UObject → FName → Bool)
    (GetBPGC : UObject → Option UBlueprintGeneratedClass) (W : World) (o : UObject)
    (name upd fin : FName) :
    (∃ i, (GetOrCreateTimelineObject Fn GetBPGC W (some o) name upd fin).2 = some i ∧
      FindTimelineObject (GetOrCreateTimelineObject Fn GetBPGC W (some o) name upd fin).1
        (some o) name = some i) ∧
    (∀ name2, name ≠ name2 → UniqueObjectName name ≠ UniqueObjectName name2) ∧
    ∀ (W1 : World) (name2 : FName) (i j : Nat), name ≠ name2 →
      FindTimelineObject W1 (some o) name = some i →
      FindTimelineObject W1 (some o) name2 = some j → i ≠ j := by
  refine ⟨?_, fun name2 hne h => hne (UniqueObjectName_injective _ _ h), ?_⟩
  · cases hfind : FindTimelineObject W (some o) name with
    | some i =>
      rw [GetOrCreateTimelineObject_existing Fn GetBPGC W o name upd fin i hfind]
      refine ⟨i, rfl, ?_⟩
      rw [← hfind]
      exact World.FindTimelineObject_modifyAt _
        (fun x => ⟨(SameCore_BindUpdateAndFinished Fn o x upd fin).outer,
          (SameCore_BindUpdateAndFinished Fn o x upd fin).objectName⟩) W i (some o) name
    | none =>
      rw [GetOrCreateTimelineObject_new Fn GetBPGC W o name upd fin hfind]
      have hf := created_facts Fn GetBPGC o name upd fin
      exact ⟨W.length, rfl, World.FindTimelineObject_append_new W o name _ hfind hf.1 hf.2.1⟩
  · intro W1 name2 i j hne h1 h2 hij
    obtain ⟨t1, ht1, _, _, hn1⟩ := World.FindTimelineObject_get W1 o name i h1
    obtain ⟨t2, ht2, _, _, hn2⟩ := World.FindTimelineObject_get W1 o name2 j h2
    rw [hij, ht2] at ht1
    have e : t2 = t1 := Option.some.inj ht1
    rw [e, hn1] at hn2
    exact hne (UniqueObjectName_injective _ _ hn2)

theorem lookup_agrees_with_creation_witness :
    (GetOrCreateTimelineObject (fun _ _ => true) doorGetBPGC [doorCreated] (some 7) "Gate"
      "None" "None").2 = some 1 ∧
    FindTimelineObject (GetOrCreateTimelineObject (fun _ _ => true) doorGetBPGC [doorCreated]
      (some 7) "Gate" "None" "None").1 (some 7) "Gate" = some 1 ∧
    FindTimelineObject (GetOrCreateTimelineObject (fun _ _ => true) doorGetBPGC [doorCreated]
      (some 7) "Gate" "None" "None").1 (some 7) "Door" = some 0 ∧
    UniqueObjectName "Gate" ≠ UniqueObjectName "Door" :=
  have h := lookup_agrees_with_creation (fun _ _ => true) doorGetBPGC [doorCreated] 7 "Gate"
    "None" "None"
  match h.1 with
  | ⟨i, h1, h2⟩ =>
    have e : i = 1 := (Option.some.inj h1).symm
    ⟨rfl, e ▸ h2, rfl, h.2.1 "Door" (by decide)⟩

end UTimelineObject

/-! ## Replicated position -/

namespace UTimelineObject

/-- Setting the playback position with `bFireUpdate` set, on an object whose update
callback is the constructor's: the cursor is put on the position clamped into
`[0, length]` and the update callback runs there. -/
theorem SetPlaybackPosition_update (s : UTimelineObject) (p : ℚ) (b : Bool)
    (hcb : s.ConstructorCallbacks) :
    s.SetPlaybackPosition p b true =
      Internal_OnTimelineUpdate
        (s.WithCursor (max 0 (min p s.TheTimeline.GetTimelineLength))) := by
  have e1 : (s.TheTimeline.SetPosition p).TimelinePostUpdateFunc =
      FOnTimelineEvent.Internal_OnTimelineUpdate := hcb.1
  simp only [SetPlaybackPosition, if_true, e1, ExecuteIfBound]
  rfl

theorem Internal_OnTimelineUpdate_count_update (s : UTimelineObject) :
    (Internal_OnTimelineUpdate s).2.count Notification.TimelineUpdate = 1 ∧
    (Internal_OnTimelineUpdate s).2.count Notification.TimelineFinished = 0 := by
  obtain ⟨pre, hpre, hshape⟩ := (Internal_OnTimelineUpdate_shape s).2
  have hc1 : pre.count Notification.TimelineUpdate = 0 :=
    List.count_eq_zero.2 (fun h => (hpre _ h).1 rfl)
  have hc2 : pre.count Notification.TimelineFinished = 0 :=
    List.count_eq_zero.2 (fun h => (hpre _ h).2 rfl)
  rw [hshape, List.count_append, List.count_append, hc1, hc2]
  simp [List.count_cons]

/-- C19 (replicated position policy): for an object whose timeline callbacks are the
constructor's, `OnRep_Timeline` broadcasts the Update channel if and only if the object is
not playing and the position it now holds differs from the old one. In that case it is the
call `SetPlaybackPosition(position, bFireEvents = false, bFireUpdate = true)`: the cursor is
the position it holds clamped into `[0, length]` (the position itself when it lies in that
range), the broadcasts are those of the update callback run at that cursor, with the Update
channel broadcast exactly once and the Finished channel not at all, and the object stays
not playing. When the object is playing, or the position is unchanged, the object is left
as it is and nothing is broadcast. -/
theorem replicated_position_policy (s : UTimelineObject) (OldTimeline : FTimeline)
    (hcb : s.ConstructorCallbacks) :
    (Notification.TimelineUpdate ∈ (s.OnRep_Timeline OldTimeline).2 ↔
      (s.IsPlaying = false ∧ OldTimeline.GetPlaybackPosition ≠ s.GetPlaybackPosition)) ∧
    (s.IsPlaying = false ∧ OldTimeline.GetPlaybackPosition ≠ s.GetPlaybackPosition →
      s.OnRep_Timeline OldTimeline = s.SetPlaybackPosition s.GetPlaybackPosition false true ∧
      (s.OnRep_Timeline OldTimeline).1.GetPlaybackPosition =
        max 0 (min s.GetPlaybackPosition s.TheTimeline.GetTimelineLength) ∧
      (0 ≤ s.GetPlaybackPosition → s.GetPlaybackPosition ≤ s.TheTimeline.GetTimelineLength →
        (s.OnRep_Timeline OldTimeline).1.GetPlaybackPosition = s.GetPlaybackPosition) ∧
      (s.OnRep_Timeline OldTimeline).2 =
        (Internal_OnTimelineUpdate (s.WithCursor
          (max 0 (min s.GetPlaybackPosition s.TheTimeline.GetTimelineLength)))).2 ∧
      (s.OnRep_Timeline OldTimeline).2.count Notification.TimelineUpdate = 1 ∧
      (s.OnRep_Timeline OldTimeline).2.count Notification.TimelineFinished = 0 ∧
      (s.OnRep_Timeline OldTimeline).1.IsPlaying = false) ∧
    (s.IsPlaying = true ∨ OldTimeline.GetPlaybackPosition = s.GetPlaybackPosition →
      s.OnRep_Timeline OldTimeline = (s, [])) := by
  have happly : s.IsPlaying = false ∧
      OldTimeline.GetPlaybackPosition ≠ s.GetPlaybackPosition →
      s.OnRep_Timeline OldTimeline =
        s.SetPlaybackPosition s.GetPlaybackPosition false true := by
    rintro ⟨h1, h2⟩
    have h1' : s.TheTimeline.IsPlaying = false := h1
    have h2' : OldTimeline.GetPlaybackPosition ≠ s.TheTimeline.GetPlaybackPosition := h2
    simp only [OnRep_Timeline, h1']
    rw [if_pos ⟨by simp, h2'⟩]
    rfl
  have hskip : s.IsPlaying = true ∨ OldTimeline.GetPlaybackPosition = s.GetPlaybackPosition →
      s.OnRep_Timeline OldTimeline = (s, []) := by
    intro h
    simp only [OnRep_Timeline]
    rw [if_neg]
    rintro ⟨h1, h2⟩
    rcases h with h | h
    · have h' : s.TheTimeline.IsPlaying = true := h
      rw [h'] at h1
      simp at h1
    · exact h2 h
  have hupd := SetPlaybackPosition_update s s.GetPlaybackPosition false hcb
  have hcount := Internal_OnTimelineUpdate_count_update
    (s.WithCursor (max 0 (min s.GetPlaybackPosition s.TheTimeline.GetTimelineLength)))
  refine ⟨?_, ?_, hskip⟩
  · constructor
    · intro hmem
      by_contra hno
      have hor : s.IsPlaying = true ∨
          OldTimeline.GetPlaybackPosition = s.GetPlaybackPosition := by
        by_cases hp : s.IsPlaying = true
        · exact Or.inl hp
        · right
          by_contra hne
          exact hno ⟨by simpa using hp, hne⟩
      rw [hskip hor] at hmem
      simp at hmem
    · intro h
      rw [happly h, hupd]
      exact List.count_pos_iff.1 (by rw [hcount.1]; exact Nat.one_pos)
  · intro h
    have hp : s.TheTimeline.bPlaying = false := h.1
    refine ⟨happly h, ?_, ?_, ?_, ?_, ?_, ?_⟩
    · rw [happly h, hupd]
      rfl
    · intro h0 h1
      rw [happly h, hupd]
      show max 0 (min s.GetPlaybackPosition s.TheTimeline.GetTimelineLength) =
        s.GetPlaybackPosition
      rw [min_eq_left h1, max_eq_right h0]
    · rw [happly h, hupd]
    · rw [happly h, hupd]
      exact hcount.1
    · rw [happly h, hupd]
      exact hcount.2
    · rw [happly h, hupd]
      exact hp

theorem replicated_position_policy_witness :
    ((doorSnapped.WithCursor 3).OnRep_Timeline { Position := 0 }).2 =
      [Notification.EventTrack "Opened", Notification.TimelineUpdate] ∧
    ((doorSnapped.WithCursor 3).OnRep_Timeline { Position := 0 }).2.count
      Notification.TimelineUpdate = 1 ∧
    ((doorSnapped.WithCursor 3).OnRep_Timeline { Position := 0 }).1.GetPlaybackPosition = 3 ∧
    (doorSnapped.WithCursor 3).OnRep_Timeline { Position := 3 } =
      (doorSnapped.WithCursor 3, []) ∧
    ((doorSnapped.WithCursor 3).WithDirection false).OnRep_Timeline { Position := 0 } =
      ((doorSnapped.WithCursor 3).WithDirection false, []) :=
  have h := (replicated_position_policy (doorSnapped.WithCursor 3) { Position := 0 }
    ⟨rfl, rfl⟩).2.1 ⟨rfl, by decide⟩
  ⟨by decide!, h.2.2.2.2.1, h.2.2.1 (by decide) (by decide),
    (replicated_position_policy (doorSnapped.WithCursor 3) { Position := 3 } ⟨rfl, rfl⟩).2.2
      (Or.inr rfl),
    (replicated_position_policy ((doorSnapped.WithCursor 3).WithDirection false)
      { Position := 0 } ⟨rfl, rfl⟩).2.2 (Or.inl rfl)⟩

end UTimelineObject

/-! ## Autoplay after binding, and the first tick -/

namespace UTimelineObject

theorem BindEventTrackFunction_finished (Fn : UObject → FName → Bool) (s : UTimelineObject)
    (n : FName) (Target : Option UObject) (F : FName) :
    (s.BindEventTrackFunction Fn n Target F).OnTimelineFinished = s.OnTimelineFinished := by
  cases Target with
  | none => rfl
  | some T =>
    simp only [BindEventTrackFunction]
    repeat' split
    all_goals rfl

theorem BindDeclaredEventTracks_finished (Fn : UObject → FName → Bool) (o : UObject)
    (l : List (FName × FName)) :
    ∀ s : UTimelineObject,
      (BindDeclaredEventTracks Fn o s l).OnTimelineFinished = s.OnTimelineFinished := by
  induction l with
  | nil =>
    intro s
    rfl
  | cons p rest ih =>
    intro s
    simp only [BindDeclaredEventTracks]
    split
    · rw [ih, BindEventTrackFunction_finished]
    · exact ih s

theorem BindUpdateAndFinished_count_finished (Fn : UObject → FName → Bool) (o : UObject)
    (s : UTimelineObject) (upd f : FName) (hu : s.UniqueBindings) (ht : s.TrackingSound)
    (hf : f ≠ NAME_None) (hfn : Fn o f = true) :
    (BindUpdateAndFinished Fn o s upd f).OnTimelineFinished.count ⟨o, f⟩ = 1 := by
  by_cases h1 : upd ≠ NAME_None
  · have e : BindUpdateAndFinished Fn o s upd f =
        (s.BindUpdateFunction Fn (some o) upd).BindFinishedFunction Fn (some o) f := by
      simp only [BindUpdateAndFinished, if_pos h1, if_pos hf]
    rw [e]
    exact (BindFinishedFunction_twice Fn _ o f
      (UniqueBindings_BindUpdateFunction Fn s (some o) upd hu)
      (TrackingSound_BindUpdateFunction Fn s (some o) upd ht) hf hfn).2
  · have e : BindUpdateAndFinished Fn o s upd f = s.BindFinishedFunction Fn (some o) f := by
      simp only [BindUpdateAndFinished, if_neg h1, if_pos hf]
    rw [e]
    exact (BindFinishedFunction_twice Fn s o f hu ht hf hfn).2

/-- The listeners in the object that the binding steps of the creation path leave: the
Update function, the Finished function and every declared event-track function that has a
name, a track name and resolves on the owner is bound exactly once in its channel. -/
theorem BindCreated_listeners (Fn : UObject → FName → Bool)
    (GetBPGC : UObject → Option UBlueprintGeneratedClass) (o : UObject) (s : UTimelineObject)
    (name upd fin : FName) (hu : s.UniqueBindings) (ht : s.TrackingSound) :
    (upd ≠ NAME_None → Fn o upd = true →
      (BindCreated Fn GetBPGC o s name upd fin).OnTimelineUpdate.count ⟨o, upd⟩ = 1) ∧
    (fin ≠ NAME_None → Fn o fin = true →
      (BindCreated Fn GetBPGC o s name upd fin).OnTimelineFinished.count ⟨o, fin⟩ = 1) ∧
    ∀ (cls : UBlueprintGeneratedClass) (b : UTimelineObjectBinding)
      (Entry : FTimelineObjectBindingEntry) (track fn : FName),
      GetBPGC o = some cls →
      FirstTimelineObjectBinding cls.DynamicBindingObjects = some b →
      FindBindingEntry b.TimelineBindings name = some Entry →
      (track, fn) ∈ Entry.EventTrackFunctionNames →
      fn ≠ NAME_None → track ≠ NAME_None → Fn o fn = true →
      ((BindCreated Fn GetBPGC o s name upd fin).EventTrackListeners track).count ⟨o, fn⟩ =
        1 := by
  have h1 := UniqueBindings_BindUpdateAndFinished Fn o s upd fin hu
  have h2 := TrackingSound_BindUpdateAndFinished Fn o s upd fin ht
  have hfinished : (BindCreated Fn GetBPGC o s name upd fin).OnTimelineFinished =
      (BindUpdateAndFinished Fn o s upd fin).OnTimelineFinished := by
    simp only [BindCreated]
    repeat' split
    all_goals first
      | rfl
      | exact BindDeclaredEventTracks_finished Fn o _ _
  refine ⟨?_, ?_, ?_⟩
  · intro hn hex
    rw [(BindCreated_facts Fn GetBPGC o s name upd fin hu ht).2.2]
    exact BindUpdateAndFinished_count_self Fn o s upd fin hu ht hn hex
  · intro hn hex
    rw [hfinished]
    exact BindUpdateAndFinished_count_finished Fn o s upd fin hu ht hn hex
  · intro cls b Entry track fn hcls hb he hp hfn htrack hex
    have hbc : BindCreated Fn GetBPGC o s name upd fin =
        BindDeclaredEventTracks Fn o (BindUpdateAndFinished Fn o s upd fin)
          Entry.EventTrackFunctionNames := by
      simp only [BindCreated, hcls, hb, he]
    have hmem : (⟨o, fn⟩ : FScriptDelegate) ∈
        (BindCreated Fn GetBPGC o s name upd fin).EventTrackListeners track := by
      rw [hbc]
      exact BindDeclaredEventTracks_binds Fn o track fn hfn htrack hex _ _ h1 h2 hp
    exact List.count_eq_one_of_mem
      (nodup_listeners _ track
        (BindCreated_facts Fn GetBPGC o s name upd fin hu ht).1.eventTrack) hmem

/-- C15 (deferred autoplay ordering): `InitializeFromTemplate` never changes the playing
flag and, for a definition with autoplay set, marks the object pending-autoplay. When
`GetOrCreateTimelineObject` creates a new instance from the definition `T`, the object left
by the binding steps (`BindCreated`) holds the Update listener, the Finished listener and
every declared event-track listener (each exactly once, for a function that has a name and
exists on the owner, and a track that has a name) while it is still not playing, pending
exactly when autoplay is set. The object returned is that bound object with `Play()`
applied after the flag is cleared when autoplay is set, and the bound object itself
otherwise: it has the same listeners and tracking sets, hence the same bound listeners, its
pending-autoplay flag is false, and it is playing exactly when autoplay is set. -/
theorem deferred_autoplay_ordering (Fn : UObject → FName → Bool)
    (GetBPGC : UObject → Option UBlueprintGeneratedClass) (W : World) (o : UObject)
    (name upd fin : FName) (cls : UBlueprintGeneratedClass) (T : UTimelineTemplate)
    (hfind : FindTimelineObject W (some o) name = none) (hcls : GetBPGC o = some cls)
    (hT : FindTemplate cls.Timelines name = some T) :
    (∀ s : UTimelineObject, (s.InitializeFromTemplate (some T)).IsPlaying = s.IsPlaying ∧
      (T.bAutoPlay = true → (s.InitializeFromTemplate (some T)).bPendingAutoPlay = true)) ∧
    (BindCreated Fn GetBPGC o (CreateInitialized GetBPGC o name) name upd fin).IsPlaying =
      false ∧
    (BindCreated Fn GetBPGC o (CreateInitialized GetBPGC o name) name upd fin).bPendingAutoPlay =
      T.bAutoPlay ∧
    (upd ≠ NAME_None → Fn o upd = true →
      (BindCreated Fn GetBPGC o (CreateInitialized GetBPGC o name) name upd
        fin).OnTimelineUpdate.count ⟨o, upd⟩ = 1) ∧
    (fin ≠ NAME_None → Fn o fin = true →
      (BindCreated Fn GetBPGC o (CreateInitialized GetBPGC o name) name upd
        fin).OnTimelineFinished.count ⟨o, fin⟩ = 1) ∧
    (∀ (b : UTimelineObjectBinding) (Entry : FTimelineObjectBindingEntry) (track fn : FName),
      FirstTimelineObjectBinding cls.DynamicBindingObjects = some b →
      FindBindingEntry b.TimelineBindings name = some Entry →
      (track, fn) ∈ Entry.EventTrackFunctionNames →
      fn ≠ NAME_None → track ≠ NAME_None → Fn o fn = true →
      ((BindCreated Fn GetBPGC o (CreateInitialized GetBPGC o name) name upd
        fin).EventTrackListeners track).count ⟨o, fn⟩ = 1) ∧
    ∃ tl, GetOrCreateTimelineObject Fn GetBPGC W (some o) name upd fin =
        (W ++ [tl], some W.length) ∧
      tl = (if T.bAutoPlay = true then
          ({ BindCreated Fn GetBPGC o (CreateInitialized GetBPGC o name) name upd fin with
            bPendingAutoPlay := false }).Play
        else BindCreated Fn GetBPGC o (CreateInitialized GetBPGC o name) name upd fin) ∧
      SameBindings (BindCreated Fn GetBPGC o (CreateInitialized GetBPGC o name) name upd fin)
        tl ∧
      (upd ≠ NAME_None → Fn o upd = true → tl.OnTimelineUpdate.count ⟨o, upd⟩ = 1) ∧
      (fin ≠ NAME_None → Fn o fin = true → tl.OnTimelineFinished.count ⟨o, fin⟩ = 1) ∧
      (∀ (b : UTimelineObjectBinding) (Entry : FTimelineObjectBindingEntry)
        (track fn : FName),
        FirstTimelineObjectBinding cls.DynamicBindingObjects = some b →
        FindBindingEntry b.TimelineBindings name = some Entry →
        (track, fn) ∈ Entry.EventTrackFunctionNames →
        fn ≠ NAME_None → track ≠ NAME_None → Fn o fn = true →
        (tl.EventTrackListeners track).count ⟨o, fn⟩ = 1) ∧
      tl.bPendingAutoPlay = false ∧ tl.IsPlaying = T.bAutoPlay := by
  have hinit : ∀ s : UTimelineObject,
      (s.InitializeFromTemplate (some T)).IsPlaying = s.IsPlaying ∧
      (T.bAutoPlay = true → (s.InitializeFromTemplate (some T)).bPendingAutoPlay = true) := by
    intro s
    refine ⟨(InitFrame_InitializeFromTemplate s (some T)).playing, ?_⟩
    intro ha
    rw [InitializeFromTemplate_pending, ha]
    rfl
  have hc := SameCore_BindCreated Fn GetBPGC o (CreateInitialized GetBPGC o name) name upd fin
  have hplay : (BindCreated Fn GetBPGC o (CreateInitialized GetBPGC o name) name upd
      fin).IsPlaying = false := by
    simp only [IsPlaying, FTimeline.IsPlaying, hc.timeline]
    rw [CreateInitialized_with_template GetBPGC o name cls T hcls hT]
    exact (InitFrame_InitializeFromTemplate _ (some T)).playing
  have hpend : (BindCreated Fn GetBPGC o (CreateInitialized GetBPGC o name) name upd
      fin).bPendingAutoPlay = T.bAutoPlay := by
    rw [hc.pendingAutoPlay, CreateInitialized_with_template GetBPGC o name cls T hcls hT,
      InitializeFromTemplate_pending]
    simp [new]
  obtain ⟨l1, l2, l3⟩ := BindCreated_listeners Fn GetBPGC o (CreateInitialized GetBPGC o name)
    name upd fin (UniqueBindings_CreateInitialized GetBPGC o name)
    (TrackingSound_CreateInitialized GetBPGC o name)
  have hsb := SameBindings_TriggerAutoPlay
    (BindCreated Fn GetBPGC o (CreateInitialized GetBPGC o name) name upd fin)
  refine ⟨hinit, hplay, hpend, l1, l2,
    fun b Entry track fn hb he hp hfn htrack hex =>
      l3 cls b Entry track fn hcls hb he hp hfn htrack hex,
    _, GetOrCreateTimelineObject_new Fn GetBPGC W o name upd fin hfind, ?_, hsb, ?_, ?_, ?_,
    ?_, ?_⟩
  · simp only [TriggerAutoPlay, hpend]
  · intro hn hex
    rw [hsb.update]
    exact l1 hn hex
  · intro hn hex
    rw [hsb.finished]
    exact l2 hn hex
  · intro b Entry track fn hb he hp hfn htrack hex
    simp only [EventTrackListeners, hsb.eventTrack]
    exact l3 cls b Entry track fn hcls hb he hp hfn htrack hex
  · simp only [TriggerAutoPlay, hpend]
    split
    · rfl
    · rename_i ha
      rw [hpend]
      simpa using ha
  · simp only [TriggerAutoPlay, hpend]
    split
    · rename_i ha
      rw [ha]
      rfl
    · rename_i ha
      rw [hplay]
      simpa using Eq.symm (by simpa using ha : T.bAutoPlay = false)

theorem deferred_autoplay_ordering_witness :
    (BindCreated (fun _ _ => true) doorGetBPGC 7 (CreateInitialized doorGetBPGC 7 "Door") "Door"
      "OnTick" "OnDone").IsPlaying = false ∧
    (BindCreated (fun _ _ => true) doorGetBPGC 7 (CreateInitialized doorGetBPGC 7 "Door") "Door"
      "OnTick" "OnDone").OnTimelineUpdate.count ⟨7, "OnTick"⟩ = 1 ∧
    (BindCreated (fun _ _ => true) doorGetBPGC 7 (CreateInitialized doorGetBPGC 7 "Door") "Door"
      "OnTick" "OnDone").OnTimelineFinished.count ⟨7, "OnDone"⟩ = 1 ∧
    ((BindCreated (fun _ _ => true) doorGetBPGC 7 (CreateInitialized doorGetBPGC 7 "Door")
      "Door" "OnTick" "OnDone").EventTrackListeners "Opened").count ⟨7, "OnOpened"⟩ = 1 ∧
    ∃ tl, GetOrCreateTimelineObject (fun _ _ => true) doorGetBPGC [] (some 7) "Door" "OnTick"
        "OnDone" = ([] ++ [tl], some 0) ∧
      (tl.EventTrackListeners "Opened").count ⟨7, "OnOpened"⟩ = 1 ∧
      tl.bPendingAutoPlay = false ∧ tl.IsPlaying = true :=
  have h := deferred_autoplay_ordering (fun _ _ => true) doorGetBPGC [] 7 "Door" "OnTick"
    "OnDone" doorClass doorTemplate rfl rfl rfl
  match h with
  | ⟨_, h2, _, h4, h5, h6, tl, h7, _, _, _, _, h12, h13, h14⟩ =>
    ⟨h2, h4 (by decide) rfl, h5 (by decide) rfl,
      h6 ⟨[⟨"Door", "None", "None", [("Opened", "OnOpened")]⟩]⟩
        ⟨"Door", "None", "None", [("Opened", "OnOpened")]⟩ "Opened" "OnOpened" rfl rfl
        (List.mem_singleton_self _) (by decide) (by decide) rfl,
      tl, h7,
      h12 ⟨[⟨"Door", "None", "None", [("Opened", "OnOpened")]⟩]⟩
        ⟨"Door", "None", "None", [("Opened", "OnOpened")]⟩ "Opened" "OnOpened" rfl rfl
        (List.mem_singleton_self _) (by decide) (by decide) rfl,
      h13, h14⟩

end UTimelineObject

namespace UTimelineObject

theorem FinishAt_count_update (s : UTimelineObject) (Endpoint : ℚ)
    (hcb : s.ConstructorCallbacks) :
    (s.FinishAt Endpoint).2.count Notification.TimelineUpdate = 1 := by
  have hs := SetPlaybackPosition_update s Endpoint true hcb
  have e2 : (Internal_OnTimelineUpdate (s.WithCursor
      (max 0 (min Endpoint s.TheTimeline.GetTimelineLength)))).1.TheTimeline.TimelineFinishedFunc =
      FOnTimelineEvent.Internal_OnTimelineFinished := hcb.2
  have hf : (s.FinishAt Endpoint).2 =
      (Internal_OnTimelineUpdate (s.WithCursor
        (max 0 (min Endpoint s.TheTimeline.GetTimelineLength)))).2 ++
        [Notification.TimelineFinished] := by
    simp only [FinishAt, hs, e2, ExecuteIfBound, Internal_OnTimelineFinished]
  rw [hf, List.count_append, (Internal_OnTimelineUpdate_count_update _).1]
  simp [List.count_cons]

/-- A tick of a playing object whose callbacks are the constructor's runs the update
callback once: the Update channel is broadcast exactly once. -/
theorem TickTimeline_count_update (s : UTimelineObject) (dt : ℚ)
    (hcb : s.ConstructorCallbacks) (hplay : s.IsPlaying = true) :
    (s.TickTimeline dt).2.count Notification.TimelineUpdate = 1 := by
  have hp : s.TheTimeline.bPlaying = true := hplay
  have hset : ∀ p, (s.SetPlaybackPosition p true true).2.count Notification.TimelineUpdate =
      1 := by
    intro p
    rw [SetPlaybackPosition_update s p true hcb]
    exact (Internal_OnTimelineUpdate_count_update _).1
  have hfin : ∀ p, (s.Stop.FinishAt p).2.count Notification.TimelineUpdate = 1 :=
    fun p => FinishAt_count_update s.Stop p hcb
  simp only [TickTimeline, hp, if_true]
  repeat' split
  all_goals first
    | exact hset _
    | exact hfin _

/-- C16, amended (autoplay with a trigger at time 0 and the first tick): for an instance
created by `GetOrCreateTimelineObject` from a definition that is not looping, has autoplay
set and has an event track whose only key is at time 0, with a listener declared for that
track that exists on the owner, the instance is playing on return and the listener is
bound to the track exactly once; the first `Tick` whose delta is positive broadcasts the
Update channel once and broadcasts nothing on the track, so the bound listener is invoked
zero times: that evaluation only stores the cursor as the baseline of the track. -/
theorem first_tick_only_baselines (Fn : UObject → FName → Bool)
    (GetBPGC : UObject → Option UBlueprintGeneratedClass) (W : World) (o : UObject)
    (name upd fin : FName) (cls : UBlueprintGeneratedClass) (T : UTimelineTemplate)
    (Track : FTTEventTrack) (c : UCurveFloat) (b : UTimelineObjectBinding)
    (Entry : FTimelineObjectBindingEntry) (fn : FName) (ctx : FTickContext) (dt : ℚ)
    (hfind : FindTimelineObject W (some o) name = none) (hcls : GetBPGC o = some cls)
    (hT : FindTemplate cls.Timelines name = some T) (hauto : T.bAutoPlay = true)
    (_hloop : T.bLoop = false)
    (hmem : Track ∈ T.EventTracks) (hc : Track.CurveKeys = some c)
    (_hkeys : c.FloatCurve.Keys.map FRichCurveKey.Time = [0])
    (hn : Track.TrackName ≠ NAME_None)
    (hb : FirstTimelineObjectBinding cls.DynamicBindingObjects = some b)
    (he : FindBindingEntry b.TimelineBindings name = some Entry)
    (hp : (Track.TrackName, fn) ∈ Entry.EventTrackFunctionNames)
    (hfn : fn ≠ NAME_None) (hex : Fn o fn = true) :
    ∃ tl, GetOrCreateTimelineObject Fn GetBPGC W (some o) name upd fin =
        (W ++ [tl], some W.length) ∧
      tl.IsPlaying = true ∧
      (tl.EventTrackListeners Track.TrackName).count ⟨o, fn⟩ = 1 ∧
      (0 < TickDeltaTime ctx tl dt →
        (tl.Tick ctx dt).2.count Notification.TimelineUpdate = 1 ∧
        (tl.Tick ctx dt).2.count (Notification.EventTrack Track.TrackName) = 0 ∧
        (tl.Tick ctx dt).1.LastEventTrackPositions.Find Track.TrackName =
          some (tl.Tick ctx dt).1.GetPlaybackPosition) := by
  obtain ⟨hwf, hcb, hun⟩ := created_tracks Fn GetBPGC o name upd fin cls T hcls hT
  have hplay := created_playing Fn GetBPGC o name upd fin cls T hcls hT hauto
  have htick := TickTimeline_unbaselined _ Track.TrackName
    (TickDeltaTime ctx (TriggerAutoPlay (BindCreated Fn GetBPGC o
      (CreateInitialized GetBPGC o name) name upd fin)) dt) hwf (hun Track c hmem hc hn) hcb
  have hupd := TickTimeline_count_update _
    (TickDeltaTime ctx (TriggerAutoPlay (BindCreated Fn GetBPGC o
      (CreateInitialized GetBPGC o name) name upd fin)) dt) hcb hplay
  have hsb := SameBindings_TriggerAutoPlay
    (BindCreated Fn GetBPGC o (CreateInitialized GetBPGC o name) name upd fin)
  have hl := (BindCreated_listeners Fn GetBPGC o (CreateInitialized GetBPGC o name) name upd
    fin (UniqueBindings_CreateInitialized GetBPGC o name)
    (TrackingSound_CreateInitialized GetBPGC o name)).2.2 cls b Entry Track.TrackName fn hcls
    hb he hp hfn hn hex
  refine ⟨_, GetOrCreateTimelineObject_new Fn GetBPGC W o name upd fin hfind,
    hplay, ?_, fun _ => ⟨hupd, htick.1, htick.2 hplay⟩⟩
  simp only [EventTrackListeners, hsb.eventTrack]
  exact hl

theorem first_tick_only_baselines_witness :
    doorCreated.IsPlaying = true ∧
    (doorCreated.EventTrackListeners "Opened").count ⟨7, "OnOpened"⟩ = 1 ∧
    (doorCreated.Tick ⟨1, fun _ => none⟩ 1).2.count Notification.TimelineUpdate = 1 ∧
    (doorCreated.Tick ⟨1, fun _ => none⟩ 1).2.count (Notification.EventTrack "Opened") = 0 ∧
    (doorCreated.Tick ⟨1, fun _ => none⟩ 1).1.LastEventTrackPositions.Find "Opened" =
      some (doorCreated.Tick ⟨1, fun _ => none⟩ 1).1.GetPlaybackPosition :=
  have h := first_tick_only_baselines (fun _ _ => true) doorGetBPGC [] 7 "Door" "OnTick" "None"
    doorClass doorTemplate ⟨"Opened", some (singleKeyCurve 0)⟩ (singleKeyCurve 0)
    ⟨[⟨"Door", "None", "None", [("Opened", "OnOpened")]⟩]⟩
    ⟨"Door", "None", "None", [("Opened", "OnOpened")]⟩ "OnOpened" ⟨1, fun _ => none⟩ 1
    rfl rfl rfl rfl rfl (List.mem_singleton_self _) rfl rfl (by decide) rfl rfl
    (List.mem_singleton_self _) (by decide) rfl
  match h with
  | ⟨tl, h1, h2, h3, h4⟩ =>
    have e : tl = doorCreated := by
      have := congrArg (fun r => r.1) h1
      simp only [GetOrCreateTimelineObject_new (fun _ _ => true) doorGetBPGC [] 7 "Door" "OnTick"
        "None" rfl, List.nil_append, List.cons.injEq, and_true] at this
      exact this.symm
    have h5 : 0 < TickDeltaTime ⟨1, fun _ => none⟩ doorCreated 1 := by decide!
    ⟨e ▸ h2, e ▸ h3, (e ▸ h4 : _) h5⟩

end UTimelineObject

end ObjectTimeline
